import Mathlib

/-!
# A shallow embedding of the SP1 RV32IM runtime core

This file embeds `src/core/src/runtime/mod.rs` (the `Runtime` interpreter of the
SP1 virtual machine) into Lean and proves properties of the embedding.

Conventions of the embedding:
* Machine words (`u32`) are represented as `Nat`, reduced modulo `2^32` exactly
  where the Rust code wraps.  Signed views go through `Int`.
* The live memory map `HashMap<u32, (u32, u32, u32)>` is represented as a
  function `Nat → Option (Nat × Nat × Nat)`.
* Rust panics / failed `assert!`s are represented by `Option`: a function that
  can abort returns `none` on the aborting input.
* Supporting items that live in sibling modules that are not part of the given
  sources (`state.rs`, `instruction.rs`, `register.rs`, `syscall.rs`) are
  modelled from the specification and from their call sites in `mod.rs`; each
  such definition carries a doc comment saying so.
* Syscall handler implementations are external to the core; they are a
  parameter (`SyscallEnv`) of the interpreter.
-/

namespace SP1

/-! ## Word arithmetic (u32 / i32 semantics) -/

/-- `2^32`, the modulus for `u32` arithmetic. -/
def U32Mod : Nat := 4294967296

/-- Reduce a natural number modulo `2^32` (a Rust `as u32` truncating cast). -/
def wrap (n : Nat) : Nat := n % U32Mod

/-- `u32::wrapping_add`. -/
def wrapAdd (a b : Nat) : Nat := (a + b) % U32Mod

/-- `u32::wrapping_sub`. -/
def wrapSub (a b : Nat) : Nat := (a + U32Mod - b % U32Mod) % U32Mod

/-- `u32::wrapping_mul`. -/
def wrapMul (a b : Nat) : Nat := (a * b) % U32Mod

/-- The two's-complement signed view of a `u32` (`as i32`). -/
def toSigned (a : Nat) : Int :=
  if a % U32Mod < 2147483648 then (a % U32Mod : Int) else (a % U32Mod : Int) - 4294967296

/-- Truncating cast from a signed quantity back to `u32` (`as u32`). -/
def toU32 (i : Int) : Nat := (Int.emod i 4294967296).toNat

/-- `u32::wrapping_shl`: the shift amount is masked to its low 5 bits. -/
def wrapShl (a b : Nat) : Nat := (a * 2 ^ (b % 32)) % U32Mod

/-- `u32::wrapping_shr` (logical): the shift amount is masked to its low 5 bits. -/
def wrapShr (a b : Nat) : Nat := a / 2 ^ (b % 32)

/-- `i32::wrapping_shr` (arithmetic right shift, then cast back to `u32`). -/
def wrapSra (a b : Nat) : Nat := toU32 (Int.fdiv (toSigned a) (2 ^ (b % 32)))

/-! ## Data model -/

/-- The RV32IM opcode set interpreted by the runtime
(`Opcode` in `opcode.rs`, as dispatched by `Runtime::execute`). -/
inductive Opcode where
  | ADD | SUB | XOR | OR | AND | SLL | SRL | SRA | SLT | SLTU
  | LB | LH | LW | LBU | LHU | SB | SH | SW
  | BEQ | BNE | BLT | BGE | BLTU | BGEU
  | JAL | JALR | AUIPC | ECALL | EBREAK
  | MUL | MULH | MULHU | MULHSU | DIV | DIVU | REM | REMU
  | UNIMP
deriving DecidableEq, Repr

/-- A decoded instruction: opcode, three operand fields and the two
immediate flags (`Instruction` in `instruction.rs`). -/
structure Instruction where
  opcode : Opcode
  op_a : Nat
  op_b : Nat
  op_c : Nat
  imm_b : Bool
  imm_c : Bool
deriving DecidableEq, Repr

/-- Modelled from the spec: `register.rs` is not among the given sources.  A
register is one of the labels `X0..X31`, convertible from the integers
`0..31`; `Register::from_u32` aborts on an out-of-range index (§3, §6 "invalid
register indices" are fatal).  We represent a register by its index. -/
def Register.fromU32 (n : Nat) : Option Nat :=
  if n < 32 then some n else none

/-- Modelled from the spec (§4.1): R-type projection `(rd, rs1, rs2)` of an
instruction; `instruction.rs` is not among the given sources.  All three
operand fields denote registers. -/
def Instruction.r_type (i : Instruction) : Option (Nat × Nat × Nat) := do
  let rd ← Register.fromU32 i.op_a
  let rs1 ← Register.fromU32 i.op_b
  let rs2 ← Register.fromU32 i.op_c
  pure (rd, rs1, rs2)

/-- Modelled from the spec (§4.1): I-type projection `(rd, rs1, imm)`. -/
def Instruction.i_type (i : Instruction) : Option (Nat × Nat × Nat) := do
  let rd ← Register.fromU32 i.op_a
  let rs1 ← Register.fromU32 i.op_b
  pure (rd, rs1, i.op_c)

/-- Modelled from the spec (§4.1) and the call site `Runtime::store_rr`:
S-type projection `(rs1, rs2, imm)` where `rs1 = op_a` holds the stored value
and `rs2 = op_b` the base address. -/
def Instruction.s_type (i : Instruction) : Option (Nat × Nat × Nat) := do
  let rs1 ← Register.fromU32 i.op_a
  let rs2 ← Register.fromU32 i.op_b
  pure (rs1, rs2, i.op_c)

/-- Modelled from the spec (§4.1) and the call site `Runtime::branch_rr`:
B-type projection `(rs1, rs2, imm)`. -/
def Instruction.b_type (i : Instruction) : Option (Nat × Nat × Nat) := do
  let rs1 ← Register.fromU32 i.op_a
  let rs2 ← Register.fromU32 i.op_b
  pure (rs1, rs2, i.op_c)

/-- Modelled from the spec (§4.1): U-type projection `(rd, imm)`. -/
def Instruction.u_type (i : Instruction) : Option (Nat × Nat) := do
  let rd ← Register.fromU32 i.op_a
  pure (rd, i.op_b)

/-- Modelled from the spec (§4.1): J-type projection `(rd, imm)`. -/
def Instruction.j_type (i : Instruction) : Option (Nat × Nat) := do
  let rd ← Register.fromU32 i.op_a
  pure (rd, i.op_b)

/-- `MemoryRecord`: the `(value, shard, timestamp)` stored per live address. -/
structure MemoryRecord where
  value : Nat
  shard : Nat
  timestamp : Nat
deriving DecidableEq, Repr

/-- `MemoryReadRecord::new(value, shard, timestamp, prev_shard, prev_timestamp)`. -/
structure MemoryReadRecord where
  value : Nat
  shard : Nat
  timestamp : Nat
  prev_shard : Nat
  prev_timestamp : Nat
deriving DecidableEq, Repr

/-- `MemoryWriteRecord::new(value, shard, timestamp, prev_value, prev_shard,
prev_timestamp)`. -/
structure MemoryWriteRecord where
  value : Nat
  shard : Nat
  timestamp : Nat
  prev_value : Nat
  prev_shard : Nat
  prev_timestamp : Nat
deriving DecidableEq, Repr

/-- A stashed access record (`record.into()` in `mr_cpu`/`mw_cpu`): either a
read record or a write record. -/
inductive MemoryRecordEnum where
  | read (r : MemoryReadRecord)
  | write (w : MemoryWriteRecord)
deriving DecidableEq, Repr

/-- The per-cycle `CpuRecord` with one slot per access position. -/
structure CpuRecord where
  a : Option MemoryRecordEnum := none
  b : Option MemoryRecordEnum := none
  c : Option MemoryRecordEnum := none
  memory : Option MemoryRecordEnum := none
deriving DecidableEq, Repr

/-- A CPU event as assembled by `Runtime::emit_cpu`. -/
structure CpuEvent where
  shard : Nat
  clk : Nat
  pc : Nat
  instruction : Instruction
  a : Nat
  a_record : Option MemoryRecordEnum
  b : Nat
  b_record : Option MemoryRecordEnum
  c : Nat
  c_record : Option MemoryRecordEnum
  memory : Option Nat
  memory_record : Option MemoryRecordEnum
deriving DecidableEq, Repr

/-- An ALU event as assembled by `Runtime::emit_alu`. -/
structure AluEvent where
  clk : Nat
  opcode : Opcode
  a : Nat
  b : Nat
  c : Nat
deriving DecidableEq, Repr

/-- The event buffers of the `ExecutionRecord` that `mod.rs` appends to
(the byte-lookup and memory-argument tables filled by `postprocess` are not
needed by the properties below and the program pointer is kept in `Runtime`). -/
structure ExecutionRecord where
  cpu_events : List CpuEvent := []
  add_events : List AluEvent := []
  sub_events : List AluEvent := []
  bitwise_events : List AluEvent := []
  shift_left_events : List AluEvent := []
  shift_right_events : List AluEvent := []
  lt_events : List AluEvent := []
  mul_events : List AluEvent := []
  divrem_events : List AluEvent := []
deriving DecidableEq, Repr

/-- The live memory map `{u32 → (u32 value, u32 shard, u32 timestamp)}`. -/
def Mem : Type := Nat → Option (Nat × Nat × Nat)

/-- Pointwise update of the memory map (a `HashMap` insert). -/
def Mem.set (m : Mem) (addr : Nat) (e : Nat × Nat × Nat) : Mem :=
  fun x => if x = addr then some e else m x

/-- A program: decoded instructions, `pc_base`, `pc_start` and the sparse
initial memory image (`Program` in `program.rs`). -/
structure Program where
  instructions : List Instruction
  pc_base : Nat
  pc_start : Nat
  memory_image : List (Nat × Nat) := []

/-- Modelled from the spec (§3 Lifecycle): `state.rs` is not among the given
sources.  `ExecutionState::new(pc_start)` starts at the program's entry PC
with empty memory, zero clocks, and the first shard.  (The initial shard id is
`1`; shard `0`, timestamp `0` is reserved by `postprocess` for never-accessed
cells.) -/
structure ExecutionState where
  pc : Nat
  clk : Nat
  global_clk : Nat
  current_shard : Nat
  memory : Mem

/-- Modelled from the spec: the initial execution state, see `ExecutionState`. -/
def ExecutionState.new (pc_start : Nat) : ExecutionState :=
  { pc := pc_start, clk := 0, global_clk := 0, current_shard := 1,
    memory := fun _ => none }

/-- The access positions within one cycle (`AccessPosition` in `mod.rs`). -/
inductive AccessPosition where
  | Memory | C | B | A
deriving DecidableEq, Repr

/-- The numeric value of an access position (`Memory=0, C=1, B=2, A=3`). -/
def AccessPosition.idx : AccessPosition → Nat
  | .Memory => 0
  | .C => 1
  | .B => 2
  | .A => 3

/-- The runtime: program, state, event record, per-cycle CPU record, shard
size, the unconstrained flag and the unconstrained-mode memory journal
(the `memory_diff` field of `ForkState`).  The trace buffer, cycle tracker and
the remaining `ForkState` snapshot fields play no role in the embedded
operations. -/
structure Runtime where
  program : Program
  state : ExecutionState
  record : ExecutionRecord
  cpu_record : CpuRecord
  shard_size : Nat
  unconstrained : Bool
  memory_diff : Nat → Option (Option (Nat × Nat × Nat))

/-- `Runtime::new`: note `shard_size: env::shard_size() as u32 * 4`
(`env::shard_size()` is the externally configured `SHARD_SIZE`, here the
parameter `shardSizeEnv`). -/
def Runtime.new (shardSizeEnv : Nat) (program : Program) : Runtime :=
  { program := program
    state := ExecutionState.new program.pc_start
    record := {}
    cpu_record := {}
    shard_size := shardSizeEnv * 4
    unconstrained := false
    memory_diff := fun _ => none }

/-- `Runtime::register`: read a register's current value from the memory map
(`0` if the address was never touched). -/
def Runtime.register (rt : Runtime) (reg : Nat) : Nat :=
  match rt.state.memory reg with
  | some (value, _, _) => value
  | none => 0

/-- `Runtime::word`: read a word's current value from the memory map
(`0` if the address was never touched). -/
def Runtime.word (rt : Runtime) (addr : Nat) : Nat :=
  match rt.state.memory addr with
  | some (value, _, _) => value
  | none => 0

/-- `Runtime::byte`. -/
def Runtime.byte (rt : Runtime) (addr : Nat) : Nat :=
  (rt.word (addr - addr % 4)) / 2 ^ ((addr % 4) * 8) % 256

/-- `Runtime::align`: `addr - addr % 4`. -/
def Runtime.align (addr : Nat) : Nat := addr - addr % 4

/-- The unconstrained-mode journal step shared by `mr` and `mw`: if the
runtime is unconstrained, record the prior entry (or its absence) for `addr`
into `memory_diff` unless `addr` was already journaled. -/
def Runtime.journal (rt : Runtime) (addr : Nat) :
    Nat → Option (Option (Nat × Nat × Nat)) :=
  if rt.unconstrained then
    fun x =>
      if x = addr then
        match rt.memory_diff addr with
        | some d => some d
        | none => some (rt.state.memory addr)
      else rt.memory_diff x
  else rt.memory_diff

/-- `Runtime::mr`: ensure an entry exists at `addr` (defaulting to
`(0, 0, 0)`), capture `(value, prev_shard, prev_timestamp)`, overwrite the
entry's shard and timestamp with the supplied `(shard, clk)`, and return the
read record. -/
def Runtime.mr (rt : Runtime) (addr shard clk : Nat) :
    MemoryReadRecord × Runtime :=
  let diff := rt.journal addr
  let entry := (rt.state.memory addr).getD (0, 0, 0)
  let mem := rt.state.memory.set addr (entry.1, shard, clk)
  (⟨entry.1, shard, clk, entry.2.1, entry.2.2⟩,
   { rt with state := { rt.state with memory := mem }, memory_diff := diff })

/-- `Runtime::mw`: same as `mr` but also overwrite the stored value; the
returned record carries the pre-write value. -/
def Runtime.mw (rt : Runtime) (addr value shard clk : Nat) :
    MemoryWriteRecord × Runtime :=
  let diff := rt.journal addr
  let entry := (rt.state.memory addr).getD (0, 0, 0)
  let mem := rt.state.memory.set addr (value, shard, clk)
  (⟨value, shard, clk, entry.1, entry.2.1, entry.2.2⟩,
   { rt with state := { rt.state with memory := mem }, memory_diff := diff })

/-- `Runtime::validate_memory_access`: position `Memory` requires a word
aligned address above the register file (`addr > 40`); register positions
require a valid register index.  (The release-mode `BabyBear` canonicality
probe on line 165 has no effect and is not modelled.) -/
def validateMemoryAccess (addr : Nat) (position : AccessPosition) : Bool :=
  match position with
  | .Memory => addr % 4 == 0 && 40 < addr
  | _ => addr < 32

/-- Store an access record into the `CpuRecord` slot of a position
(the `match position` blocks of `mr_cpu` and `mw_cpu`). -/
def CpuRecord.setSlot (r : CpuRecord) (position : AccessPosition)
    (e : MemoryRecordEnum) : CpuRecord :=
  match position with
  | .A => { r with a := some e }
  | .B => { r with b := some e }
  | .C => { r with c := some e }
  | .Memory => { r with memory := some e }

/-- Read the `CpuRecord` slot of a position. -/
def CpuRecord.slot (r : CpuRecord) (position : AccessPosition) :
    Option MemoryRecordEnum :=
  match position with
  | .A => r.a
  | .B => r.b
  | .C => r.c
  | .Memory => r.memory

/-- `Runtime::mr_cpu`: validate the access, call `mr` at the current shard and
`clk + position`, and (when not unconstrained) stash the read record into the
position's `CpuRecord` slot.  A failed validation aborts (`none`).  Note that
`mr_cpu` overwrites the slot unconditionally - it does not assert emptiness. -/
def Runtime.mr_cpu (rt : Runtime) (addr : Nat) (position : AccessPosition) :
    Option (Nat × Runtime) :=
  if validateMemoryAccess addr position then
    let p := rt.mr addr rt.state.current_shard (rt.state.clk + position.idx)
    let rt1 := p.2
    let rt2 :=
      if rt1.unconstrained then rt1
      else { rt1 with cpu_record := rt1.cpu_record.setSlot position (.read p.1) }
    some (p.1.value, rt2)
  else none

/-- `Runtime::mw_cpu`: validate the access, call `mw` at the current shard and
`clk + position`, and (when not unconstrained) assert the position's
`CpuRecord` slot is empty before stashing the write record.  A failed
validation or a failed slot assertion aborts (`none`). -/
def Runtime.mw_cpu (rt : Runtime) (addr value : Nat)
    (position : AccessPosition) : Option Runtime :=
  if validateMemoryAccess addr position then
    let p := rt.mw addr value rt.state.current_shard
      (rt.state.clk + position.idx)
    let rt1 := p.2
    if rt1.unconstrained then some rt1
    else
      match rt1.cpu_record.slot position with
      | some _ => none
      | none =>
        some { rt1 with cpu_record := rt1.cpu_record.setSlot position (.write p.1) }
  else none

/-- `Runtime::rr`: read a register through `mr_cpu`. -/
def Runtime.rr (rt : Runtime) (reg : Nat) (position : AccessPosition) :
    Option (Nat × Runtime) :=
  rt.mr_cpu reg position

/-- `Runtime::rw`: writes to `X0` are silently dropped; otherwise write the
register through `mw_cpu` at position `A`. -/
def Runtime.rw (rt : Runtime) (reg value : Nat) : Option Runtime :=
  if reg = 0 then some rt
  else rt.mw_cpu reg value .A

/-- `Runtime::emit_cpu`: append a CPU event assembled from the cycle's data. -/
def Runtime.emit_cpu (rt : Runtime) (shard clk pc : Nat) (i : Instruction)
    (a b c : Nat) (memory_store_value : Option Nat) (rec : CpuRecord) :
    Runtime :=
  { rt with record := { rt.record with cpu_events := rt.record.cpu_events ++
      [{ shard := shard, clk := clk, pc := pc, instruction := i,
         a := a, a_record := rec.a, b := b, b_record := rec.b,
         c := c, c_record := rec.c,
         memory := memory_store_value, memory_record := rec.memory }] } }

/-- `Runtime::emit_alu`: append an ALU event to the bucket of its opcode
class. -/
def Runtime.emit_alu (rt : Runtime) (clk : Nat) (opcode : Opcode)
    (a b c : Nat) : Runtime :=
  let e : AluEvent := { clk := clk, opcode := opcode, a := a, b := b, c := c }
  let r := rt.record
  let r :=
    match opcode with
    | .ADD => { r with add_events := r.add_events ++ [e] }
    | .SUB => { r with sub_events := r.sub_events ++ [e] }
    | .XOR | .OR | .AND => { r with bitwise_events := r.bitwise_events ++ [e] }
    | .SLL => { r with shift_left_events := r.shift_left_events ++ [e] }
    | .SRL | .SRA => { r with shift_right_events := r.shift_right_events ++ [e] }
    | .SLT | .SLTU => { r with lt_events := r.lt_events ++ [e] }
    | .MUL | .MULHU | .MULHSU | .MULH => { r with mul_events := r.mul_events ++ [e] }
    | .DIVU | .REMU | .DIV | .REM => { r with divrem_events := r.divrem_events ++ [e] }
    | _ => r
  { rt with record := r }

/-- The pure result value computed by each arithmetic arm of
`Runtime::execute` (`a` as a function of the operands `b` and `c`); each
equation is the arm's expression transcribed from `mod.rs`. -/
def aluResult (opcode : Opcode) (b c : Nat) : Nat :=
  match opcode with
  | .ADD => wrapAdd b c
  | .SUB => wrapSub b c
  | .XOR => b ^^^ c
  | .OR => b ||| c
  | .AND => b &&& c
  | .SLL => wrapShl b c
  | .SRL => wrapShr b c
  | .SRA => wrapSra b c
  | .SLT => if toSigned b < toSigned c then 1 else 0
  | .SLTU => if b < c then 1 else 0
  | .MUL => wrapMul b c
  | .MULH => toU32 (Int.fdiv (toSigned b * toSigned c) 4294967296)
  | .MULHU => b * c / 4294967296
  | .MULHSU => toU32 (Int.fdiv (toSigned b * (c : Int)) 4294967296)
  | .DIV => if c = 0 then 4294967295 else toU32 (Int.tdiv (toSigned b) (toSigned c))
  | .DIVU => if c = 0 then 4294967295 else b / c
  | .REM => if c = 0 then b else toU32 (Int.tmod (toSigned b) (toSigned c))
  | .REMU => if c = 0 then b else b % c
  | _ => 0

/-- `Runtime::alu_rr`: fetch the destination register and the operand values
of an ALU instruction, reading registers at positions `C` then `B` as the
immediate flags dictate. -/
def Runtime.alu_rr (rt : Runtime) (i : Instruction) :
    Option (Nat × Nat × Nat × Runtime) :=
  if !i.imm_c then do
    let (rd, rs1, rs2) ← i.r_type
    let (c, rt) ← rt.rr rs2 .C
    let (b, rt) ← rt.rr rs1 .B
    pure (rd, b, c, rt)
  else if !i.imm_b && i.imm_c then do
    let (rd, rs1, imm) ← i.i_type
    let (b, rt) ← rt.rr rs1 .B
    pure (rd, b, imm, rt)
  else do
    let rd ← Register.fromU32 i.op_a
    pure (rd, i.op_b, i.op_c, rt)

/-- `Runtime::alu_rw`: write the result into the destination register and
emit the ALU event. -/
def Runtime.alu_rw (rt : Runtime) (i : Instruction) (rd a b c : Nat) :
    Option Runtime := do
  let rt ← rt.rw rd a
  pure (rt.emit_alu rt.state.clk i.opcode a b c)

/-- `Runtime::load_rr`: read the base register at position `B`, add the
immediate (wrapping), and read the aligned word at position `Memory`. -/
def Runtime.load_rr (rt : Runtime) (i : Instruction) :
    Option (Nat × Nat × Nat × Nat × Nat × Runtime) := do
  let (rd, rs1, imm) ← i.i_type
  let (b, rt) ← rt.rr rs1 .B
  let c := imm
  let addr := wrapAdd b c
  let (memory_value, rt) ← rt.mr_cpu (Runtime.align addr) .Memory
  pure (rd, b, c, addr, memory_value, rt)

/-- `Runtime::store_rr`: read `rs2` at position `B` and `rs1` at position `A`,
add the immediate to `b` (wrapping), and fetch the current aligned word by
direct state lookup (`Runtime::word` - no memory access record). -/
def Runtime.store_rr (rt : Runtime) (i : Instruction) :
    Option (Nat × Nat × Nat × Nat × Nat × Runtime) := do
  let (rs1, rs2, imm) ← i.s_type
  let c := imm
  let (b, rt) ← rt.rr rs2 .B
  let (a, rt) ← rt.rr rs1 .A
  let addr := wrapAdd b c
  let memory_value := rt.word (Runtime.align addr)
  pure (a, b, c, addr, memory_value, rt)

/-- `Runtime::branch_rr`: read `rs2` at position `B` and `rs1` at position
`A`. -/
def Runtime.branch_rr (rt : Runtime) (i : Instruction) :
    Option (Nat × Nat × Nat × Runtime) := do
  let (rs1, rs2, imm) ← i.b_type
  let c := imm
  let (b, rt) ← rt.rr rs2 .B
  let (a, rt) ← rt.rr rs1 .A
  pure (a, b, c, rt)

/-- Byte selection of a load: `memory_read_value.to_le_bytes()[addr % 4]`. -/
def selectByte (w addr : Nat) : Nat := w / 2 ^ (addr % 4 * 8) % 256

/-- Half selection of `LH`/`LHU`: the `match (addr >> 1) % 2` of `execute`. -/
def selectHalf (w addr : Nat) : Nat :=
  match addr >>> 1 % 2 with
  | 0 => w &&& 0x0000FFFF
  | 1 => (w &&& 0xFFFF0000) >>> 16
  | _ + 2 => 0

/-- The `((value as i8) as i32) as u32` sign-extending cast chain of `LB`
(for a byte `v < 256`). -/
def signExtendByte (v : Nat) : Nat :=
  if v < 128 then v else 4294967040 + v

/-- The `((value as i16) as i32) as u32` sign-extending cast chain of `LH`
(for a half-word `v < 65536`). -/
def signExtendHalf (v : Nat) : Nat :=
  if v < 32768 then v else 4294901760 + v

/-- The byte-lane splice of `SB`: the `match addr % 4` of `execute`. -/
def sbSplice (a w addr : Nat) : Nat :=
  match addr % 4 with
  | 0 => (a &&& 0x000000FF) + (w &&& 0xFFFFFF00)
  | 1 => (a &&& 0x000000FF) * 256 + (w &&& 0xFFFF00FF)
  | 2 => (a &&& 0x000000FF) * 65536 + (w &&& 0xFF00FFFF)
  | 3 => (a &&& 0x000000FF) * 16777216 + (w &&& 0x00FFFFFF)
  | _ + 4 => 0

/-- The half-lane splice of `SH`: the `match (addr >> 1) % 2` of `execute`. -/
def shSplice (a w addr : Nat) : Nat :=
  match addr >>> 1 % 2 with
  | 0 => (a &&& 0x0000FFFF) + (w &&& 0xFFFF0000)
  | 1 => (a &&& 0x0000FFFF) * 65536 + (w &&& 0x0000FFFF)
  | _ + 2 => 0

/-- Modelled from the spec (§4.7): a syscall handler, whose implementation is
external to the core (`syscall.rs` and the precompiles are not among the given
sources).  `run` receives the runtime (the `SyscallContext` exposes it) and
returns the result word, the context's `next_pc` and the mutated runtime
(whose `state.clk` carries the context's final clock); `none` models a handler
panic. -/
structure Syscall where
  extraCycles : Nat
  run : Runtime → Option (Nat × Nat × Runtime)

/-- Modelled from the spec (§6): the syscall registry `{code → handler}`
provided at runtime construction. -/
def SyscallEnv : Type := List (Nat × Syscall)

/-- Look up a syscall handler by code (`syscall_map.get`). -/
def SyscallEnv.lookup (sys : SyscallEnv) (code : Nat) : Option Syscall :=
  List.lookup code sys

/-- `Runtime::max_syscall_cycles`: the maximum `num_extra_cycles` over the
registered syscalls (`0` if none). -/
def SyscallEnv.maxSyscallCycles (sys : SyscallEnv) : Nat :=
  (sys.map (fun p => p.2.extraCycles)).foldr max 0

/-- The shared tail of `Runtime::execute`: update `state.pc` to `next_pc`,
then emit the CPU event at the (possibly syscall-advanced) current clock. -/
def Runtime.finishCycle (rt : Runtime) (pc next_pc : Nat) (i : Instruction)
    (a b c : Nat) (memory_store_value : Option Nat) : Runtime :=
  let rt := { rt with state := { rt.state with pc := next_pc } }
  rt.emit_cpu rt.state.current_shard rt.state.clk pc i a b c
    memory_store_value rt.cpu_record

/-- `Runtime::execute`: dispatch one instruction over the current state.
`none` models an aborted execution (failed assertion, invalid register index,
`EBREAK`, `UNIMP`, or an unknown syscall).  The eighteen arithmetic arms of
the Rust `match`, which are all of the shape `alu_rr` / compute `a` /
`alu_rw`, share one arm here with the per-opcode expression factored into
`aluResult`. -/
def Runtime.execute (sys : SyscallEnv) (rt0 : Runtime) (i : Instruction) :
    Option Runtime :=
  let pc := rt0.state.pc
  let next_pc := wrapAdd pc 4
  let rt := { rt0 with cpu_record := {} }
  match i.opcode with
  | .ADD | .SUB | .XOR | .OR | .AND | .SLL | .SRL | .SRA | .SLT | .SLTU
  | .MUL | .MULH | .MULHU | .MULHSU | .DIV | .DIVU | .REM | .REMU => do
    let (rd, b, c, rt) ← rt.alu_rr i
    let a := aluResult i.opcode b c
    let rt ← rt.alu_rw i rd a b c
    pure (rt.finishCycle pc next_pc i a b c none)
  | .LB => do
    let (rd, b, c, addr, mrv, rt) ← rt.load_rr i
    let a := signExtendByte (selectByte mrv addr)
    let rt ← rt.rw rd a
    pure (rt.finishCycle pc next_pc i a b c (some mrv))
  | .LH => do
    let (rd, b, c, addr, mrv, rt) ← rt.load_rr i
    if addr % 2 = 0 then
      let a := signExtendHalf (selectHalf mrv addr)
      let rt ← rt.rw rd a
      pure (rt.finishCycle pc next_pc i a b c (some mrv))
    else none
  | .LW => do
    let (rd, b, c, addr, mrv, rt) ← rt.load_rr i
    if addr % 4 = 0 then
      let a := mrv
      let rt ← rt.rw rd a
      pure (rt.finishCycle pc next_pc i a b c (some mrv))
    else none
  | .LBU => do
    let (rd, b, c, addr, mrv, rt) ← rt.load_rr i
    let a := selectByte mrv addr
    let rt ← rt.rw rd a
    pure (rt.finishCycle pc next_pc i a b c (some mrv))
  | .LHU => do
    let (rd, b, c, addr, mrv, rt) ← rt.load_rr i
    if addr % 2 = 0 then
      let a := selectHalf mrv addr
      let rt ← rt.rw rd a
      pure (rt.finishCycle pc next_pc i a b c (some mrv))
    else none
  | .SB => do
    let (a, b, c, addr, mrv, rt) ← rt.store_rr i
    let value := sbSplice a mrv addr
    let rt ← rt.mw_cpu (Runtime.align addr) value .Memory
    pure (rt.finishCycle pc next_pc i a b c (some value))
  | .SH => do
    let (a, b, c, addr, mrv, rt) ← rt.store_rr i
    if addr % 2 = 0 then
      let value := shSplice a mrv addr
      let rt ← rt.mw_cpu (Runtime.align addr) value .Memory
      pure (rt.finishCycle pc next_pc i a b c (some value))
    else none
  | .SW => do
    let (a, b, c, addr, _, rt) ← rt.store_rr i
    if addr % 4 = 0 then
      let value := a
      let rt ← rt.mw_cpu (Runtime.align addr) value .Memory
      pure (rt.finishCycle pc next_pc i a b c (some value))
    else none
  | .BEQ => do
    let (a, b, c, rt) ← rt.branch_rr i
    pure (rt.finishCycle pc (if a = b then wrapAdd pc c else next_pc) i a b c none)
  | .BNE => do
    let (a, b, c, rt) ← rt.branch_rr i
    pure (rt.finishCycle pc (if a ≠ b then wrapAdd pc c else next_pc) i a b c none)
  | .BLT => do
    let (a, b, c, rt) ← rt.branch_rr i
    pure (rt.finishCycle pc
      (if toSigned a < toSigned b then wrapAdd pc c else next_pc) i a b c none)
  | .BGE => do
    let (a, b, c, rt) ← rt.branch_rr i
    pure (rt.finishCycle pc
      (if toSigned b ≤ toSigned a then wrapAdd pc c else next_pc) i a b c none)
  | .BLTU => do
    let (a, b, c, rt) ← rt.branch_rr i
    pure (rt.finishCycle pc (if a < b then wrapAdd pc c else next_pc) i a b c none)
  | .BGEU => do
    let (a, b, c, rt) ← rt.branch_rr i
    pure (rt.finishCycle pc (if b ≤ a then wrapAdd pc c else next_pc) i a b c none)
  | .JAL => do
    let (rd, imm) ← i.j_type
    let b := imm
    let c := 0
    let a := wrapAdd pc 4
    let rt ← rt.rw rd a
    pure (rt.finishCycle pc (wrapAdd pc imm) i a b c none)
  | .JALR => do
    let (rd, rs1, imm) ← i.i_type
    let (b, rt) ← rt.rr rs1 .B
    let c := imm
    let a := wrapAdd pc 4
    let rt ← rt.rw rd a
    pure (rt.finishCycle pc (wrapAdd b c) i a b c none)
  | .AUIPC => do
    let (rd, imm) ← i.u_type
    let b := imm
    let c := imm
    let a := wrapAdd pc b
    let rt ← rt.rw rd a
    pure (rt.finishCycle pc next_pc i a b c none)
  | .ECALL => do
    let syscall_id := rt.register 5
    let init_clk := rt.state.clk
    match sys.lookup syscall_id with
    | none => none
    | some syscall => do
      let (a, ctx_next_pc, rt) ← syscall.run rt
      if rt.state.clk = init_clk + syscall.extraCycles then do
        let rt ← rt.rw 10 a
        let (b, rt) ← rt.rr 5 .B
        pure (rt.finishCycle pc ctx_next_pc i a b 0 none)
      else none
  | .EBREAK => none
  | .UNIMP => none

/-- The clock bookkeeping at the end of each iteration of `Runtime::run`
(lines 811-820): `global_clk += 1`, `clk += 4`, then, when not unconstrained
and `max_syscall_cycles + clk >= shard_size * 4`, move to the next shard and
reset `clk` to `0`. -/
def Runtime.advanceClock (maxSyscallCycles : Nat) (rt : Runtime) : Runtime :=
  let s := { rt.state with global_clk := rt.state.global_clk + 1,
                           clk := rt.state.clk + 4 }
  if !rt.unconstrained && (rt.shard_size * 4 ≤ maxSyscallCycles + s.clk) then
    { rt with state := { s with current_shard := s.current_shard + 1, clk := 0 } }
  else
    { rt with state := s }

/-- The loop guard of `Runtime::run`:
`pc.wrapping_sub(pc_base) < instructions.len() * 4`. -/
def Runtime.inRange (rt : Runtime) : Bool :=
  wrapSub rt.state.pc rt.program.pc_base < rt.program.instructions.length * 4

/-- `Runtime::fetch`: the instruction at index `(pc - pc_base) / 4`. -/
def Runtime.fetch (rt : Runtime) : Option Instruction :=
  rt.program.instructions.get? (wrapSub rt.state.pc rt.program.pc_base / 4)

/-- Up to `fuel` iterations of the main loop of `Runtime::run`: while the PC
is in the instruction range, fetch, execute, and advance the clock.  Returns
the state reached after `fuel` iterations (or at loop exit, whichever comes
first); `none` models an aborted execution. -/
def Runtime.stepN (sys : SyscallEnv) : Nat → Runtime → Option Runtime
  | 0, rt => some rt
  | fuel + 1, rt =>
    if rt.inRange then do
      let i ← rt.fetch
      let rt ← rt.execute sys i
      Runtime.stepN sys fuel (rt.advanceClock sys.maxSyscallCycles)
    else some rt

/-- Load the program's memory image into the memory table
(the "load memory" phase of `Runtime::run`, inserting `(value, 0, 0)`). -/
def loadImage (image : List (Nat × Nat)) (m : Mem) : Mem :=
  image.foldl (fun m p => m.set p.1 (p.2, 0, 0)) m

/-- The state of `Runtime::run` on entry to its main loop: a fresh runtime
with the memory image loaded and `state.clk += 1`. -/
def Runtime.start (shardSizeEnv : Nat) (prog : Program) : Runtime :=
  let rt := Runtime.new shardSizeEnv prog
  let rt := { rt with state := { rt.state with
    memory := loadImage prog.memory_image rt.state.memory } }
  { rt with state := { rt.state with clk := rt.state.clk + 1 } }

/-! ## Concrete programs used in the theorems below -/

/-- The empty program. -/
def emptyProgram : Program := ⟨[], 0, 0, []⟩

/-- The `simple_program` of the runtime tests: three `ADD`s computing `42`. -/
def simpleProgram : Program :=
  ⟨[⟨.ADD, 29, 0, 5, false, true⟩,
    ⟨.ADD, 30, 0, 37, false, true⟩,
    ⟨.ADD, 31, 30, 29, false, false⟩], 0, 0, []⟩

/-- `DIVU X12, X10(=20), X11(=0)` (the division-by-zero scenario). -/
def divuZeroProgram : Program :=
  ⟨[⟨.ADD, 10, 0, 20, false, true⟩,
    ⟨.ADD, 11, 0, 0, false, true⟩,
    ⟨.DIVU, 12, 10, 11, false, false⟩], 0, 0, []⟩

/-- `REMU X12, X10(=20), X11(=0)` (the remainder-by-zero scenario). -/
def remuZeroProgram : Program :=
  ⟨[⟨.ADD, 10, 0, 20, false, true⟩,
    ⟨.ADD, 11, 0, 0, false, true⟩,
    ⟨.REMU, 12, 10, 11, false, false⟩], 0, 0, []⟩

/-! ## C1: shard boundary -/

/-- C1 (confirmed): after each executed instruction, when not unconstrained,
the clock bookkeeping of `Runtime::run` increments `current_shard` and resets
`clk` to `0` exactly when `max_syscall_cycles + clk ≥ shard_size * 4`, where
the `shard_size` field is the externally configured `SHARD_SIZE` value
(`shardSizeEnv`) already multiplied by `4` at construction - so the effective
comparison is against `shardSizeEnv * 4 * 4`.  (`rt.state.clk + 4` is the
clock after this instruction's `clk += 4`.) -/
theorem shard_boundary_exact (shardSizeEnv maxSyscallCycles : Nat)
    (prog : Program) (rt : Runtime)
    (hu : rt.unconstrained = false) (hs : rt.shard_size = shardSizeEnv * 4) :
    (Runtime.new shardSizeEnv prog).shard_size = shardSizeEnv * 4 ∧
    (((rt.advanceClock maxSyscallCycles).state.current_shard =
        rt.state.current_shard + 1 ∧
      (rt.advanceClock maxSyscallCycles).state.clk = 0) ↔
      shardSizeEnv * 4 * 4 ≤ maxSyscallCycles + (rt.state.clk + 4)) := by
  refine ⟨rfl, ?_⟩
  unfold Runtime.advanceClock
  rw [hu, hs]
  by_cases h : shardSizeEnv * 4 * 4 ≤ maxSyscallCycles + (rt.state.clk + 4)
  · simp [h]
  · simp [h]

/-- Witness for C1 at a concrete runtime and configuration. -/
theorem shard_boundary_exact_witness :
    (Runtime.new 1 emptyProgram).shard_size = 1 * 4 ∧
    ((((Runtime.start 1 emptyProgram).advanceClock 0).state.current_shard =
        (Runtime.start 1 emptyProgram).state.current_shard + 1 ∧
      ((Runtime.start 1 emptyProgram).advanceClock 0).state.clk = 0) ↔
      1 * 4 * 4 ≤ 0 + ((Runtime.start 1 emptyProgram).state.clk + 4)) :=
  shard_boundary_exact 1 0 emptyProgram (Runtime.start 1 emptyProgram) rfl rfl

/-! ## C2: `mr` semantics -/

/-- C2 (confirmed): for every address, shard and clk, `mr` returns a record
whose value is the entry's stored value (`0` on first touch) and whose
`prev_shard`/`prev_timestamp` are the entry's previous shard and timestamp;
it overwrites the entry's shard and timestamp with the supplied `(shard,
clk)` while leaving the stored value unchanged (inserting `(0, 0, 0)` first
when no entry exists), and it touches no other address. -/
theorem mr_reads_and_touches (rt : Runtime) (addr shard clk : Nat) :
    (rt.mr addr shard clk).1 =
      ⟨((rt.state.memory addr).getD (0, 0, 0)).1, shard, clk,
       ((rt.state.memory addr).getD (0, 0, 0)).2.1,
       ((rt.state.memory addr).getD (0, 0, 0)).2.2⟩ ∧
    (∀ x, (rt.mr addr shard clk).2.state.memory x =
      if x = addr then
        some (((rt.state.memory addr).getD (0, 0, 0)).1, shard, clk)
      else rt.state.memory x) :=
  ⟨rfl, fun _ => rfl⟩

/-! ## C3: division and remainder special cases -/

/-- C3 (confirmed): `DIV`/`DIVU` by zero produce `0xFFFFFFFF`, `REM`/`REMU`
by zero produce `b`, and signed division overflow (`INT_MIN / -1`) produces
`INT_MIN` with remainder `0`; none of these aborts - in particular the
concrete `DIVU`/`REMU` programs with `c = 0` run to completion. -/
theorem div_rem_defined_outcomes (b : Nat) :
    aluResult .DIV b 0 = 0xFFFFFFFF ∧
    aluResult .DIVU b 0 = 0xFFFFFFFF ∧
    aluResult .REM b 0 = b ∧
    aluResult .REMU b 0 = b ∧
    aluResult .DIV 0x80000000 0xFFFFFFFF = 0x80000000 ∧
    aluResult .REM 0x80000000 0xFFFFFFFF = 0 ∧
    (Runtime.stepN [] 3 (Runtime.start 1024 divuZeroProgram)).map
      (fun rt => rt.register 12) = some 0xFFFFFFFF ∧
    (Runtime.stepN [] 3 (Runtime.start 1024 remuZeroProgram)).map
      (fun rt => rt.register 12) = some 20 := by
  refine ⟨by simp [aluResult], by simp [aluResult], by simp [aluResult],
    by simp [aluResult], by rfl, by rfl, by rfl, by rfl⟩

/-! ## C10: the read-only accessors -/

/-- C10 (confirmed): `register` and `word` return the value stored in the
live memory map (`0` when the address was never touched).  They are pure
state observers - in contrast, `mr` at the same address overwrites the
entry's shard and timestamp (while keeping the value that `word` reports). -/
theorem accessors_pure (rt : Runtime) (reg addr shard clk v s t : Nat) :
    (rt.state.memory reg = some (v, s, t) → rt.register reg = v) ∧
    (rt.state.memory reg = none → rt.register reg = 0) ∧
    (rt.state.memory addr = some (v, s, t) → rt.word addr = v) ∧
    (rt.state.memory addr = none → rt.word addr = 0) ∧
    (rt.mr addr shard clk).2.state.memory addr =
      some (rt.word addr, shard, clk) := by
  refine ⟨fun h => ?_, fun h => ?_, fun h => ?_, fun h => ?_, ?_⟩
  · simp [Runtime.register, h]
  · simp [Runtime.register, h]
  · simp [Runtime.word, h]
  · simp [Runtime.word, h]
  · cases h : rt.state.memory addr with
    | none => simp [Runtime.mr, Runtime.word, Mem.set, h]
    | some e => simp [Runtime.mr, Runtime.word, Mem.set, h]

/-! ## Projection lemmas for the memory primitives -/

/-- `mr` does not flip the unconstrained flag. -/
@[simp] theorem mr_unconstrained (rt : Runtime) (a s c : Nat) :
    (rt.mr a s c).2.unconstrained = rt.unconstrained := rfl

/-- `mr` does not touch the per-cycle CPU record. -/
@[simp] theorem mr_cpu_record (rt : Runtime) (a s c : Nat) :
    (rt.mr a s c).2.cpu_record = rt.cpu_record := rfl

/-- `mr` does not touch the clock. -/
@[simp] theorem mr_clk (rt : Runtime) (a s c : Nat) :
    (rt.mr a s c).2.state.clk = rt.state.clk := rfl

/-- `mr` does not touch the global clock. -/
@[simp] theorem mr_global_clk (rt : Runtime) (a s c : Nat) :
    (rt.mr a s c).2.state.global_clk = rt.state.global_clk := rfl

/-- `mr` does not touch the shard counter. -/
@[simp] theorem mr_shard (rt : Runtime) (a s c : Nat) :
    (rt.mr a s c).2.state.current_shard = rt.state.current_shard := rfl

/-- `mr` does not touch the program counter. -/
@[simp] theorem mr_pc (rt : Runtime) (a s c : Nat) :
    (rt.mr a s c).2.state.pc = rt.state.pc := rfl

/-- `mr` does not touch the event record. -/
@[simp] theorem mr_record (rt : Runtime) (a s c : Nat) :
    (rt.mr a s c).2.record = rt.record := rfl

/-- `mr` does not touch the shard size or the program. -/
@[simp] theorem mr_shard_size (rt : Runtime) (a s c : Nat) :
    (rt.mr a s c).2.shard_size = rt.shard_size := rfl

/-- `mw` does not flip the unconstrained flag. -/
@[simp] theorem mw_unconstrained (rt : Runtime) (a v s c : Nat) :
    (rt.mw a v s c).2.unconstrained = rt.unconstrained := rfl

/-- `mw` does not touch the per-cycle CPU record. -/
@[simp] theorem mw_cpu_record (rt : Runtime) (a v s c : Nat) :
    (rt.mw a v s c).2.cpu_record = rt.cpu_record := rfl

/-- `mw` does not touch the clock. -/
@[simp] theorem mw_clk (rt : Runtime) (a v s c : Nat) :
    (rt.mw a v s c).2.state.clk = rt.state.clk := rfl

/-- `mw` does not touch the global clock. -/
@[simp] theorem mw_global_clk (rt : Runtime) (a v s c : Nat) :
    (rt.mw a v s c).2.state.global_clk = rt.state.global_clk := rfl

/-- `mw` does not touch the shard counter. -/
@[simp] theorem mw_shard (rt : Runtime) (a v s c : Nat) :
    (rt.mw a v s c).2.state.current_shard = rt.state.current_shard := rfl

/-- `mw` does not touch the program counter. -/
@[simp] theorem mw_pc (rt : Runtime) (a v s c : Nat) :
    (rt.mw a v s c).2.state.pc = rt.state.pc := rfl

/-- `mw` does not touch the event record. -/
@[simp] theorem mw_record (rt : Runtime) (a v s c : Nat) :
    (rt.mw a v s c).2.record = rt.record := rfl

/-- `mw` does not touch the shard size or the program. -/
@[simp] theorem mw_shard_size (rt : Runtime) (a v s c : Nat) :
    (rt.mw a v s c).2.shard_size = rt.shard_size := rfl

/-- `mr` changes no stored value: it only refreshes metadata. -/
theorem mr_word (rt : Runtime) (a s c x : Nat) :
    (rt.mr a s c).2.word x = rt.word x := by
  by_cases h : x = a
  · subst h
    cases hm : rt.state.memory x <;>
      simp [Runtime.mr, Runtime.word, Mem.set, hm]
  · simp [Runtime.mr, Runtime.word, Mem.set, h]

/-- `mr` changes no register value. -/
theorem mr_register (rt : Runtime) (a s c x : Nat) :
    (rt.mr a s c).2.register x = rt.register x :=
  mr_word rt a s c x

/-- `mw` changes no stored value other than at its target address. -/
theorem mw_word_ne (rt : Runtime) (a v s c x : Nat) (h : x ≠ a) :
    (rt.mw a v s c).2.word x = rt.word x := by
  simp [Runtime.mw, Runtime.word, Mem.set, h]

/-- Reading back the slot just set in a `CpuRecord`. -/
theorem CpuRecord.slot_setSlot (r : CpuRecord) (pos : AccessPosition)
    (e : MemoryRecordEnum) : (r.setSlot pos e).slot pos = some e := by
  cases pos <;> rfl

/-- `register` and `word` are the same lookup. -/
theorem register_eq_word (rt : Runtime) (x : Nat) :
    rt.register x = rt.word x := rfl

/-- The value field of an `mr` record is the current stored value. -/
theorem mr_value (rt : Runtime) (a s c : Nat) :
    (rt.mr a s c).1.value = rt.register a := by
  cases h : rt.state.memory a <;>
    simp [Runtime.mr, Runtime.register, h]

/-- The full memory map after `mr`: only the metadata at `a` changes. -/
theorem mr_memory (rt : Runtime) (a s c x : Nat) :
    (rt.mr a s c).2.state.memory x =
      if x = a then some (rt.register a, s, c) else rt.state.memory x := by
  by_cases h : x = a
  · subst h
    cases hm : rt.state.memory x <;>
      simp [Runtime.mr, Runtime.register, Mem.set, hm]
  · simp [Runtime.mr, Mem.set, h]

/-- The full memory map after `mw`: the entry at `a` becomes `(v, s, c)`. -/
theorem mw_memory (rt : Runtime) (a v s c x : Nat) :
    (rt.mw a v s c).2.state.memory x =
      if x = a then some (v, s, c) else rt.state.memory x := by
  by_cases h : x = a
  · subst h; simp [Runtime.mw, Mem.set]
  · simp [Runtime.mw, Mem.set, h]

/-- Reading the register just written by `mw`. -/
theorem mw_register_self (rt : Runtime) (a v s c : Nat) :
    (rt.mw a v s c).2.register a = v := by
  simp [Runtime.register, mw_memory]

/-- Reading another register after `mw`. -/
theorem mw_register_ne (rt : Runtime) (a v s c x : Nat) (h : x ≠ a) :
    (rt.mw a v s c).2.register x = rt.register x := by
  simp [Runtime.register, mw_memory, h]

/-- The `mw` record's `prev_value` is the overwritten stored value. -/
theorem mw_prev_value (rt : Runtime) (a v s c : Nat) :
    (rt.mw a v s c).1.prev_value = rt.register a := by
  cases h : rt.state.memory a <;>
    simp [Runtime.mw, Runtime.register, h]

/-- The runtime produced by a successful non-unconstrained `mr_cpu`: the
`mr` mutation plus the read record stashed into the position's slot (a proof
abbreviation, tied to `mr_cpu` by `mr_cpu_eq`). -/
def Runtime.afterRead (rt : Runtime) (addr : Nat) (pos : AccessPosition) :
    Runtime :=
  { (rt.mr addr rt.state.current_shard (rt.state.clk + pos.idx)).2 with
    cpu_record := rt.cpu_record.setSlot pos
      (.read (rt.mr addr rt.state.current_shard
        (rt.state.clk + pos.idx)).1) }

/-- The runtime produced by a successful non-unconstrained `mw_cpu`: the
`mw` mutation plus the write record stashed into the position's slot (a proof
abbreviation, tied to `mw_cpu` by `mw_cpu_eq`). -/
def Runtime.afterWrite (rt : Runtime) (addr value : Nat)
    (pos : AccessPosition) : Runtime :=
  { (rt.mw addr value rt.state.current_shard (rt.state.clk + pos.idx)).2 with
    cpu_record := rt.cpu_record.setSlot pos
      (.write (rt.mw addr value rt.state.current_shard
        (rt.state.clk + pos.idx)).1) }

/-- `afterRead` changes no register value. -/
@[simp] theorem afterRead_register (rt : Runtime) (a : Nat)
    (p : AccessPosition) (x : Nat) :
    (rt.afterRead a p).register x = rt.register x :=
  mr_register rt a _ _ x

/-- `afterRead` changes no stored word. -/
@[simp] theorem afterRead_word (rt : Runtime) (a : Nat)
    (p : AccessPosition) (x : Nat) :
    (rt.afterRead a p).word x = rt.word x :=
  mr_word rt a _ _ x

/-- The memory map after `afterRead`. -/
theorem afterRead_memory (rt : Runtime) (a : Nat) (p : AccessPosition)
    (x : Nat) :
    (rt.afterRead a p).state.memory x =
      if x = a then
        some (rt.register a, rt.state.current_shard, rt.state.clk + p.idx)
      else rt.state.memory x :=
  mr_memory rt a _ _ x

/-- `afterRead` projections that are untouched. -/
@[simp] theorem afterRead_unconstrained (rt : Runtime) (a : Nat)
    (p : AccessPosition) :
    (rt.afterRead a p).unconstrained = rt.unconstrained := rfl

/-- `afterRead` does not touch the clock. -/
@[simp] theorem afterRead_clk (rt : Runtime) (a : Nat) (p : AccessPosition) :
    (rt.afterRead a p).state.clk = rt.state.clk := rfl

/-- `afterRead` does not touch the shard counter. -/
@[simp] theorem afterRead_shard (rt : Runtime) (a : Nat)
    (p : AccessPosition) :
    (rt.afterRead a p).state.current_shard = rt.state.current_shard := rfl

/-- `afterRead` does not touch the program counter. -/
@[simp] theorem afterRead_pc (rt : Runtime) (a : Nat) (p : AccessPosition) :
    (rt.afterRead a p).state.pc = rt.state.pc := rfl

/-- `afterRead` does not touch the global clock. -/
@[simp] theorem afterRead_global_clk (rt : Runtime) (a : Nat)
    (p : AccessPosition) :
    (rt.afterRead a p).state.global_clk = rt.state.global_clk := rfl

/-- `afterRead` does not touch the event record. -/
@[simp] theorem afterRead_record (rt : Runtime) (a : Nat)
    (p : AccessPosition) :
    (rt.afterRead a p).record = rt.record := rfl

/-- `afterRead` does not touch the shard size. -/
@[simp] theorem afterRead_shard_size (rt : Runtime) (a : Nat)
    (p : AccessPosition) :
    (rt.afterRead a p).shard_size = rt.shard_size := rfl

/-- `afterRead` does not touch the program. -/
@[simp] theorem afterRead_program (rt : Runtime) (a : Nat)
    (p : AccessPosition) :
    (rt.afterRead a p).program = rt.program := rfl

/-- The CPU record after `afterRead`. -/
@[simp] theorem afterRead_cpu_record (rt : Runtime) (a : Nat)
    (p : AccessPosition) :
    (rt.afterRead a p).cpu_record = rt.cpu_record.setSlot p
      (.read (rt.mr a rt.state.current_shard (rt.state.clk + p.idx)).1) :=
  rfl

/-- The register just written by `afterWrite`. -/
@[simp] theorem afterWrite_register_self (rt : Runtime) (a v : Nat)
    (p : AccessPosition) :
    (rt.afterWrite a v p).register a = v :=
  mw_register_self rt a v _ _

/-- Other registers after `afterWrite`. -/
theorem afterWrite_register_ne (rt : Runtime) (a v : Nat)
    (p : AccessPosition) (x : Nat) (h : x ≠ a) :
    (rt.afterWrite a v p).register x = rt.register x :=
  mw_register_ne rt a v _ _ x h

/-- The memory map after `afterWrite`. -/
theorem afterWrite_memory (rt : Runtime) (a v : Nat) (p : AccessPosition)
    (x : Nat) :
    (rt.afterWrite a v p).state.memory x =
      if x = a then
        some (v, rt.state.current_shard, rt.state.clk + p.idx)
      else rt.state.memory x :=
  mw_memory rt a v _ _ x

/-- `afterWrite` does not flip the unconstrained flag. -/
@[simp] theorem afterWrite_unconstrained (rt : Runtime) (a v : Nat)
    (p : AccessPosition) :
    (rt.afterWrite a v p).unconstrained = rt.unconstrained := rfl

/-- `afterWrite` does not touch the clock. -/
@[simp] theorem afterWrite_clk (rt : Runtime) (a v : Nat)
    (p : AccessPosition) :
    (rt.afterWrite a v p).state.clk = rt.state.clk := rfl

/-- `afterWrite` does not touch the shard counter. -/
@[simp] theorem afterWrite_shard (rt : Runtime) (a v : Nat)
    (p : AccessPosition) :
    (rt.afterWrite a v p).state.current_shard = rt.state.current_shard := rfl

/-- `afterWrite` does not touch the program counter. -/
@[simp] theorem afterWrite_pc (rt : Runtime) (a v : Nat)
    (p : AccessPosition) :
    (rt.afterWrite a v p).state.pc = rt.state.pc := rfl

/-- `afterWrite` does not touch the global clock. -/
@[simp] theorem afterWrite_global_clk (rt : Runtime) (a v : Nat)
    (p : AccessPosition) :
    (rt.afterWrite a v p).state.global_clk = rt.state.global_clk := rfl

/-- `afterWrite` does not touch the event record. -/
@[simp] theorem afterWrite_record (rt : Runtime) (a v : Nat)
    (p : AccessPosition) :
    (rt.afterWrite a v p).record = rt.record := rfl

/-- `afterWrite` does not touch the shard size. -/
@[simp] theorem afterWrite_shard_size (rt : Runtime) (a v : Nat)
    (p : AccessPosition) :
    (rt.afterWrite a v p).shard_size = rt.shard_size := rfl

/-- `afterWrite` does not touch the program. -/
@[simp] theorem afterWrite_program (rt : Runtime) (a v : Nat)
    (p : AccessPosition) :
    (rt.afterWrite a v p).program = rt.program := rfl

/-- The CPU record after `afterWrite`. -/
@[simp] theorem afterWrite_cpu_record (rt : Runtime) (a v : Nat)
    (p : AccessPosition) :
    (rt.afterWrite a v p).cpu_record = rt.cpu_record.setSlot p
      (.write (rt.mw a v rt.state.current_shard
        (rt.state.clk + p.idx)).1) :=
  rfl

/-- The closed form of a validated `mr_cpu` when not unconstrained. -/
theorem mr_cpu_eq (rt : Runtime) (addr : Nat) (pos : AccessPosition)
    (hv : validateMemoryAccess addr pos = true)
    (hu : rt.unconstrained = false) :
    rt.mr_cpu addr pos = some (rt.register addr, rt.afterRead addr pos) := by
  simp only [Runtime.mr_cpu, hv, if_true, mr_unconstrained, hu,
    Bool.false_eq_true, if_false, mr_cpu_record, mr_value, Runtime.afterRead]

/-- The closed form of a validated `mw_cpu` when not unconstrained and the
target slot is free. -/
theorem mw_cpu_eq (rt : Runtime) (addr value : Nat) (pos : AccessPosition)
    (hv : validateMemoryAccess addr pos = true)
    (hu : rt.unconstrained = false)
    (hslot : rt.cpu_record.slot pos = none) :
    rt.mw_cpu addr value pos = some (rt.afterWrite addr value pos) := by
  simp only [Runtime.mw_cpu, hv, if_true, mw_unconstrained, hu,
    Bool.false_eq_true, if_false, mw_cpu_record, hslot, Runtime.afterWrite]

/-- The closed form of a register write to a nonzero register when not
unconstrained and slot `A` is free. -/
theorem rw_eq (rt : Runtime) (reg v : Nat) (hreg : reg < 32) (h0 : reg ≠ 0)
    (hu : rt.unconstrained = false) (hslot : rt.cpu_record.a = none) :
    rt.rw reg v = some (rt.afterWrite reg v .A) := by
  have hv : validateMemoryAccess reg .A = true := by
    simp [validateMemoryAccess, hreg]
  simp only [Runtime.rw, h0, if_false]
  exact mw_cpu_eq rt reg v .A hv hu hslot

/-- `rw` to `X0` is the identity. -/
theorem rw_x0 (rt : Runtime) (v : Nat) : rt.rw 0 v = some rt := rfl

/-- The closed form of a register read at a register position. -/
theorem rr_eq (rt : Runtime) (reg : Nat) (pos : AccessPosition)
    (hreg : reg < 32) (hpos : pos ≠ .Memory)
    (hu : rt.unconstrained = false) :
    rt.rr reg pos = some (rt.register reg, rt.afterRead reg pos) := by
  have hv : validateMemoryAccess reg pos = true := by
    cases pos <;>
      first
        | exact absurd rfl hpos
        | simp [validateMemoryAccess, hreg]
  exact mr_cpu_eq rt reg pos hv hu

/-- `finishCycle` changes no register value. -/
@[simp] theorem finishCycle_register (rt : Runtime) (pc npc : Nat)
    (i : Instruction) (a b c : Nat) (m : Option Nat) (x : Nat) :
    (rt.finishCycle pc npc i a b c m).register x = rt.register x := rfl

/-- `finishCycle` changes no stored word. -/
@[simp] theorem finishCycle_word (rt : Runtime) (pc npc : Nat)
    (i : Instruction) (a b c : Nat) (m : Option Nat) (x : Nat) :
    (rt.finishCycle pc npc i a b c m).word x = rt.word x := rfl

/-- `finishCycle` leaves the memory map untouched. -/
@[simp] theorem finishCycle_memory (rt : Runtime) (pc npc : Nat)
    (i : Instruction) (a b c : Nat) (m : Option Nat) :
    (rt.finishCycle pc npc i a b c m).state.memory = rt.state.memory := rfl

/-- `finishCycle` does not touch the clock. -/
@[simp] theorem finishCycle_clk (rt : Runtime) (pc npc : Nat)
    (i : Instruction) (a b c : Nat) (m : Option Nat) :
    (rt.finishCycle pc npc i a b c m).state.clk = rt.state.clk := rfl

/-- `finishCycle` does not touch the global clock. -/
@[simp] theorem finishCycle_global_clk (rt : Runtime) (pc npc : Nat)
    (i : Instruction) (a b c : Nat) (m : Option Nat) :
    (rt.finishCycle pc npc i a b c m).state.global_clk =
      rt.state.global_clk := rfl

/-- `finishCycle` does not touch the shard counter. -/
@[simp] theorem finishCycle_shard (rt : Runtime) (pc npc : Nat)
    (i : Instruction) (a b c : Nat) (m : Option Nat) :
    (rt.finishCycle pc npc i a b c m).state.current_shard =
      rt.state.current_shard := rfl

/-- `finishCycle` sets the program counter to `next_pc`. -/
@[simp] theorem finishCycle_pc (rt : Runtime) (pc npc : Nat)
    (i : Instruction) (a b c : Nat) (m : Option Nat) :
    (rt.finishCycle pc npc i a b c m).state.pc = npc := rfl

/-- `finishCycle` does not flip the unconstrained flag. -/
@[simp] theorem finishCycle_unconstrained (rt : Runtime) (pc npc : Nat)
    (i : Instruction) (a b c : Nat) (m : Option Nat) :
    (rt.finishCycle pc npc i a b c m).unconstrained = rt.unconstrained := rfl

/-- `finishCycle` does not touch the per-cycle CPU record. -/
@[simp] theorem finishCycle_cpu_record (rt : Runtime) (pc npc : Nat)
    (i : Instruction) (a b c : Nat) (m : Option Nat) :
    (rt.finishCycle pc npc i a b c m).cpu_record = rt.cpu_record := rfl

/-- `finishCycle` does not touch the shard size. -/
@[simp] theorem finishCycle_shard_size (rt : Runtime) (pc npc : Nat)
    (i : Instruction) (a b c : Nat) (m : Option Nat) :
    (rt.finishCycle pc npc i a b c m).shard_size = rt.shard_size := rfl

/-- `finishCycle` does not touch the program. -/
@[simp] theorem finishCycle_program (rt : Runtime) (pc npc : Nat)
    (i : Instruction) (a b c : Nat) (m : Option Nat) :
    (rt.finishCycle pc npc i a b c m).program = rt.program := rfl

/-- The CPU event appended by `finishCycle`. -/
theorem finishCycle_cpu_events (rt : Runtime) (pc npc : Nat)
    (i : Instruction) (a b c : Nat) (m : Option Nat) :
    (rt.finishCycle pc npc i a b c m).record.cpu_events =
      rt.record.cpu_events ++
      [⟨rt.state.current_shard, rt.state.clk, pc, i, a, rt.cpu_record.a,
        b, rt.cpu_record.b, c, rt.cpu_record.c, m,
        rt.cpu_record.memory⟩] := rfl

/-- The CPU event appended by `finishCycle`, packaged existentially. -/
theorem finishCycle_event (rt : Runtime) (pc npc : Nat) (i : Instruction)
    (a b c : Nat) (m : Option Nat) (evs : List CpuEvent)
    (h : rt.record.cpu_events = evs) :
    ∃ e : CpuEvent,
      (rt.finishCycle pc npc i a b c m).record.cpu_events = evs ++ [e] ∧
      e.memory = m ∧
      e.memory_record =
        (rt.finishCycle pc npc i a b c m).cpu_record.memory := by
  subst h
  exact ⟨_, rfl, rfl, rfl⟩

/-- `emit_alu` does not touch the state. -/
@[simp] theorem emit_alu_state (rt : Runtime) (clk : Nat) (op : Opcode)
    (a b c : Nat) : (rt.emit_alu clk op a b c).state = rt.state := rfl

/-- `emit_alu` does not touch the per-cycle CPU record. -/
@[simp] theorem emit_alu_cpu_record (rt : Runtime) (clk : Nat) (op : Opcode)
    (a b c : Nat) :
    (rt.emit_alu clk op a b c).cpu_record = rt.cpu_record := rfl

/-- `emit_alu` does not flip the unconstrained flag. -/
@[simp] theorem emit_alu_unconstrained (rt : Runtime) (clk : Nat)
    (op : Opcode) (a b c : Nat) :
    (rt.emit_alu clk op a b c).unconstrained = rt.unconstrained := rfl

/-- `emit_alu` does not touch the shard size. -/
@[simp] theorem emit_alu_shard_size (rt : Runtime) (clk : Nat) (op : Opcode)
    (a b c : Nat) :
    (rt.emit_alu clk op a b c).shard_size = rt.shard_size := rfl

/-- `emit_alu` does not touch the program. -/
@[simp] theorem emit_alu_program (rt : Runtime) (clk : Nat) (op : Opcode)
    (a b c : Nat) :
    (rt.emit_alu clk op a b c).program = rt.program := rfl

/-- `emit_alu` does not touch the register-value view. -/
@[simp] theorem emit_alu_register (rt : Runtime) (clk : Nat) (op : Opcode)
    (a b c x : Nat) :
    (rt.emit_alu clk op a b c).register x = rt.register x := rfl

/-- `emit_alu` appends no CPU event. -/
@[simp] theorem emit_alu_cpu_events (rt : Runtime) (clk : Nat) (op : Opcode)
    (a b c : Nat) :
    (rt.emit_alu clk op a b c).record.cpu_events =
      rt.record.cpu_events := by
  cases op <;> rfl

/-- The closed form of `load_rr` under the validity conditions of its
accesses. -/
theorem load_rr_eq (rt : Runtime) (i : Instruction)
    (hu : rt.unconstrained = false) (ha : i.op_a < 32) (hb : i.op_b < 32)
    (hv : validateMemoryAccess
      (Runtime.align (wrapAdd (rt.register i.op_b) i.op_c)) .Memory
      = true) :
    rt.load_rr i = some (i.op_a, rt.register i.op_b, i.op_c,
      wrapAdd (rt.register i.op_b) i.op_c,
      rt.register (Runtime.align (wrapAdd (rt.register i.op_b) i.op_c)),
      (rt.afterRead i.op_b .B).afterRead
        (Runtime.align (wrapAdd (rt.register i.op_b) i.op_c)) .Memory) := by
  have hit : i.i_type = some (i.op_a, i.op_b, i.op_c) := by
    simp [Instruction.i_type, Register.fromU32, ha, hb]
  have h1 := rr_eq rt i.op_b .B hb (by simp) hu
  have h2 := mr_cpu_eq (rt.afterRead i.op_b .B)
    (Runtime.align (wrapAdd (rt.register i.op_b) i.op_c)) .Memory hv
    (by simp [hu])
  simp only [Runtime.load_rr, hit, h1, h2, Option.bind_eq_bind, Option.some_bind,
    afterRead_register, Option.pure_def]

/-- The closed form of `store_rr` under the validity conditions of its
accesses. -/
theorem store_rr_eq (rt : Runtime) (i : Instruction)
    (hu : rt.unconstrained = false) (ha : i.op_a < 32) (hb : i.op_b < 32) :
    rt.store_rr i = some (rt.register i.op_a, rt.register i.op_b, i.op_c,
      wrapAdd (rt.register i.op_b) i.op_c,
      rt.word (Runtime.align (wrapAdd (rt.register i.op_b) i.op_c)),
      (rt.afterRead i.op_b .B).afterRead i.op_a .A) := by
  have hst : i.s_type = some (i.op_a, i.op_b, i.op_c) := by
    simp [Instruction.s_type, Register.fromU32, ha, hb]
  have h1 := rr_eq rt i.op_b .B hb (by simp) hu
  have h2 := rr_eq (rt.afterRead i.op_b .B) i.op_a .A ha (by simp)
    (by simp [hu])
  simp only [Runtime.store_rr, hst, h1, h2, Option.bind_eq_bind, Option.some_bind,
    afterRead_register, afterRead_word, Option.pure_def]

/-- The closed form of `branch_rr` under the validity conditions of its
accesses. -/
theorem branch_rr_eq (rt : Runtime) (i : Instruction)
    (hu : rt.unconstrained = false) (ha : i.op_a < 32) (hb : i.op_b < 32) :
    rt.branch_rr i = some (rt.register i.op_a, rt.register i.op_b, i.op_c,
      (rt.afterRead i.op_b .B).afterRead i.op_a .A) := by
  have hbt : i.b_type = some (i.op_a, i.op_b, i.op_c) := by
    simp [Instruction.b_type, Register.fromU32, ha, hb]
  have h1 := rr_eq rt i.op_b .B hb (by simp) hu
  have h2 := rr_eq (rt.afterRead i.op_b .B) i.op_a .A ha (by simp)
    (by simp [hu])
  simp only [Runtime.branch_rr, hbt, h1, h2, Option.bind_eq_bind, Option.some_bind,
    afterRead_register, Option.pure_def]

/-- The closed form of `alu_rr` for an R-type instruction. -/
theorem alu_rr_eq_r (rt : Runtime) (i : Instruction)
    (hu : rt.unconstrained = false) (hic : i.imm_c = false)
    (ha : i.op_a < 32) (hb : i.op_b < 32) (hc : i.op_c < 32) :
    rt.alu_rr i = some (i.op_a, rt.register i.op_b, rt.register i.op_c,
      (rt.afterRead i.op_c .C).afterRead i.op_b .B) := by
  have hrt : i.r_type = some (i.op_a, i.op_b, i.op_c) := by
    simp [Instruction.r_type, Register.fromU32, ha, hb, hc]
  have h1 := rr_eq rt i.op_c .C hc (by simp) hu
  have h2 := rr_eq (rt.afterRead i.op_c .C) i.op_b .B hb (by simp)
    (by simp [hu])
  simp only [Runtime.alu_rr, hic, Bool.not_false, if_true, hrt, h1, h2,
    Option.bind_eq_bind, Option.some_bind, afterRead_register, Option.pure_def]

/-- The closed form of `alu_rr` for an I-type instruction. -/
theorem alu_rr_eq_i (rt : Runtime) (i : Instruction)
    (hu : rt.unconstrained = false) (hib : i.imm_b = false)
    (hic : i.imm_c = true) (ha : i.op_a < 32) (hb : i.op_b < 32) :
    rt.alu_rr i = some (i.op_a, rt.register i.op_b, i.op_c,
      rt.afterRead i.op_b .B) := by
  have hit : i.i_type = some (i.op_a, i.op_b, i.op_c) := by
    simp [Instruction.i_type, Register.fromU32, ha, hb]
  have h1 := rr_eq rt i.op_b .B hb (by simp) hu
  simp only [Runtime.alu_rr, hib, hic, Bool.not_true, Bool.not_false,
    Bool.false_eq_true, if_false, Bool.true_and, if_true, hit, h1,
    Option.bind_eq_bind, Option.some_bind, Option.pure_def]

/-- Slot `a` after `setSlot`. -/
@[simp] theorem CpuRecord.a_setSlot (r : CpuRecord) (pos : AccessPosition)
    (e : MemoryRecordEnum) :
    (r.setSlot pos e).a = if pos = .A then some e else r.a := by
  cases pos <;> rfl

/-- Slot `b` after `setSlot`. -/
@[simp] theorem CpuRecord.b_setSlot (r : CpuRecord) (pos : AccessPosition)
    (e : MemoryRecordEnum) :
    (r.setSlot pos e).b = if pos = .B then some e else r.b := by
  cases pos <;> rfl

/-- Slot `c` after `setSlot`. -/
@[simp] theorem CpuRecord.c_setSlot (r : CpuRecord) (pos : AccessPosition)
    (e : MemoryRecordEnum) :
    (r.setSlot pos e).c = if pos = .C then some e else r.c := by
  cases pos <;> rfl

/-- Slot `memory` after `setSlot`. -/
@[simp] theorem CpuRecord.memory_setSlot (r : CpuRecord)
    (pos : AccessPosition) (e : MemoryRecordEnum) :
    (r.setSlot pos e).memory = if pos = .Memory then some e else r.memory := by
  cases pos <;> rfl

/-- The closed form of `alu_rr` for an immediate-immediate instruction. -/
theorem alu_rr_eq_imm (rt : Runtime) (i : Instruction)
    (hib : i.imm_b = true) (hic : i.imm_c = true) (ha : i.op_a < 32) :
    rt.alu_rr i = some (i.op_a, i.op_b, i.op_c, rt) := by
  have hfa : Register.fromU32 i.op_a = some i.op_a := by
    simp [Register.fromU32, ha]
  simp only [Runtime.alu_rr, hib, hic, Bool.not_true, Bool.false_eq_true,
    if_false, Bool.false_and, hfa, Option.bind_eq_bind, Option.some_bind, Option.pure_def]

/-! ## C5: the per-cycle CPU record slots -/

/-- A runtime whose per-cycle CPU record already holds a record in slot `B`,
for the C5 counterexample. -/
def busySlotRuntime : Runtime :=
  let rt := Runtime.start 1 emptyProgram
  { rt with cpu_record := { b := some (.read ⟨0, 1, 1, 0, 0⟩) } }

/-- C5 counterexample: `mr_cpu` does not assert on an occupied slot.  With
slot `B` already occupied (and not unconstrained), a second stash into slot
`B` via `mr_cpu` succeeds and silently overwrites the slot, instead of
triggering an assertion failure as the claim states. -/
theorem mr_cpu_overwrites_busy_slot :
    (busySlotRuntime.cpu_record.slot .B).isSome = true ∧
    busySlotRuntime.unconstrained = false ∧
    (busySlotRuntime.mr_cpu 5 .B).isSome = true ∧
    (busySlotRuntime.mr_cpu 5 .B).map (fun p => p.2.cpu_record.b) =
      some (some (.read ⟨0, 1, 3, 0, 0⟩)) :=
  ⟨rfl, rfl, rfl, rfl⟩

/-- C5 (amended): when not unconstrained, both `mr_cpu` and `mw_cpu` stash
the resulting access record into the `CpuRecord` slot named by the position;
a second `mw_cpu` into an already-occupied slot triggers an assertion
failure, while `mr_cpu` overwrites an occupied slot without asserting. -/
theorem cpu_record_slot_discipline (rt : Runtime) (addr value : Nat)
    (pos : AccessPosition) (hu : rt.unconstrained = false)
    (hv : validateMemoryAccess addr pos = true) :
    (∃ v rt1, rt.mr_cpu addr pos = some (v, rt1) ∧
      rt1.cpu_record.slot pos = some
        (.read (rt.mr addr rt.state.current_shard
          (rt.state.clk + pos.idx)).1)) ∧
    (rt.cpu_record.slot pos = none →
      ∃ rt1, rt.mw_cpu addr value pos = some rt1 ∧
        rt1.cpu_record.slot pos = some
          (.write (rt.mw addr value rt.state.current_shard
            (rt.state.clk + pos.idx)).1)) ∧
    ((rt.cpu_record.slot pos).isSome = true →
      rt.mw_cpu addr value pos = none) := by
  refine ⟨?_, fun hnone => ?_, fun hsome => ?_⟩
  · simp only [Runtime.mr_cpu, hv, if_true, mr_unconstrained, hu,
      Bool.false_eq_true, if_false]
    exact ⟨_, _, rfl, CpuRecord.slot_setSlot _ _ _⟩
  · simp only [Runtime.mw_cpu, hv, if_true, mw_unconstrained, hu,
      Bool.false_eq_true, if_false, mw_cpu_record, hnone]
    exact ⟨_, rfl, CpuRecord.slot_setSlot _ _ _⟩
  · obtain ⟨e, he⟩ := Option.isSome_iff_exists.mp hsome
    simp only [Runtime.mw_cpu, hv, if_true, mw_unconstrained, hu,
      Bool.false_eq_true, if_false, mw_cpu_record, he]

/-- Witness for C5 (amended) at a concrete runtime and access. -/
theorem cpu_record_slot_discipline_witness :
    (∃ v rt1, (Runtime.start 1 emptyProgram).mr_cpu 6 .C = some (v, rt1) ∧
      rt1.cpu_record.slot .C = some
        (.read ((Runtime.start 1 emptyProgram).mr 6
          (Runtime.start 1 emptyProgram).state.current_shard
          ((Runtime.start 1 emptyProgram).state.clk +
            AccessPosition.C.idx)).1)) ∧
    ((Runtime.start 1 emptyProgram).cpu_record.slot .C = none →
      ∃ rt1, (Runtime.start 1 emptyProgram).mw_cpu 6 9 .C = some rt1 ∧
        rt1.cpu_record.slot .C = some
          (.write ((Runtime.start 1 emptyProgram).mw 6 9
            (Runtime.start 1 emptyProgram).state.current_shard
            ((Runtime.start 1 emptyProgram).state.clk +
              AccessPosition.C.idx)).1)) ∧
    (((Runtime.start 1 emptyProgram).cpu_record.slot .C).isSome = true →
      (Runtime.start 1 emptyProgram).mw_cpu 6 9 .C = none) :=
  cpu_record_slot_discipline (Runtime.start 1 emptyProgram) 6 9 .C rfl rfl

/-! ## C6 and C8 counterexamples -/

/-- The C6 scenario exactly as stated in the claim: `SW 0x12348765` at
`0x43627530`, then `SB` of register value `0x38276525` at `0x43627531`,
then `LW` at `0x43627530`. -/
def sbScenarioProgram : Program :=
  ⟨[⟨.ADD, 29, 0, 0x12348765, false, true⟩,
    ⟨.SW, 29, 0, 0x43627530, false, true⟩,
    ⟨.ADD, 17, 0, 0x38276525, false, true⟩,
    ⟨.SB, 17, 0, 0x43627531, false, true⟩,
    ⟨.LW, 15, 0, 0x43627530, false, true⟩], 0, 0, []⟩

/-- C6 counterexample: after `SW 0x12348765 @ 0x43627530` and
`SB(value=0x38276525) @ 0x43627531`, `LW @ 0x43627530` yields `0x12342565`
(byte lane 1 of `0x12348765` replaced by `0x25`), not the `0x12342525` the
claim states. -/
theorem store_byte_scenario_counterexample :
    (Runtime.stepN [] 5 (Runtime.start 1024 sbScenarioProgram)).map
      (fun rt => rt.register 15) = some 0x12342565 ∧
    (0x12342565 : Nat) ≠ 0x12342525 :=
  ⟨rfl, by decide⟩

/-- Four `ADD`s, for the C8 counterexample. -/
def fourAddProgram : Program :=
  ⟨[⟨.ADD, 29, 0, 1, false, true⟩,
    ⟨.ADD, 29, 0, 2, false, true⟩,
    ⟨.ADD, 29, 0, 3, false, true⟩,
    ⟨.ADD, 29, 0, 4, false, true⟩], 0, 0, []⟩

/-- C8 counterexample: with `SHARD_SIZE = 1` (so the boundary threshold is
`16`) and no syscalls, the fourth executed instruction - a non-`ECALL`
`ADD` - takes `clk` from `13` to `0` (shard rollover), not to `13 + 4`,
while `global_clk` still increases by exactly `1`. -/
theorem clk_increment_counterexample :
    (Runtime.stepN [] 3 (Runtime.start 1 fourAddProgram)).map
      (fun rt => (rt.state.clk, rt.state.global_clk)) = some (13, 3) ∧
    (Runtime.stepN [] 4 (Runtime.start 1 fourAddProgram)).map
      (fun rt => (rt.state.clk, rt.state.global_clk)) = some (0, 4) ∧
    (fourAddProgram.instructions.get? 3).map (fun i => i.opcode) =
      some .ADD ∧
    Opcode.ADD ≠ .ECALL ∧ (0 : Nat) ≠ 13 + 4 :=
  ⟨rfl, rfl, rfl, by decide, by decide⟩

/-- Replacing the per-cycle CPU record changes no register value. -/
@[simp] theorem replaceRec_register (rt : Runtime) (cr : CpuRecord)
    (x : Nat) :
    ({ rt with cpu_record := cr } : Runtime).register x = rt.register x := rfl

/-- Replacing the per-cycle CPU record changes no stored word. -/
@[simp] theorem replaceRec_word (rt : Runtime) (cr : CpuRecord) (x : Nat) :
    ({ rt with cpu_record := cr } : Runtime).word x = rt.word x := rfl

/-- Replacing the per-cycle CPU record leaves the state untouched. -/
@[simp] theorem replaceRec_state (rt : Runtime) (cr : CpuRecord) :
    ({ rt with cpu_record := cr } : Runtime).state = rt.state := rfl

/-- Replacing the per-cycle CPU record leaves the unconstrained flag. -/
@[simp] theorem replaceRec_unconstrained (rt : Runtime) (cr : CpuRecord) :
    ({ rt with cpu_record := cr } : Runtime).unconstrained =
      rt.unconstrained := rfl

/-- Replacing the per-cycle CPU record leaves the event record. -/
@[simp] theorem replaceRec_record (rt : Runtime) (cr : CpuRecord) :
    ({ rt with cpu_record := cr } : Runtime).record = rt.record := rfl

/-- Replacing the per-cycle CPU record leaves the shard size. -/
@[simp] theorem replaceRec_shard_size (rt : Runtime) (cr : CpuRecord) :
    ({ rt with cpu_record := cr } : Runtime).shard_size = rt.shard_size := rfl

/-- Replacing the per-cycle CPU record leaves the program. -/
@[simp] theorem replaceRec_program (rt : Runtime) (cr : CpuRecord) :
    ({ rt with cpu_record := cr } : Runtime).program = rt.program := rfl

/-- Reading the per-cycle CPU record just replaced. -/
@[simp] theorem replaceRec_cpu_record (rt : Runtime) (cr : CpuRecord) :
    ({ rt with cpu_record := cr } : Runtime).cpu_record = cr := rfl

/-- A runtime whose memory holds `7` at address `44`, for the C10 witness. -/
def imageRuntime : Runtime := Runtime.start 1 ⟨[], 0, 0, [(44, 7)]⟩

/-- Witness for C10 at a concrete runtime: address `44` was loaded with `7`,
address `0` was never touched. -/
theorem accessors_pure_witness :
    imageRuntime.word 44 = 7 ∧ imageRuntime.register 0 = 0 ∧
    (imageRuntime.mr 44 2 9).2.state.memory 44 =
      some (imageRuntime.word 44, 2, 9) :=
  ⟨(accessors_pure imageRuntime 0 44 2 9 7 0 0).2.2.1 rfl,
   (accessors_pure imageRuntime 0 44 2 9 7 0 0).2.1 rfl,
   (accessors_pure imageRuntime 0 44 2 9 7 0 0).2.2.2.2⟩

/-! ## C7: load semantics -/

/-- The load scenario: store `0x12348765` at `0x27654320` via `SW`, then
`LB` and `LBU` at `0x27654321`. -/
def lbScenarioProgram : Program :=
  ⟨[⟨.ADD, 29, 0, 0x12348765, false, true⟩,
    ⟨.SW, 29, 0, 0x27654320, false, true⟩,
    ⟨.LB, 22, 0, 0x27654321, false, true⟩,
    ⟨.LBU, 26, 0, 0x27654321, false, true⟩], 0, 0, []⟩

/-- C7 (confirmed): loads read the aligned word at `addr & ~3`, select the
byte per `addr % 4` (or the half per `(addr >> 1) % 2`), sign-extend for
`LB`/`LH` and zero-extend for `LBU`/`LHU` (`LW` takes the whole word;
`LH`/`LHU`/`LW` assert alignment); in the concrete scenario, after
`SW 0x12348765 @ 0x27654320`, `LB @ 0x27654321` writes `0xFFFFFF87` to the
destination register and `LBU` writes `0x87`. -/
theorem loads_select_and_extend (sys : SyscallEnv) (rt : Runtime)
    (i : Instruction) (hu : rt.unconstrained = false)
    (ha : i.op_a < 32) (ha0 : i.op_a ≠ 0) (hb : i.op_b < 32)
    (hv : validateMemoryAccess
      (Runtime.align (wrapAdd (rt.register i.op_b) i.op_c)) .Memory
      = true) :
    (i.opcode = .LB → ∃ rt', rt.execute sys i = some rt' ∧
      rt'.register i.op_a = signExtendByte (selectByte
        (rt.word (Runtime.align (wrapAdd (rt.register i.op_b) i.op_c)))
        (wrapAdd (rt.register i.op_b) i.op_c))) ∧
    (i.opcode = .LBU → ∃ rt', rt.execute sys i = some rt' ∧
      rt'.register i.op_a = selectByte
        (rt.word (Runtime.align (wrapAdd (rt.register i.op_b) i.op_c)))
        (wrapAdd (rt.register i.op_b) i.op_c)) ∧
    (i.opcode = .LH → wrapAdd (rt.register i.op_b) i.op_c % 2 = 0 →
      ∃ rt', rt.execute sys i = some rt' ∧
      rt'.register i.op_a = signExtendHalf (selectHalf
        (rt.word (Runtime.align (wrapAdd (rt.register i.op_b) i.op_c)))
        (wrapAdd (rt.register i.op_b) i.op_c))) ∧
    (i.opcode = .LHU → wrapAdd (rt.register i.op_b) i.op_c % 2 = 0 →
      ∃ rt', rt.execute sys i = some rt' ∧
      rt'.register i.op_a = selectHalf
        (rt.word (Runtime.align (wrapAdd (rt.register i.op_b) i.op_c)))
        (wrapAdd (rt.register i.op_b) i.op_c)) ∧
    (i.opcode = .LW → wrapAdd (rt.register i.op_b) i.op_c % 4 = 0 →
      ∃ rt', rt.execute sys i = some rt' ∧
      rt'.register i.op_a =
        rt.word (Runtime.align (wrapAdd (rt.register i.op_b) i.op_c))) ∧
    (Runtime.stepN [] 4 (Runtime.start 1024 lbScenarioProgram)).map
      (fun r => (r.register 22, r.register 26)) =
      some (0xFFFFFF87, 0x87) := by
  have hload := load_rr_eq { rt with cpu_record := {} } i hu ha hb hv
  have hu2 : ((({ rt with cpu_record := ({} : CpuRecord) }
      : Runtime).afterRead i.op_b .B).afterRead
      (Runtime.align (wrapAdd (rt.register i.op_b) i.op_c))
      .Memory).unconstrained = false := hu
  have hslot2 : ((({ rt with cpu_record := ({} : CpuRecord) }
      : Runtime).afterRead i.op_b .B).afterRead
      (Runtime.align (wrapAdd (rt.register i.op_b) i.op_c))
      .Memory).cpu_record.a = none := rfl
  refine ⟨fun hop => ?_, fun hop => ?_, fun hop hal => ?_,
    fun hop hal => ?_, fun hop hal => ?_, rfl⟩
  · have hrw := rw_eq _ i.op_a (signExtendByte (selectByte
      (rt.register (Runtime.align (wrapAdd (rt.register i.op_b) i.op_c)))
      (wrapAdd (rt.register i.op_b) i.op_c))) ha ha0 hu2 hslot2
    simp only [Runtime.execute, hop, hload, Option.bind_eq_bind,
      Option.some_bind, replaceRec_register, hrw, Option.pure_def]
    refine ⟨_, rfl, ?_⟩
    simp only [finishCycle_register, afterWrite_register_self]
    rfl
  · have hrw := rw_eq _ i.op_a (selectByte
      (rt.register (Runtime.align (wrapAdd (rt.register i.op_b) i.op_c)))
      (wrapAdd (rt.register i.op_b) i.op_c)) ha ha0 hu2 hslot2
    simp only [Runtime.execute, hop, hload, Option.bind_eq_bind,
      Option.some_bind, replaceRec_register, hrw, Option.pure_def]
    refine ⟨_, rfl, ?_⟩
    simp only [finishCycle_register, afterWrite_register_self]
    rfl
  · have hrw := rw_eq _ i.op_a (signExtendHalf (selectHalf
      (rt.register (Runtime.align (wrapAdd (rt.register i.op_b) i.op_c)))
      (wrapAdd (rt.register i.op_b) i.op_c))) ha ha0 hu2 hslot2
    simp only [Runtime.execute, hop, hload, Option.bind_eq_bind,
      Option.some_bind, replaceRec_register, hal, if_true, hrw,
      Option.pure_def, reduceIte]
    refine ⟨_, rfl, ?_⟩
    simp only [finishCycle_register, afterWrite_register_self]
    rfl
  · have hrw := rw_eq _ i.op_a (selectHalf
      (rt.register (Runtime.align (wrapAdd (rt.register i.op_b) i.op_c)))
      (wrapAdd (rt.register i.op_b) i.op_c)) ha ha0 hu2 hslot2
    simp only [Runtime.execute, hop, hload, Option.bind_eq_bind,
      Option.some_bind, replaceRec_register, hal, if_true, hrw,
      Option.pure_def, reduceIte]
    refine ⟨_, rfl, ?_⟩
    simp only [finishCycle_register, afterWrite_register_self]
    rfl
  · have hrw := rw_eq _ i.op_a
      (rt.register (Runtime.align (wrapAdd (rt.register i.op_b) i.op_c)))
      ha ha0 hu2 hslot2
    simp only [Runtime.execute, hop, hload, Option.bind_eq_bind,
      Option.some_bind, replaceRec_register, hal, if_true, hrw,
      Option.pure_def, reduceIte]
    refine ⟨_, rfl, ?_⟩
    simp only [finishCycle_register, afterWrite_register_self]
    rfl

/-- Witness for C7 at a concrete runtime and instruction: `LB` at address
`0x27654321` of the fresh start state of the load scenario program (all
memory is zero, so the loaded byte is `0`). -/
theorem loads_select_and_extend_witness :
    Instruction.opcode ⟨.LB, 22, 0, 0x27654321, false, true⟩ = .LB ∧
    ∃ rt', (Runtime.start 1024 lbScenarioProgram).execute []
        ⟨.LB, 22, 0, 0x27654321, false, true⟩ = some rt' ∧
      rt'.register 22 = signExtendByte (selectByte
        ((Runtime.start 1024 lbScenarioProgram).word
          (Runtime.align (wrapAdd
            ((Runtime.start 1024 lbScenarioProgram).register 0)
            0x27654321)))
        (wrapAdd ((Runtime.start 1024 lbScenarioProgram).register 0)
          0x27654321)) :=
  ⟨rfl, (loads_select_and_extend [] (Runtime.start 1024 lbScenarioProgram)
    ⟨.LB, 22, 0, 0x27654321, false, true⟩ rfl (by decide) (by decide)
    (by decide) (by decide)).1 rfl⟩

/-! ## C6: store semantics -/

/-- The `mw` record's value field. -/
@[simp] theorem mw_rec_value (rt : Runtime) (a v s c : Nat) :
    (rt.mw a v s c).1.value = v := rfl

/-- The `mw` record's shard field. -/
@[simp] theorem mw_rec_shard (rt : Runtime) (a v s c : Nat) :
    (rt.mw a v s c).1.shard = s := rfl

/-- The `mw` record's timestamp field. -/
@[simp] theorem mw_rec_timestamp (rt : Runtime) (a v s c : Nat) :
    (rt.mw a v s c).1.timestamp = c := rfl

/-- The `mw` record's `prev_shard` is the entry's stored shard. -/
@[simp] theorem mw_rec_prev_shard (rt : Runtime) (a v s c : Nat) :
    (rt.mw a v s c).1.prev_shard =
      ((rt.state.memory a).getD (0, 0, 0)).2.1 := rfl

/-- The `mw` record's `prev_timestamp` is the entry's stored timestamp. -/
@[simp] theorem mw_rec_prev_timestamp (rt : Runtime) (a v s c : Nat) :
    (rt.mw a v s c).1.prev_timestamp =
      ((rt.state.memory a).getD (0, 0, 0)).2.2 := rfl

/-- `afterRead` at a different address leaves the memory entry untouched. -/
theorem afterRead_memory_ne (rt : Runtime) (a : Nat) (p : AccessPosition)
    (x : Nat) (h : x ≠ a) :
    (rt.afterRead a p).state.memory x = rt.state.memory x := by
  rw [afterRead_memory]; simp [h]

/-- The common outcome of a store instruction on the aligned word: the
spliced word `v` is written back via `mw_cpu` at position `Memory` (timestamp
`clk + 0`); the stashed record is a write record whose `prev_value` is the
pre-image word `w` and whose `prev_shard`/`prev_timestamp` are the entry's
metadata exactly as they stood before the instruction - evidence that the
pre-image word was obtained by direct state lookup and no memory-read event
refreshed them; the emitted CPU event carries `v` as its
`memory_store_value` together with the same write record. -/
def StoreOutcome (rt rt' : Runtime) (addr v w : Nat) : Prop :=
  rt'.state.memory (Runtime.align addr) =
    some (v, rt.state.current_shard,
      rt.state.clk + AccessPosition.Memory.idx) ∧
  rt'.cpu_record.memory = some (.write
    ⟨v, rt.state.current_shard, rt.state.clk + AccessPosition.Memory.idx, w,
     ((rt.state.memory (Runtime.align addr)).getD (0, 0, 0)).2.1,
     ((rt.state.memory (Runtime.align addr)).getD (0, 0, 0)).2.2⟩) ∧
  (∃ e : CpuEvent, rt'.record.cpu_events = rt.record.cpu_events ++ [e] ∧
    e.memory = some v ∧ e.memory_record = rt'.cpu_record.memory)

/-- C6 (amended): every store (`SB`/`SH`/`SW`) reads the current aligned
word at `addr & ~3` by direct state lookup without emitting a memory-read
event, splices the low 8/16/32 bits of the stored register into the
byte/half lane selected by `addr`, and writes the spliced word back via
`mw_cpu` at position `Memory`; in the concrete scenario, after
`SW 0x12348765 @ 0x43627530` and `SB(value=0x38276525) @ 0x43627531`,
`LW @ 0x43627530` yields `0x12342565` (the claim's `0x12342525` arises only
with an additional intervening `SB` at `0x43627530`, as in the repo's own
test). -/
theorem stores_splice_lanes (sys : SyscallEnv) (rt : Runtime)
    (i : Instruction) (hu : rt.unconstrained = false)
    (ha : i.op_a < 32) (hb : i.op_b < 32)
    (hv : validateMemoryAccess
      (Runtime.align (wrapAdd (rt.register i.op_b) i.op_c)) .Memory
      = true) :
    (i.opcode = .SB → ∃ rt', rt.execute sys i = some rt' ∧
      StoreOutcome rt rt' (wrapAdd (rt.register i.op_b) i.op_c)
        (sbSplice (rt.register i.op_a)
          (rt.word (Runtime.align (wrapAdd (rt.register i.op_b) i.op_c)))
          (wrapAdd (rt.register i.op_b) i.op_c))
        (rt.word (Runtime.align (wrapAdd (rt.register i.op_b) i.op_c)))) ∧
    (i.opcode = .SH → wrapAdd (rt.register i.op_b) i.op_c % 2 = 0 →
      ∃ rt', rt.execute sys i = some rt' ∧
      StoreOutcome rt rt' (wrapAdd (rt.register i.op_b) i.op_c)
        (shSplice (rt.register i.op_a)
          (rt.word (Runtime.align (wrapAdd (rt.register i.op_b) i.op_c)))
          (wrapAdd (rt.register i.op_b) i.op_c))
        (rt.word (Runtime.align (wrapAdd (rt.register i.op_b) i.op_c)))) ∧
    (i.opcode = .SW → wrapAdd (rt.register i.op_b) i.op_c % 4 = 0 →
      ∃ rt', rt.execute sys i = some rt' ∧
      StoreOutcome rt rt' (wrapAdd (rt.register i.op_b) i.op_c)
        (rt.register i.op_a)
        (rt.word (Runtime.align (wrapAdd (rt.register i.op_b) i.op_c)))) ∧
    (Runtime.stepN [] 5 (Runtime.start 1024 sbScenarioProgram)).map
      (fun r => r.register 15) = some 0x12342565 := by
  have h40 : 40 < Runtime.align (wrapAdd (rt.register i.op_b) i.op_c) := by
    simp only [validateMemoryAccess, Bool.and_eq_true, beq_iff_eq,
      decide_eq_true_eq] at hv
    exact hv.2
  have hbne : Runtime.align (wrapAdd (rt.register i.op_b) i.op_c) ≠
      i.op_b := by omega
  have hane : Runtime.align (wrapAdd (rt.register i.op_b) i.op_c) ≠
      i.op_a := by omega
  have hst := store_rr_eq { rt with cpu_record := {} } i hu ha hb
  have hu2 : ((({ rt with cpu_record := ({} : CpuRecord) }
      : Runtime).afterRead i.op_b .B).afterRead i.op_a
      .A).unconstrained = false := hu
  have hslot2 : ((({ rt with cpu_record := ({} : CpuRecord) }
      : Runtime).afterRead i.op_b .B).afterRead i.op_a
      .A).cpu_record.slot .Memory = none := rfl
  have hmemeq : ∀ x, x ≠ i.op_a → x ≠ i.op_b →
      ((({ rt with cpu_record := ({} : CpuRecord) }
        : Runtime).afterRead i.op_b .B).afterRead i.op_a
        .A).state.memory x = rt.state.memory x := by
    intro x hxa hxb
    rw [afterRead_memory_ne _ _ _ _ hxa, afterRead_memory_ne _ _ _ _ hxb]
  refine ⟨fun hop => ?_, fun hop hal => ?_, fun hop hal => ?_, rfl⟩
  · have hmw := mw_cpu_eq _
      (Runtime.align (wrapAdd (rt.register i.op_b) i.op_c))
      (sbSplice (rt.register i.op_a)
        (rt.word (Runtime.align (wrapAdd (rt.register i.op_b) i.op_c)))
        (wrapAdd (rt.register i.op_b) i.op_c)) .Memory hv hu2 hslot2
    simp only [Runtime.execute, hop, hst, Option.bind_eq_bind,
      Option.some_bind, replaceRec_register, replaceRec_word, hmw,
      Option.pure_def]
    refine ⟨_, rfl, ?_, ?_, ?_⟩
    · rw [finishCycle_memory, afterWrite_memory]
      simp [hmemeq _ hane hbne]
    · have hm := hmemeq _ hane hbne
      cases hmm : rt.state.memory
          (Runtime.align (wrapAdd (rt.register i.op_b) i.op_c)) <;>
        simp [Runtime.mw, Runtime.word, hm, hmm]
    · exact finishCycle_event _ _ _ _ _ _ _ _ _ rfl
  · have hmw := mw_cpu_eq _
      (Runtime.align (wrapAdd (rt.register i.op_b) i.op_c))
      (shSplice (rt.register i.op_a)
        (rt.word (Runtime.align (wrapAdd (rt.register i.op_b) i.op_c)))
        (wrapAdd (rt.register i.op_b) i.op_c)) .Memory hv hu2 hslot2
    simp only [Runtime.execute, hop, hst, Option.bind_eq_bind,
      Option.some_bind, replaceRec_register, replaceRec_word, hal, if_true,
      hmw, Option.pure_def, reduceIte]
    refine ⟨_, rfl, ?_, ?_, ?_⟩
    · rw [finishCycle_memory, afterWrite_memory]
      simp [hmemeq _ hane hbne]
    · have hm := hmemeq _ hane hbne
      cases hmm : rt.state.memory
          (Runtime.align (wrapAdd (rt.register i.op_b) i.op_c)) <;>
        simp [Runtime.mw, Runtime.word, hm, hmm]
    · exact finishCycle_event _ _ _ _ _ _ _ _ _ rfl
  · have hmw := mw_cpu_eq _
      (Runtime.align (wrapAdd (rt.register i.op_b) i.op_c))
      (rt.register i.op_a) .Memory hv hu2 hslot2
    simp only [Runtime.execute, hop, hst, Option.bind_eq_bind,
      Option.some_bind, replaceRec_register, replaceRec_word, hal, if_true,
      hmw, Option.pure_def, reduceIte]
    refine ⟨_, rfl, ?_, ?_, ?_⟩
    · rw [finishCycle_memory, afterWrite_memory]
      simp [hmemeq _ hane hbne]
    · have hm := hmemeq _ hane hbne
      cases hmm : rt.state.memory
          (Runtime.align (wrapAdd (rt.register i.op_b) i.op_c)) <;>
        simp [Runtime.mw, Runtime.word, hm, hmm]
    · exact finishCycle_event _ _ _ _ _ _ _ _ _ rfl

/-- Witness for C6 (amended) at a concrete runtime and instruction: the
`SB` of the scenario program applied to its fresh start state. -/
theorem stores_splice_lanes_witness :
    ∃ rt', (Runtime.start 1024 sbScenarioProgram).execute []
        ⟨.SB, 17, 0, 0x43627531, false, true⟩ = some rt' ∧
      StoreOutcome (Runtime.start 1024 sbScenarioProgram) rt'
        (wrapAdd ((Runtime.start 1024 sbScenarioProgram).register 0)
          0x43627531)
        (sbSplice ((Runtime.start 1024 sbScenarioProgram).register 17)
          ((Runtime.start 1024 sbScenarioProgram).word
            (Runtime.align (wrapAdd
              ((Runtime.start 1024 sbScenarioProgram).register 0)
              0x43627531)))
          (wrapAdd ((Runtime.start 1024 sbScenarioProgram).register 0)
            0x43627531))
        ((Runtime.start 1024 sbScenarioProgram).word
          (Runtime.align (wrapAdd
            ((Runtime.start 1024 sbScenarioProgram).register 0)
            0x43627531))) :=
  (stores_splice_lanes [] (Runtime.start 1024 sbScenarioProgram)
    ⟨.SB, 17, 0, 0x43627531, false, true⟩ rfl (by decide) (by decide)
    rfl).1 rfl

/-! ## Frame facts about one executed instruction

`StepFrame rt rt'` collects what the operand/memory helpers of `execute`
never change: the clocks, the shard, the mode flags - and the value read
from register `X0` (register writes go through `rw`, which drops `X0`, and
`Memory`-position writes require `addr > 40`). -/

/-- What a successful helper call inside `execute` leaves untouched. -/
structure StepFrame (rt rt' : Runtime) : Prop where
  clk : rt'.state.clk = rt.state.clk
  global_clk : rt'.state.global_clk = rt.state.global_clk
  current_shard : rt'.state.current_shard = rt.state.current_shard
  unconstrained : rt'.unconstrained = rt.unconstrained
  shard_size : rt'.shard_size = rt.shard_size
  program : rt'.program = rt.program
  x0 : rt'.register 0 = rt.register 0

/-- `StepFrame` is reflexive. -/
theorem StepFrame.refl (rt : Runtime) : StepFrame rt rt :=
  ⟨rfl, rfl, rfl, rfl, rfl, rfl, rfl⟩

/-- `StepFrame` is transitive. -/
theorem StepFrame.trans {r1 r2 r3 : Runtime} (h1 : StepFrame r1 r2)
    (h2 : StepFrame r2 r3) : StepFrame r1 r3 :=
  ⟨h2.clk.trans h1.clk, h2.global_clk.trans h1.global_clk,
   h2.current_shard.trans h1.current_shard,
   h2.unconstrained.trans h1.unconstrained,
   h2.shard_size.trans h1.shard_size, h2.program.trans h1.program,
   h2.x0.trans h1.x0⟩

/-- Clearing the per-cycle CPU record is a frame step. -/
theorem replaceRec_frame (rt : Runtime) (cr : CpuRecord) :
    StepFrame rt { rt with cpu_record := cr } :=
  ⟨rfl, rfl, rfl, rfl, rfl, rfl, rfl⟩

/-- `finishCycle` is a frame step. -/
theorem finishCycle_frame (rt : Runtime) (pc npc : Nat) (i : Instruction)
    (a b c : Nat) (m : Option Nat) :
    StepFrame rt (rt.finishCycle pc npc i a b c m) :=
  ⟨rfl, rfl, rfl, rfl, rfl, rfl, rfl⟩

/-- `emit_alu` is a frame step. -/
theorem emit_alu_frame (rt : Runtime) (clk : Nat) (op : Opcode)
    (a b c : Nat) : StepFrame rt (rt.emit_alu clk op a b c) :=
  ⟨rfl, rfl, rfl, rfl, rfl, rfl, rfl⟩

/-- A successful `mr_cpu` is a frame step. -/
theorem mr_cpu_frame (rt : Runtime) (a : Nat) (p : AccessPosition)
    (out : Nat × Runtime) (h : rt.mr_cpu a p = some out) :
    StepFrame rt out.2 := by
  unfold Runtime.mr_cpu at h
  by_cases hv : validateMemoryAccess a p
  · rw [if_pos hv] at h
    simp only [mr_unconstrained, Option.some.injEq] at h
    cases hu : rt.unconstrained <;> simp only [hu, if_true, if_false,
        Bool.false_eq_true, Bool.true_eq_false] at h <;> subst h
    · exact ⟨rfl, rfl, rfl, hu.symm, rfl, rfl, mr_register rt a _ _ 0⟩
    · exact ⟨rfl, rfl, rfl, rfl, rfl, rfl, mr_register rt a _ _ 0⟩
  · rw [if_neg hv] at h
    exact Option.noConfusion h

/-- A successful `mw_cpu` at position `Memory`, or at a register other than
`X0`, is a frame step. -/
theorem mw_cpu_frame (rt : Runtime) (a v : Nat) (p : AccessPosition)
    (rt' : Runtime) (hne : p = .Memory ∨ a ≠ 0)
    (h : rt.mw_cpu a v p = some rt') : StepFrame rt rt' := by
  unfold Runtime.mw_cpu at h
  by_cases hv : validateMemoryAccess a p
  · rw [if_pos hv] at h
    have ha0 : a ≠ 0 := by
      rcases hne with hp | hp
      · subst hp
        simp only [validateMemoryAccess, Bool.and_eq_true, beq_iff_eq,
          decide_eq_true_eq] at hv
        omega
      · exact hp
    simp only [mw_unconstrained, mw_cpu_record] at h
    cases hu : rt.unconstrained <;>
      simp only [hu, if_true, if_false, Bool.false_eq_true,
        Bool.true_eq_false] at h
    · split at h
      · exact Option.noConfusion h
      · obtain rfl := (Option.some.injEq _ _).mp h
        refine ⟨rfl, rfl, rfl, hu.symm, rfl, rfl, ?_⟩
        exact mw_register_ne rt a v _ _ 0 (fun hx => ha0 hx.symm)
    · obtain rfl := (Option.some.injEq _ _).mp h
      refine ⟨rfl, rfl, rfl, rfl, rfl, rfl, ?_⟩
      exact mw_register_ne rt a v _ _ 0 (fun hx => ha0 hx.symm)
  · rw [if_neg hv] at h
    exact Option.noConfusion h

/-- A successful `rr` is a frame step. -/
theorem rr_frame (rt : Runtime) (reg : Nat) (p : AccessPosition)
    (out : Nat × Runtime) (h : rt.rr reg p = some out) :
    StepFrame rt out.2 :=
  mr_cpu_frame rt reg p out h

/-- A successful `rw` is a frame step (it drops writes to `X0`). -/
theorem rw_frame (rt : Runtime) (reg v : Nat) (rt' : Runtime)
    (h : rt.rw reg v = some rt') : StepFrame rt rt' := by
  unfold Runtime.rw at h
  by_cases h0 : reg = 0
  · rw [if_pos h0] at h
    obtain rfl := (Option.some.injEq _ _).mp h
    exact StepFrame.refl rt
  · rw [if_neg h0] at h
    exact mw_cpu_frame rt reg v .A rt' (Or.inr h0) h

/-- A successful `alu_rw` is a frame step. -/
theorem alu_rw_frame (rt : Runtime) (i : Instruction) (rd a b c : Nat)
    (rt' : Runtime) (h : rt.alu_rw i rd a b c = some rt') :
    StepFrame rt rt' := by
  simp only [Runtime.alu_rw, Option.bind_eq_bind, Option.bind_eq_some,
    Option.pure_def, Option.some.injEq] at h
  obtain ⟨rt1, h1, heq⟩ := h
  subst heq
  exact (rw_frame rt rd a rt1 h1).trans (emit_alu_frame rt1 _ _ _ _ _)

/-- A successful `alu_rr` is a frame step. -/
theorem alu_rr_frame (rt : Runtime) (i : Instruction)
    (out : Nat × Nat × Nat × Runtime) (h : rt.alu_rr i = some out) :
    StepFrame rt out.2.2.2 := by
  unfold Runtime.alu_rr at h
  split at h
  · simp only [Option.bind_eq_bind, Option.bind_eq_some, Option.pure_def,
      Option.some.injEq] at h
    obtain ⟨t, ht, p1, h1, p2, h2, heq⟩ := h
    subst heq
    exact (rr_frame rt _ _ p1 h1).trans (rr_frame p1.2 _ _ p2 h2)
  · split at h
    · simp only [Option.bind_eq_bind, Option.bind_eq_some, Option.pure_def,
        Option.some.injEq] at h
      obtain ⟨t, ht, p1, h1, heq⟩ := h
      subst heq
      exact rr_frame rt _ _ p1 h1
    · simp only [Option.bind_eq_bind, Option.bind_eq_some, Option.pure_def,
        Option.some.injEq] at h
      obtain ⟨rd, hrd, heq⟩ := h
      subst heq
      exact StepFrame.refl rt

/-- A successful `load_rr` is a frame step. -/
theorem load_rr_frame (rt : Runtime) (i : Instruction)
    (out : Nat × Nat × Nat × Nat × Nat × Runtime)
    (h : rt.load_rr i = some out) : StepFrame rt out.2.2.2.2.2 := by
  simp only [Runtime.load_rr, Option.bind_eq_bind, Option.bind_eq_some,
    Option.pure_def, Option.some.injEq] at h
  obtain ⟨t, ht, p1, h1, p2, h2, heq⟩ := h
  subst heq
  exact (rr_frame rt _ _ p1 h1).trans (mr_cpu_frame p1.2 _ _ p2 h2)

/-- A successful `store_rr` is a frame step. -/
theorem store_rr_frame (rt : Runtime) (i : Instruction)
    (out : Nat × Nat × Nat × Nat × Nat × Runtime)
    (h : rt.store_rr i = some out) : StepFrame rt out.2.2.2.2.2 := by
  simp only [Runtime.store_rr, Option.bind_eq_bind, Option.bind_eq_some,
    Option.pure_def, Option.some.injEq] at h
  obtain ⟨t, ht, p1, h1, p2, h2, heq⟩ := h
  subst heq
  exact (rr_frame rt _ _ p1 h1).trans (rr_frame p1.2 _ _ p2 h2)

/-- A successful `branch_rr` is a frame step. -/
theorem branch_rr_frame (rt : Runtime) (i : Instruction)
    (out : Nat × Nat × Nat × Runtime) (h : rt.branch_rr i = some out) :
    StepFrame rt out.2.2.2 := by
  simp only [Runtime.branch_rr, Option.bind_eq_bind, Option.bind_eq_some,
    Option.pure_def, Option.some.injEq] at h
  obtain ⟨t, ht, p1, h1, p2, h2, heq⟩ := h
  subst heq
  exact (rr_frame rt _ _ p1 h1).trans (rr_frame p1.2 _ _ p2 h2)

/-- Every successful non-`ECALL` instruction execution is a frame step: it
never changes the clocks, the shard, the mode flags, or the value read from
register `X0`. -/
theorem execute_frame (sys : SyscallEnv) (rt : Runtime) (i : Instruction)
    (rt' : Runtime) (hop : i.opcode ≠ .ECALL)
    (h : rt.execute sys i = some rt') : StepFrame rt rt' := by
  cases hoc : i.opcode
  case ADD =>
    simp only [Runtime.execute, hoc, Option.bind_eq_bind, Option.bind_eq_some,
      Option.pure_def, Option.some.injEq, Option.ite_none_right_eq_some] at h
    obtain ⟨q, h1, rt2, h2, heq⟩ := h
    subst heq
    exact (replaceRec_frame rt _).trans (((alu_rr_frame _ i q h1).trans
      (alu_rw_frame _ i _ _ _ _ rt2 h2)).trans
      (finishCycle_frame rt2 _ _ _ _ _ _ _))
  case SUB =>
    simp only [Runtime.execute, hoc, Option.bind_eq_bind, Option.bind_eq_some,
      Option.pure_def, Option.some.injEq, Option.ite_none_right_eq_some] at h
    obtain ⟨q, h1, rt2, h2, heq⟩ := h
    subst heq
    exact (replaceRec_frame rt _).trans (((alu_rr_frame _ i q h1).trans
      (alu_rw_frame _ i _ _ _ _ rt2 h2)).trans
      (finishCycle_frame rt2 _ _ _ _ _ _ _))
  case XOR =>
    simp only [Runtime.execute, hoc, Option.bind_eq_bind, Option.bind_eq_some,
      Option.pure_def, Option.some.injEq, Option.ite_none_right_eq_some] at h
    obtain ⟨q, h1, rt2, h2, heq⟩ := h
    subst heq
    exact (replaceRec_frame rt _).trans (((alu_rr_frame _ i q h1).trans
      (alu_rw_frame _ i _ _ _ _ rt2 h2)).trans
      (finishCycle_frame rt2 _ _ _ _ _ _ _))
  case OR =>
    simp only [Runtime.execute, hoc, Option.bind_eq_bind, Option.bind_eq_some,
      Option.pure_def, Option.some.injEq, Option.ite_none_right_eq_some] at h
    obtain ⟨q, h1, rt2, h2, heq⟩ := h
    subst heq
    exact (replaceRec_frame rt _).trans (((alu_rr_frame _ i q h1).trans
      (alu_rw_frame _ i _ _ _ _ rt2 h2)).trans
      (finishCycle_frame rt2 _ _ _ _ _ _ _))
  case AND =>
    simp only [Runtime.execute, hoc, Option.bind_eq_bind, Option.bind_eq_some,
      Option.pure_def, Option.some.injEq, Option.ite_none_right_eq_some] at h
    obtain ⟨q, h1, rt2, h2, heq⟩ := h
    subst heq
    exact (replaceRec_frame rt _).trans (((alu_rr_frame _ i q h1).trans
      (alu_rw_frame _ i _ _ _ _ rt2 h2)).trans
      (finishCycle_frame rt2 _ _ _ _ _ _ _))
  case SLL =>
    simp only [Runtime.execute, hoc, Option.bind_eq_bind, Option.bind_eq_some,
      Option.pure_def, Option.some.injEq, Option.ite_none_right_eq_some] at h
    obtain ⟨q, h1, rt2, h2, heq⟩ := h
    subst heq
    exact (replaceRec_frame rt _).trans (((alu_rr_frame _ i q h1).trans
      (alu_rw_frame _ i _ _ _ _ rt2 h2)).trans
      (finishCycle_frame rt2 _ _ _ _ _ _ _))
  case SRL =>
    simp only [Runtime.execute, hoc, Option.bind_eq_bind, Option.bind_eq_some,
      Option.pure_def, Option.some.injEq, Option.ite_none_right_eq_some] at h
    obtain ⟨q, h1, rt2, h2, heq⟩ := h
    subst heq
    exact (replaceRec_frame rt _).trans (((alu_rr_frame _ i q h1).trans
      (alu_rw_frame _ i _ _ _ _ rt2 h2)).trans
      (finishCycle_frame rt2 _ _ _ _ _ _ _))
  case SRA =>
    simp only [Runtime.execute, hoc, Option.bind_eq_bind, Option.bind_eq_some,
      Option.pure_def, Option.some.injEq, Option.ite_none_right_eq_some] at h
    obtain ⟨q, h1, rt2, h2, heq⟩ := h
    subst heq
    exact (replaceRec_frame rt _).trans (((alu_rr_frame _ i q h1).trans
      (alu_rw_frame _ i _ _ _ _ rt2 h2)).trans
      (finishCycle_frame rt2 _ _ _ _ _ _ _))
  case SLT =>
    simp only [Runtime.execute, hoc, Option.bind_eq_bind, Option.bind_eq_some,
      Option.pure_def, Option.some.injEq, Option.ite_none_right_eq_some] at h
    obtain ⟨q, h1, rt2, h2, heq⟩ := h
    subst heq
    exact (replaceRec_frame rt _).trans (((alu_rr_frame _ i q h1).trans
      (alu_rw_frame _ i _ _ _ _ rt2 h2)).trans
      (finishCycle_frame rt2 _ _ _ _ _ _ _))
  case SLTU =>
    simp only [Runtime.execute, hoc, Option.bind_eq_bind, Option.bind_eq_some,
      Option.pure_def, Option.some.injEq, Option.ite_none_right_eq_some] at h
    obtain ⟨q, h1, rt2, h2, heq⟩ := h
    subst heq
    exact (replaceRec_frame rt _).trans (((alu_rr_frame _ i q h1).trans
      (alu_rw_frame _ i _ _ _ _ rt2 h2)).trans
      (finishCycle_frame rt2 _ _ _ _ _ _ _))
  case MUL =>
    simp only [Runtime.execute, hoc, Option.bind_eq_bind, Option.bind_eq_some,
      Option.pure_def, Option.some.injEq, Option.ite_none_right_eq_some] at h
    obtain ⟨q, h1, rt2, h2, heq⟩ := h
    subst heq
    exact (replaceRec_frame rt _).trans (((alu_rr_frame _ i q h1).trans
      (alu_rw_frame _ i _ _ _ _ rt2 h2)).trans
      (finishCycle_frame rt2 _ _ _ _ _ _ _))
  case MULH =>
    simp only [Runtime.execute, hoc, Option.bind_eq_bind, Option.bind_eq_some,
      Option.pure_def, Option.some.injEq, Option.ite_none_right_eq_some] at h
    obtain ⟨q, h1, rt2, h2, heq⟩ := h
    subst heq
    exact (replaceRec_frame rt _).trans (((alu_rr_frame _ i q h1).trans
      (alu_rw_frame _ i _ _ _ _ rt2 h2)).trans
      (finishCycle_frame rt2 _ _ _ _ _ _ _))
  case MULHU =>
    simp only [Runtime.execute, hoc, Option.bind_eq_bind, Option.bind_eq_some,
      Option.pure_def, Option.some.injEq, Option.ite_none_right_eq_some] at h
    obtain ⟨q, h1, rt2, h2, heq⟩ := h
    subst heq
    exact (replaceRec_frame rt _).trans (((alu_rr_frame _ i q h1).trans
      (alu_rw_frame _ i _ _ _ _ rt2 h2)).trans
      (finishCycle_frame rt2 _ _ _ _ _ _ _))
  case MULHSU =>
    simp only [Runtime.execute, hoc, Option.bind_eq_bind, Option.bind_eq_some,
      Option.pure_def, Option.some.injEq, Option.ite_none_right_eq_some] at h
    obtain ⟨q, h1, rt2, h2, heq⟩ := h
    subst heq
    exact (replaceRec_frame rt _).trans (((alu_rr_frame _ i q h1).trans
      (alu_rw_frame _ i _ _ _ _ rt2 h2)).trans
      (finishCycle_frame rt2 _ _ _ _ _ _ _))
  case DIV =>
    simp only [Runtime.execute, hoc, Option.bind_eq_bind, Option.bind_eq_some,
      Option.pure_def, Option.some.injEq, Option.ite_none_right_eq_some] at h
    obtain ⟨q, h1, rt2, h2, heq⟩ := h
    subst heq
    exact (replaceRec_frame rt _).trans (((alu_rr_frame _ i q h1).trans
      (alu_rw_frame _ i _ _ _ _ rt2 h2)).trans
      (finishCycle_frame rt2 _ _ _ _ _ _ _))
  case DIVU =>
    simp only [Runtime.execute, hoc, Option.bind_eq_bind, Option.bind_eq_some,
      Option.pure_def, Option.some.injEq, Option.ite_none_right_eq_some] at h
    obtain ⟨q, h1, rt2, h2, heq⟩ := h
    subst heq
    exact (replaceRec_frame rt _).trans (((alu_rr_frame _ i q h1).trans
      (alu_rw_frame _ i _ _ _ _ rt2 h2)).trans
      (finishCycle_frame rt2 _ _ _ _ _ _ _))
  case REM =>
    simp only [Runtime.execute, hoc, Option.bind_eq_bind, Option.bind_eq_some,
      Option.pure_def, Option.some.injEq, Option.ite_none_right_eq_some] at h
    obtain ⟨q, h1, rt2, h2, heq⟩ := h
    subst heq
    exact (replaceRec_frame rt _).trans (((alu_rr_frame _ i q h1).trans
      (alu_rw_frame _ i _ _ _ _ rt2 h2)).trans
      (finishCycle_frame rt2 _ _ _ _ _ _ _))
  case REMU =>
    simp only [Runtime.execute, hoc, Option.bind_eq_bind, Option.bind_eq_some,
      Option.pure_def, Option.some.injEq, Option.ite_none_right_eq_some] at h
    obtain ⟨q, h1, rt2, h2, heq⟩ := h
    subst heq
    exact (replaceRec_frame rt _).trans (((alu_rr_frame _ i q h1).trans
      (alu_rw_frame _ i _ _ _ _ rt2 h2)).trans
      (finishCycle_frame rt2 _ _ _ _ _ _ _))
  case LB =>
    simp only [Runtime.execute, hoc, Option.bind_eq_bind, Option.bind_eq_some,
      Option.pure_def, Option.some.injEq, Option.ite_none_right_eq_some] at h
    obtain ⟨q, h1, rt2, h2, heq⟩ := h
    subst heq
    exact (replaceRec_frame rt _).trans (((load_rr_frame _ i q h1).trans
      (rw_frame _ _ _ rt2 h2)).trans
      (finishCycle_frame rt2 _ _ _ _ _ _ _))
  case LBU =>
    simp only [Runtime.execute, hoc, Option.bind_eq_bind, Option.bind_eq_some,
      Option.pure_def, Option.some.injEq, Option.ite_none_right_eq_some] at h
    obtain ⟨q, h1, rt2, h2, heq⟩ := h
    subst heq
    exact (replaceRec_frame rt _).trans (((load_rr_frame _ i q h1).trans
      (rw_frame _ _ _ rt2 h2)).trans
      (finishCycle_frame rt2 _ _ _ _ _ _ _))
  case LH =>
    simp only [Runtime.execute, hoc, Option.bind_eq_bind, Option.bind_eq_some,
      Option.pure_def, Option.some.injEq, Option.ite_none_right_eq_some] at h
    obtain ⟨q, h1, hg, rt2, h2, heq⟩ := h
    subst heq
    exact (replaceRec_frame rt _).trans (((load_rr_frame _ i q h1).trans
      (rw_frame _ _ _ rt2 h2)).trans
      (finishCycle_frame rt2 _ _ _ _ _ _ _))
  case LHU =>
    simp only [Runtime.execute, hoc, Option.bind_eq_bind, Option.bind_eq_some,
      Option.pure_def, Option.some.injEq, Option.ite_none_right_eq_some] at h
    obtain ⟨q, h1, hg, rt2, h2, heq⟩ := h
    subst heq
    exact (replaceRec_frame rt _).trans (((load_rr_frame _ i q h1).trans
      (rw_frame _ _ _ rt2 h2)).trans
      (finishCycle_frame rt2 _ _ _ _ _ _ _))
  case LW =>
    simp only [Runtime.execute, hoc, Option.bind_eq_bind, Option.bind_eq_some,
      Option.pure_def, Option.some.injEq, Option.ite_none_right_eq_some] at h
    obtain ⟨q, h1, hg, rt2, h2, heq⟩ := h
    subst heq
    exact (replaceRec_frame rt _).trans (((load_rr_frame _ i q h1).trans
      (rw_frame _ _ _ rt2 h2)).trans
      (finishCycle_frame rt2 _ _ _ _ _ _ _))
  case SB =>
    simp only [Runtime.execute, hoc, Option.bind_eq_bind, Option.bind_eq_some,
      Option.pure_def, Option.some.injEq, Option.ite_none_right_eq_some] at h
    obtain ⟨q, h1, rt2, h2, heq⟩ := h
    subst heq
    exact (replaceRec_frame rt _).trans (((store_rr_frame _ i q h1).trans
      (mw_cpu_frame _ _ _ _ rt2 (Or.inl rfl) h2)).trans
      (finishCycle_frame rt2 _ _ _ _ _ _ _))
  case SH =>
    simp only [Runtime.execute, hoc, Option.bind_eq_bind, Option.bind_eq_some,
      Option.pure_def, Option.some.injEq, Option.ite_none_right_eq_some] at h
    obtain ⟨q, h1, hg, rt2, h2, heq⟩ := h
    subst heq
    exact (replaceRec_frame rt _).trans (((store_rr_frame _ i q h1).trans
      (mw_cpu_frame _ _ _ _ rt2 (Or.inl rfl) h2)).trans
      (finishCycle_frame rt2 _ _ _ _ _ _ _))
  case SW =>
    simp only [Runtime.execute, hoc, Option.bind_eq_bind, Option.bind_eq_some,
      Option.pure_def, Option.some.injEq, Option.ite_none_right_eq_some] at h
    obtain ⟨q, h1, hg, rt2, h2, heq⟩ := h
    subst heq
    exact (replaceRec_frame rt _).trans (((store_rr_frame _ i q h1).trans
      (mw_cpu_frame _ _ _ _ rt2 (Or.inl rfl) h2)).trans
      (finishCycle_frame rt2 _ _ _ _ _ _ _))
  case BEQ =>
    simp only [Runtime.execute, hoc, Option.bind_eq_bind, Option.bind_eq_some,
      Option.pure_def, Option.some.injEq, Option.ite_none_right_eq_some] at h
    obtain ⟨q, h1, heq⟩ := h
    subst heq
    exact (replaceRec_frame rt _).trans ((branch_rr_frame _ i q h1).trans
      (finishCycle_frame _ _ _ _ _ _ _ _))
  case BNE =>
    simp only [Runtime.execute, hoc, Option.bind_eq_bind, Option.bind_eq_some,
      Option.pure_def, Option.some.injEq, Option.ite_none_right_eq_some] at h
    obtain ⟨q, h1, heq⟩ := h
    subst heq
    exact (replaceRec_frame rt _).trans ((branch_rr_frame _ i q h1).trans
      (finishCycle_frame _ _ _ _ _ _ _ _))
  case BLT =>
    simp only [Runtime.execute, hoc, Option.bind_eq_bind, Option.bind_eq_some,
      Option.pure_def, Option.some.injEq, Option.ite_none_right_eq_some] at h
    obtain ⟨q, h1, heq⟩ := h
    subst heq
    exact (replaceRec_frame rt _).trans ((branch_rr_frame _ i q h1).trans
      (finishCycle_frame _ _ _ _ _ _ _ _))
  case BGE =>
    simp only [Runtime.execute, hoc, Option.bind_eq_bind, Option.bind_eq_some,
      Option.pure_def, Option.some.injEq, Option.ite_none_right_eq_some] at h
    obtain ⟨q, h1, heq⟩ := h
    subst heq
    exact (replaceRec_frame rt _).trans ((branch_rr_frame _ i q h1).trans
      (finishCycle_frame _ _ _ _ _ _ _ _))
  case BLTU =>
    simp only [Runtime.execute, hoc, Option.bind_eq_bind, Option.bind_eq_some,
      Option.pure_def, Option.some.injEq, Option.ite_none_right_eq_some] at h
    obtain ⟨q, h1, heq⟩ := h
    subst heq
    exact (replaceRec_frame rt _).trans ((branch_rr_frame _ i q h1).trans
      (finishCycle_frame _ _ _ _ _ _ _ _))
  case BGEU =>
    simp only [Runtime.execute, hoc, Option.bind_eq_bind, Option.bind_eq_some,
      Option.pure_def, Option.some.injEq, Option.ite_none_right_eq_some] at h
    obtain ⟨q, h1, heq⟩ := h
    subst heq
    exact (replaceRec_frame rt _).trans ((branch_rr_frame _ i q h1).trans
      (finishCycle_frame _ _ _ _ _ _ _ _))
  case JAL =>
    simp only [Runtime.execute, hoc, Option.bind_eq_bind, Option.bind_eq_some,
      Option.pure_def, Option.some.injEq, Option.ite_none_right_eq_some] at h
    obtain ⟨t, ht, rt2, h2, heq⟩ := h
    subst heq
    exact (replaceRec_frame rt _).trans ((rw_frame _ _ _ rt2 h2).trans
      (finishCycle_frame _ _ _ _ _ _ _ _))
  case JALR =>
    simp only [Runtime.execute, hoc, Option.bind_eq_bind, Option.bind_eq_some,
      Option.pure_def, Option.some.injEq, Option.ite_none_right_eq_some] at h
    obtain ⟨t, ht, p1, h1, rt2, h2, heq⟩ := h
    subst heq
    exact (replaceRec_frame rt _).trans (((rr_frame _ _ _ p1 h1).trans
      (rw_frame _ _ _ rt2 h2)).trans
      (finishCycle_frame _ _ _ _ _ _ _ _))
  case AUIPC =>
    simp only [Runtime.execute, hoc, Option.bind_eq_bind, Option.bind_eq_some,
      Option.pure_def, Option.some.injEq, Option.ite_none_right_eq_some] at h
    obtain ⟨t, ht, rt2, h2, heq⟩ := h
    subst heq
    exact (replaceRec_frame rt _).trans ((rw_frame _ _ _ rt2 h2).trans
      (finishCycle_frame _ _ _ _ _ _ _ _))
  case ECALL =>
    exact absurd hoc hop
  case EBREAK =>
    simp only [Runtime.execute, hoc] at h
    exact Option.noConfusion h
  case UNIMP =>
    simp only [Runtime.execute, hoc] at h
    exact Option.noConfusion h

/-- Decomposition of a successful `ECALL`: a handler was found for the
syscall id read from `X5`, it ran on the record-cleared runtime, the clock
guard `init_clk + num_extra_cycles = clk` held, and the rest of the arm
(the `X10` write, the `X5` read and `finishCycle`) is a frame step. -/
theorem execute_ecall_parts (sys : SyscallEnv) (rt : Runtime)
    (i : Instruction) (rt' : Runtime) (hoc : i.opcode = .ECALL)
    (h : rt.execute sys i = some rt') :
    ∃ s out, sys.lookup (rt.register 5) = some s ∧
      s.run { rt with cpu_record := ({} : CpuRecord) } = some out ∧
      out.2.2.state.clk = rt.state.clk + s.extraCycles ∧
      StepFrame out.2.2 rt' := by
  simp only [Runtime.execute, hoc, replaceRec_register, replaceRec_state] at h
  cases hl : sys.lookup (rt.register 5) with
  | none => rw [hl] at h; exact Option.noConfusion h
  | some s =>
    rw [hl] at h
    simp only [Option.bind_eq_bind, Option.bind_eq_some, Option.pure_def,
      Option.some.injEq, Option.ite_none_right_eq_some] at h
    obtain ⟨out, hrun, hclk, rt2, hrw, p, hrr, heq⟩ := h
    subst heq
    exact ⟨s, out, rfl, hrun, hclk,
      ((rw_frame _ _ _ rt2 hrw).trans (rr_frame _ _ _ p hrr)).trans
        (finishCycle_frame _ _ _ _ _ _ _ _)⟩

/-- Modelled from the spec (§4.7, §5): syscall handler implementations are
external; this hypothesis states that every registered handler leaves
`global_clk` alone (the runtime itself increments it once per instruction). -/
def SyscallEnvKeepsGlobalClk (sys : SyscallEnv) : Prop :=
  ∀ code s, sys.lookup code = some s →
    ∀ r out, s.run r = some out →
      out.2.2.state.global_clk = r.state.global_clk

/-- Modelled from the spec (§4.7): the registered handlers preserve a
property of the runtime. -/
def SyscallEnvPreserves (P : Runtime → Prop) (sys : SyscallEnv) : Prop :=
  ∀ code s, sys.lookup code = some s →
    ∀ r out, s.run r = some out → P r → P out.2.2

/-- The empty syscall registry keeps `global_clk`. -/
theorem emptySyscallEnv_keeps_global : SyscallEnvKeepsGlobalClk [] := by
  intro code s hl
  simp [SyscallEnv.lookup, List.lookup] at hl

/-- The empty syscall registry preserves every property. -/
theorem emptySyscallEnv_preserves (P : Runtime → Prop) :
    SyscallEnvPreserves P [] := by
  intro code s hl
  simp [SyscallEnv.lookup, List.lookup] at hl

/-- `advanceClock` increments the global clock by exactly one. -/
theorem advanceClock_global_clk (rt : Runtime) (M : Nat) :
    (rt.advanceClock M).state.global_clk = rt.state.global_clk + 1 := by
  unfold Runtime.advanceClock
  by_cases hc : (!rt.unconstrained &&
      decide (rt.shard_size * 4 ≤ M + (rt.state.clk + 4))) = true
  · rw [if_pos hc]
  · rw [if_neg hc]

/-- `advanceClock` either adds `4` to the clock, or resets it to `0` when
not unconstrained and the boundary comparison holds. -/
theorem advanceClock_clk_cases (rt : Runtime) (M : Nat) :
    (rt.advanceClock M).state.clk = rt.state.clk + 4 ∨
      ((rt.advanceClock M).state.clk = 0 ∧ rt.unconstrained = false ∧
        rt.shard_size * 4 ≤ M + (rt.state.clk + 4)) := by
  unfold Runtime.advanceClock
  by_cases hc : (!rt.unconstrained &&
      decide (rt.shard_size * 4 ≤ M + (rt.state.clk + 4))) = true
  · right
    rw [if_pos hc]
    simp only [Bool.and_eq_true, Bool.not_eq_true', decide_eq_true_eq] at hc
    exact ⟨rfl, hc.1, hc.2⟩
  · left
    rw [if_neg hc]

/-- `advanceClock` changes no register value. -/
theorem advanceClock_register (rt : Runtime) (M x : Nat) :
    (rt.advanceClock M).register x = rt.register x := by
  unfold Runtime.advanceClock
  by_cases hc : (!rt.unconstrained &&
      decide (rt.shard_size * 4 ≤ M + (rt.state.clk + 4))) = true
  · rw [if_pos hc]
    rfl
  · rw [if_neg hc]
    rfl

/-- `advanceClock` does not flip the unconstrained flag. -/
theorem advanceClock_unconstrained (rt : Runtime) (M : Nat) :
    (rt.advanceClock M).unconstrained = rt.unconstrained := by
  unfold Runtime.advanceClock
  by_cases hc : (!rt.unconstrained &&
      decide (rt.shard_size * 4 ≤ M + (rt.state.clk + 4))) = true
  · rw [if_pos hc]
  · rw [if_neg hc]

/-- Executing any instruction leaves `global_clk` alone (for `ECALL`, by the
handler hypothesis). -/
theorem execute_global_clk (sys : SyscallEnv) (rt : Runtime)
    (i : Instruction) (rt' : Runtime) (hg : SyscallEnvKeepsGlobalClk sys)
    (h : rt.execute sys i = some rt') :
    rt'.state.global_clk = rt.state.global_clk := by
  by_cases hop : i.opcode = .ECALL
  · obtain ⟨s, out, hl, hrun, _, hframe⟩ :=
      execute_ecall_parts sys rt i rt' hop h
    exact hframe.global_clk.trans
      (hg _ _ hl { rt with cpu_record := ({} : CpuRecord) } _ hrun)
  · exact (execute_frame sys rt i rt' hop h).global_clk

/-! ## C8: per-instruction clock increments -/

/-- C8 (amended): for every instruction executed by the main loop,
`global_clk` increases by exactly `1`; `clk` increases by exactly `4` for a
non-`ECALL` instruction (or by the syscall's extra cycles plus `4` for
`ECALL`), except that when the shard-boundary condition fires during the
end-of-cycle bookkeeping, `clk` is reset to `0` instead. -/
theorem clk_increments (sys : SyscallEnv) (M : Nat) (rt : Runtime)
    (i : Instruction) (rt' : Runtime)
    (hg : SyscallEnvKeepsGlobalClk sys)
    (hexec : rt.execute sys i = some rt') :
    (rt'.advanceClock M).state.global_clk = rt.state.global_clk + 1 ∧
    (i.opcode ≠ .ECALL →
      rt'.state.clk = rt.state.clk ∧
      ((rt'.advanceClock M).state.clk = rt.state.clk + 4 ∨
        ((rt'.advanceClock M).state.clk = 0 ∧ rt'.unconstrained = false ∧
          rt'.shard_size * 4 ≤ M + (rt.state.clk + 4)))) ∧
    (i.opcode = .ECALL → ∃ s, sys.lookup (rt.register 5) = some s ∧
      rt'.state.clk = rt.state.clk + s.extraCycles) := by
  refine ⟨?_, fun hop => ?_, fun hop => ?_⟩
  · rw [advanceClock_global_clk, execute_global_clk sys rt i rt' hg hexec]
  · have hf := execute_frame sys rt i rt' hop hexec
    refine ⟨hf.clk, ?_⟩
    rcases advanceClock_clk_cases rt' M with hc | hc
    · exact Or.inl (by rw [hc, hf.clk])
    · exact Or.inr ⟨hc.1, hc.2.1, by rw [← hf.clk]; exact hc.2.2⟩
  · obtain ⟨s, out, hl, hrun, hclk, hframe⟩ :=
      execute_ecall_parts sys rt i rt' hop hexec
    exact ⟨s, hl, hframe.clk.trans hclk⟩

/-- Witness for C8 (amended) at a concrete instruction execution. -/
theorem clk_increments_witness :
    ∃ rt', (Runtime.start 1 fourAddProgram).execute []
        ⟨.ADD, 29, 0, 1, false, true⟩ = some rt' ∧
      (rt'.advanceClock 0).state.global_clk =
        (Runtime.start 1 fourAddProgram).state.global_clk + 1 := by
  have hsome : ((Runtime.start 1 fourAddProgram).execute []
      ⟨.ADD, 29, 0, 1, false, true⟩).isSome = true := rfl
  exact ⟨_, (Option.some_get hsome).symm,
    (clk_increments [] 0 _ _ _ emptySyscallEnv_keeps_global
      (Option.some_get hsome).symm).1⟩

/-! ## C4: register `X0` -/

/-- `loadImage` leaves untouched every address not in the image. -/
theorem loadImage_not_touched (image : List (Nat × Nat)) (x : Nat)
    (hx : ∀ p ∈ image, p.1 ≠ x) :
    ∀ m : Mem, loadImage image m x = m x := by
  induction image with
  | nil => intro m; rfl
  | cons p ps ih =>
    intro m
    have hstep : loadImage (p :: ps) m =
        loadImage ps (m.set p.1 (p.2, 0, 0)) := rfl
    have hne : x ≠ p.1 := fun hh =>
      hx p (List.mem_cons_self p ps) hh.symm
    rw [hstep, ih (fun q hq => hx q (List.mem_cons_of_mem _ hq))]
    simp [Mem.set, hne]

/-- In the start state, register `X0` reads `0` provided the program's
memory image does not alias address `0`. -/
theorem start_x0 (env : Nat) (prog : Program)
    (himg : ∀ p ∈ prog.memory_image, p.1 ≠ 0) :
    (Runtime.start env prog).register 0 = 0 := by
  have hmem : (Runtime.start env prog).state.memory 0 = none := by
    show loadImage prog.memory_image (fun _ => none) 0 = none
    rw [loadImage_not_touched _ _ himg]
  simp [Runtime.register, hmem]

/-- Register `X0` reading `0` is preserved by every iteration of the main
loop (for `ECALL`, by the handler hypothesis). -/
theorem stepN_x0 (sys : SyscallEnv)
    (hsys : SyscallEnvPreserves (fun r => r.register 0 = 0) sys) :
    ∀ fuel (rt rt' : Runtime), rt.register 0 = 0 →
      Runtime.stepN sys fuel rt = some rt' → rt'.register 0 = 0 := by
  intro fuel
  induction fuel with
  | zero =>
    intro rt rt' h0 h
    obtain rfl := (Option.some.injEq _ _).mp h
    exact h0
  | succ n ih =>
    intro rt rt' h0 h
    rw [Runtime.stepN] at h
    by_cases hin : rt.inRange
    · rw [if_pos hin] at h
      simp only [Option.bind_eq_bind, Option.bind_eq_some] at h
      obtain ⟨i, hfetch, rt1, hexec, hrest⟩ := h
      have h1 : rt1.register 0 = 0 := by
        by_cases hop : i.opcode = .ECALL
        · obtain ⟨s, out, hl, hrun, _, hframe⟩ :=
            execute_ecall_parts sys rt i rt1 hop hexec
          exact hframe.x0.trans (hsys _ _ hl _ _ hrun h0)
        · exact (execute_frame sys rt i rt1 hop hexec).x0.trans h0
      exact ih _ _ ((advanceClock_register rt1 _ 0).trans h1) hrest
    · rw [if_neg hin] at h
      obtain rfl := (Option.some.injEq _ _).mp h
      exact h0

/-- C4 (confirmed): register `X0` always reads zero.  For every value `v`,
`rw(X0, v)` returns the runtime unchanged (the write is silently dropped),
and `register(X0)` returns `0` at every point of any execution - the states
reached after any number of main-loop iterations from the start state.  (A
well-formed program image does not alias address `0`, and the external
syscall handlers - out of scope here - may not clear it either; both appear
as hypotheses.) -/
theorem x0_reads_zero (shardSizeEnv : Nat) (prog : Program)
    (sys : SyscallEnv) (fuel : Nat) (rt' : Runtime) (v : Nat)
    (himg : ∀ p ∈ prog.memory_image, p.1 ≠ 0)
    (hsys : SyscallEnvPreserves (fun r => r.register 0 = 0) sys)
    (hrun : Runtime.stepN sys fuel (Runtime.start shardSizeEnv prog)
      = some rt') :
    rt'.register 0 = 0 ∧ (∀ r : Runtime, r.rw 0 v = some r) :=
  ⟨stepN_x0 sys hsys fuel _ rt' (start_x0 shardSizeEnv prog himg) hrun,
   fun _ => rfl⟩

/-- Witness for C4 at a concrete program and fuel. -/
theorem x0_reads_zero_witness :
    ∃ rt', Runtime.stepN [] 3 (Runtime.start 1 simpleProgram) = some rt' ∧
      (rt'.register 0 = 0 ∧ ∀ r : Runtime, r.rw 0 7 = some r) := by
  have hsome :
      (Runtime.stepN [] 3 (Runtime.start 1 simpleProgram)).isSome = true :=
    rfl
  exact ⟨_, (Option.some_get hsome).symm,
    x0_reads_zero 1 simpleProgram [] 3 _ 7 (by simp [simpleProgram])
      (emptySyscallEnv_preserves _) (Option.some_get hsome).symm⟩

/-! ## C9: access records never repeat their previous `(shard, timestamp)` -/

/-- A stashed access record is fresh: its current `(shard, timestamp)` pair
differs from the `(prev_shard, prev_timestamp)` pair it reports for the same
address. -/
def recordFresh : MemoryRecordEnum → Prop
  | .read r =>
    ((r.shard, r.timestamp) : Nat × Nat) ≠ (r.prev_shard, r.prev_timestamp)
  | .write w =>
    ((w.shard, w.timestamp) : Nat × Nat) ≠ (w.prev_shard, w.prev_timestamp)

/-- Freshness of an optional `CpuRecord` slot (vacuous when empty). -/
def slotFresh : Option MemoryRecordEnum → Prop
  | none => True
  | some e => recordFresh e

/-- Every filled slot of a per-cycle CPU record is fresh. -/
def CpuRecordFresh (r : CpuRecord) : Prop :=
  slotFresh r.a ∧ slotFresh r.b ∧ slotFresh r.c ∧ slotFresh r.memory

/-- Every record stashed in an emitted CPU event is fresh. -/
def eventFresh (e : CpuEvent) : Prop :=
  slotFresh e.a_record ∧ slotFresh e.b_record ∧ slotFresh e.c_record ∧
    slotFresh e.memory_record

/-- Classification of the live memory stamps relative to the current shard
and clock: every stored `(shard, timestamp)` lies in an earlier shard, or
strictly before `clk` in the current shard, or at an in-cycle offset
`clk + p` for a position index `p` marked as already used (`S p`). -/
def MemAlmost (shard clk : Nat) (S : Nat → Prop) (m : Mem) : Prop :=
  ∀ a v s t, m a = some (v, s, t) →
    s < shard ∨ (s = shard ∧ (t < clk ∨ ∃ p, S p ∧ t = clk + p))

/-- The in-cycle freshness state threaded through one instruction: the shard
counter has started, the memory stamps are classified by the used-offset set
`S`, and every record stashed so far this cycle is fresh. -/
structure FreshAt (S : Nat → Prop) (rt : Runtime) : Prop where
  shard : 1 ≤ rt.state.current_shard
  mem : MemAlmost rt.state.current_shard rt.state.clk S rt.state.memory
  cr : CpuRecordFresh rt.cpu_record

/-- The between-cycles freshness invariant: no in-cycle offsets outstanding
and every already-emitted CPU event carries only fresh records. -/
def FreshInv (rt : Runtime) : Prop :=
  FreshAt (fun _ => False) rt ∧ ∀ e ∈ rt.record.cpu_events, eventFresh e

/-- The state right after `execute`, before the clock bookkeeping: stamps
classified by the in-cycle offsets `< 4`, stash and all events fresh. -/
def FreshPost (rt : Runtime) : Prop :=
  1 ≤ rt.state.current_shard ∧
  MemAlmost rt.state.current_shard rt.state.clk (fun q => q < 4)
    rt.state.memory ∧
  CpuRecordFresh rt.cpu_record ∧
  ∀ e ∈ rt.record.cpu_events, eventFresh e

/-- Weakening of the used-offset set in a memory classification. -/
theorem memAlmost_mono {S T : Nat → Prop} (hsub : ∀ q, S q → T q)
    {shard clk : Nat} {m : Mem} (h : MemAlmost shard clk S m) :
    MemAlmost shard clk T m := by
  intro a v s t ha
  rcases h a v s t ha with hh | ⟨hs, hr⟩
  · exact Or.inl hh
  · rcases hr with hh | ⟨q, hq, ht⟩
    · exact Or.inr ⟨hs, Or.inl hh⟩
    · exact Or.inr ⟨hs, Or.inr ⟨q, hsub q hq, ht⟩⟩

/-- Weakening of the used-offset set in the in-cycle freshness state. -/
theorem freshAt_mono {S T : Nat → Prop} (hsub : ∀ q, S q → T q)
    {rt : Runtime} (h : FreshAt S rt) : FreshAt T rt :=
  ⟨h.shard, memAlmost_mono hsub h.mem, h.cr⟩

/-- A classified old stamp can never equal the fresh stamp `(SH, CK + idx)`
of an access at an offset `idx` not yet used this cycle. -/
theorem classified_pair_ne (SH CK idx s t : Nat) (S : Nat → Prop)
    (h1 : 1 ≤ SH) (hS : ¬ S idx)
    (hc : s < SH ∨ (s = SH ∧ (t < CK ∨ ∃ q, S q ∧ t = CK + q))) :
    ((SH, CK + idx) : Nat × Nat) ≠ (s, t) := by
  intro hh
  rw [Prod.mk.injEq] at hh
  obtain ⟨h2, h3⟩ := hh
  rcases hc with hlt | ⟨hs, hr⟩
  · omega
  · rcases hr with hlt | ⟨q, hq, ht⟩
    · omega
    · have hiq : idx = q := by omega
      rw [hiq] at hS
      exact hS hq

/-- A fresh stamp in a started shard can never equal the default `(0, 0)`
stamp of a never-touched cell. -/
theorem pair_ne_zero (SH CK idx : Nat) (h1 : 1 ≤ SH) :
    ((SH, CK + idx) : Nat × Nat) ≠ (0, 0) := by
  intro hh
  rw [Prod.mk.injEq] at hh
  omega

/-- The empty per-cycle CPU record is fresh. -/
theorem cpuRecordFresh_empty : CpuRecordFresh {} :=
  ⟨trivial, trivial, trivial, trivial⟩

/-- Stashing a fresh record keeps the per-cycle CPU record fresh. -/
theorem cpuRecordFresh_setSlot (r : CpuRecord) (pos : AccessPosition)
    (e : MemoryRecordEnum) (hr : CpuRecordFresh r) (he : recordFresh e) :
    CpuRecordFresh (r.setSlot pos e) := by
  obtain ⟨h1, h2, h3, h4⟩ := hr
  cases pos
  · exact ⟨h1, h2, h3, he⟩
  · exact ⟨h1, h2, he, h4⟩
  · exact ⟨h1, he, h3, h4⟩
  · exact ⟨he, h2, h3, h4⟩

/-- The shard stamped into an `mr` record. -/
@[simp] theorem mr_rec_shard (rt : Runtime) (a s c : Nat) :
    (rt.mr a s c).1.shard = s := rfl

/-- The timestamp stamped into an `mr` record. -/
@[simp] theorem mr_rec_timestamp (rt : Runtime) (a s c : Nat) :
    (rt.mr a s c).1.timestamp = c := rfl

/-- The previous shard reported by an `mr` record. -/
@[simp] theorem mr_rec_prev_shard (rt : Runtime) (a s c : Nat) :
    (rt.mr a s c).1.prev_shard =
      ((rt.state.memory a).getD (0, 0, 0)).2.1 := rfl

/-- The previous timestamp reported by an `mr` record. -/
@[simp] theorem mr_rec_prev_timestamp (rt : Runtime) (a s c : Nat) :
    (rt.mr a s c).1.prev_timestamp =
      ((rt.state.memory a).getD (0, 0, 0)).2.2 := rfl

/-- The record returned by `mr` at a not-yet-used in-cycle offset is fresh:
its `(shard, timestamp)` differs from its `(prev_shard, prev_timestamp)`. -/
theorem mr_rec_fresh (rt : Runtime) (a idx : Nat) (S : Nat → Prop)
    (h1 : 1 ≤ rt.state.current_shard) (hS : ¬ S idx)
    (hmem : MemAlmost rt.state.current_shard rt.state.clk S
      rt.state.memory) :
    recordFresh
      (.read (rt.mr a rt.state.current_shard (rt.state.clk + idx)).1) := by
  cases hma : rt.state.memory a with
  | none =>
    simp only [recordFresh, mr_rec_shard, mr_rec_timestamp,
      mr_rec_prev_shard, mr_rec_prev_timestamp, hma, Option.getD_none]
    exact pair_ne_zero _ _ _ h1
  | some e =>
    obtain ⟨v, s, t⟩ := e
    simp only [recordFresh, mr_rec_shard, mr_rec_timestamp,
      mr_rec_prev_shard, mr_rec_prev_timestamp, hma, Option.getD_some]
    exact classified_pair_ne rt.state.current_shard rt.state.clk idx s t S
      h1 hS (hmem a v s t hma)

/-- The record returned by `mw` at a not-yet-used in-cycle offset is
fresh. -/
theorem mw_rec_fresh (rt : Runtime) (a v idx : Nat) (S : Nat → Prop)
    (h1 : 1 ≤ rt.state.current_shard) (hS : ¬ S idx)
    (hmem : MemAlmost rt.state.current_shard rt.state.clk S
      rt.state.memory) :
    recordFresh
      (.write
        (rt.mw a v rt.state.current_shard (rt.state.clk + idx)).1) := by
  cases hma : rt.state.memory a with
  | none =>
    simp only [recordFresh, mw_rec_shard, mw_rec_timestamp,
      mw_rec_prev_shard, mw_rec_prev_timestamp, hma, Option.getD_none]
    exact pair_ne_zero _ _ _ h1
  | some e =>
    obtain ⟨w, s, t⟩ := e
    simp only [recordFresh, mw_rec_shard, mw_rec_timestamp,
      mw_rec_prev_shard, mw_rec_prev_timestamp, hma, Option.getD_some]
    exact classified_pair_ne rt.state.current_shard rt.state.clk idx s t S
      h1 hS (hmem a w s t hma)

/-- `mr` at the in-cycle offset `idx` keeps the classification, with `idx`
added to the used-offset set. -/
theorem memAlmost_mr (rt : Runtime) (a idx : Nat) (S : Nat → Prop)
    (hmem : MemAlmost rt.state.current_shard rt.state.clk S
      rt.state.memory) :
    MemAlmost rt.state.current_shard rt.state.clk (fun q => S q ∨ q = idx)
      (rt.mr a rt.state.current_shard
        (rt.state.clk + idx)).2.state.memory := by
  intro x w s t hx
  rw [mr_memory] at hx
  by_cases hxa : x = a
  · rw [if_pos hxa] at hx
    simp only [Option.some.injEq, Prod.mk.injEq] at hx
    obtain ⟨-, h2, h3⟩ := hx
    exact Or.inr ⟨h2.symm, Or.inr ⟨idx, Or.inr rfl, h3.symm⟩⟩
  · rw [if_neg hxa] at hx
    rcases hmem x w s t hx with hh | ⟨hs, hr⟩
    · exact Or.inl hh
    · rcases hr with hh | ⟨q, hq, ht⟩
      · exact Or.inr ⟨hs, Or.inl hh⟩
      · exact Or.inr ⟨hs, Or.inr ⟨q, Or.inl hq, ht⟩⟩

/-- `mw` at the in-cycle offset `idx` keeps the classification, with `idx`
added to the used-offset set. -/
theorem memAlmost_mw (rt : Runtime) (a v idx : Nat) (S : Nat → Prop)
    (hmem : MemAlmost rt.state.current_shard rt.state.clk S
      rt.state.memory) :
    MemAlmost rt.state.current_shard rt.state.clk (fun q => S q ∨ q = idx)
      (rt.mw a v rt.state.current_shard
        (rt.state.clk + idx)).2.state.memory := by
  intro x w s t hx
  rw [mw_memory] at hx
  by_cases hxa : x = a
  · rw [if_pos hxa] at hx
    simp only [Option.some.injEq, Prod.mk.injEq] at hx
    obtain ⟨-, h2, h3⟩ := hx
    exact Or.inr ⟨h2.symm, Or.inr ⟨idx, Or.inr rfl, h3.symm⟩⟩
  · rw [if_neg hxa] at hx
    rcases hmem x w s t hx with hh | ⟨hs, hr⟩
    · exact Or.inl hh
    · rcases hr with hh | ⟨q, hq, ht⟩
      · exact Or.inr ⟨hs, Or.inl hh⟩
      · exact Or.inr ⟨hs, Or.inr ⟨q, Or.inl hq, ht⟩⟩

/-- A successful `mr_cpu` at a not-yet-used position preserves the in-cycle
freshness state (its record is fresh) and appends no event. -/
theorem mr_cpu_fresh (rt : Runtime) (a : Nat) (p : AccessPosition)
    (out : Nat × Runtime) {S : Nat → Prop} (hf : FreshAt S rt)
    (hS : ¬ S p.idx) (h : rt.mr_cpu a p = some out) :
    FreshAt (fun q => S q ∨ q = p.idx) out.2 ∧ out.2.record = rt.record := by
  unfold Runtime.mr_cpu at h
  by_cases hv : validateMemoryAccess a p
  · rw [if_pos hv] at h
    simp only [mr_unconstrained, Option.some.injEq] at h
    cases hu : rt.unconstrained <;> simp only [hu, if_true, if_false,
        Bool.false_eq_true, Bool.true_eq_false] at h <;> subst h
    · exact ⟨⟨hf.shard, memAlmost_mr rt a p.idx S hf.mem,
        cpuRecordFresh_setSlot _ _ _ hf.cr
          (mr_rec_fresh rt a p.idx S hf.shard hS hf.mem)⟩, rfl⟩
    · exact ⟨⟨hf.shard, memAlmost_mr rt a p.idx S hf.mem, hf.cr⟩, rfl⟩
  · rw [if_neg hv] at h
    exact Option.noConfusion h

/-- A successful `mw_cpu` at a not-yet-used position preserves the in-cycle
freshness state (its record is fresh) and appends no event. -/
theorem mw_cpu_fresh (rt : Runtime) (a v : Nat) (p : AccessPosition)
    (rt' : Runtime) {S : Nat → Prop} (hf : FreshAt S rt)
    (hS : ¬ S p.idx) (h : rt.mw_cpu a v p = some rt') :
    FreshAt (fun q => S q ∨ q = p.idx) rt' ∧ rt'.record = rt.record := by
  unfold Runtime.mw_cpu at h
  by_cases hv : validateMemoryAccess a p
  · rw [if_pos hv] at h
    simp only [mw_unconstrained, mw_cpu_record] at h
    cases hu : rt.unconstrained <;>
      simp only [hu, if_true, if_false, Bool.false_eq_true,
        Bool.true_eq_false] at h
    · split at h
      · exact Option.noConfusion h
      · obtain rfl := (Option.some.injEq _ _).mp h
        exact ⟨⟨hf.shard, memAlmost_mw rt a v p.idx S hf.mem,
          cpuRecordFresh_setSlot _ _ _ hf.cr
            (mw_rec_fresh rt a v p.idx S hf.shard hS hf.mem)⟩, rfl⟩
    · obtain rfl := (Option.some.injEq _ _).mp h
      exact ⟨⟨hf.shard, memAlmost_mw rt a v p.idx S hf.mem, hf.cr⟩, rfl⟩
  · rw [if_neg hv] at h
    exact Option.noConfusion h

/-- A successful `rw` preserves the in-cycle freshness state, using offset
`3` (position `A`); the dropped `X0` write changes nothing. -/
theorem rw_fresh (rt : Runtime) (reg v : Nat) (rt' : Runtime)
    {S : Nat → Prop} (hf : FreshAt S rt) (hS : ¬ S 3)
    (h : rt.rw reg v = some rt') :
    FreshAt (fun q => S q ∨ q = 3) rt' ∧ rt'.record = rt.record := by
  unfold Runtime.rw at h
  by_cases h0 : reg = 0
  · rw [if_pos h0] at h
    obtain rfl := (Option.some.injEq _ _).mp h
    exact ⟨freshAt_mono (fun q hq => Or.inl hq) hf, rfl⟩
  · rw [if_neg h0] at h
    exact mw_cpu_fresh rt reg v .A rt' hf hS h

/-- A successful `rr` at position `B` preserves the in-cycle freshness
state, using offset `2`. -/
theorem rr_fresh_B (rt : Runtime) (reg : Nat) (out : Nat × Runtime)
    {S : Nat → Prop} (hf : FreshAt S rt) (hS : ¬ S 2)
    (h : rt.rr reg .B = some out) :
    FreshAt (fun q => S q ∨ q = 2) out.2 ∧ out.2.record = rt.record :=
  mr_cpu_fresh rt reg .B out hf hS h

/-- A successful `mw_cpu` at position `Memory` preserves the in-cycle
freshness state, using offset `0`. -/
theorem mw_cpu_fresh_mem (rt : Runtime) (a v : Nat) (rt' : Runtime)
    {S : Nat → Prop} (hf : FreshAt S rt) (hS : ¬ S 0)
    (h : rt.mw_cpu a v .Memory = some rt') :
    FreshAt (fun q => S q ∨ q = 0) rt' ∧ rt'.record = rt.record :=
  mw_cpu_fresh rt a v .Memory rt' hf hS h

/-- Base case for the used-offset bookkeeping: nothing used yet. -/
theorem falseLt4 : ∀ q : Nat, (fun _ : Nat => False) q → q < 4 :=
  fun _ h => h.elim

/-- Adding one offset below `4` to a used-offset set bounded by `4`. -/
theorem subLt4 {S : Nat → Prop} (hs : ∀ q, S q → q < 4) (k : Nat)
    (hk : k < 4) : ∀ q, (S q ∨ q = k) → q < 4 := by
  intro q hq
  rcases hq with hq | hq
  · exact hs q hq
  · omega

/-- An offset outside a used-offset set stays outside after adding a
different offset. -/
theorem notOr {S : Nat → Prop} {n k : Nat} (hn : ¬ S n) (hk : n ≠ k) :
    ¬ (S n ∨ n = k) := fun hq => hq.elim hn hk

/-- A successful `alu_rr` preserves the in-cycle freshness state, using at
most the offsets `1` (position `C`) and `2` (position `B`). -/
theorem alu_rr_fresh (rt : Runtime) (i : Instruction)
    (out : Nat × Nat × Nat × Runtime) {S : Nat → Prop} (hf : FreshAt S rt)
    (hS1 : ¬ S 1) (hS2 : ¬ S 2) (h : rt.alu_rr i = some out) :
    FreshAt (fun q => (S q ∨ q = 1) ∨ q = 2) out.2.2.2 ∧
      out.2.2.2.record = rt.record := by
  unfold Runtime.alu_rr at h
  split at h
  · simp only [Option.bind_eq_bind, Option.bind_eq_some, Option.pure_def,
      Option.some.injEq] at h
    obtain ⟨t, ht, p1, h1, p2, h2, heq⟩ := h
    subst heq
    obtain ⟨hf1, hr1⟩ := mr_cpu_fresh rt _ .C p1 hf hS1 h1
    obtain ⟨hf2, hr2⟩ := mr_cpu_fresh p1.2 _ .B p2 hf1
      (notOr hS2 (by decide)) h2
    exact ⟨hf2, hr2.trans hr1⟩
  · split at h
    · simp only [Option.bind_eq_bind, Option.bind_eq_some, Option.pure_def,
        Option.some.injEq] at h
      obtain ⟨t, ht, p1, h1, heq⟩ := h
      subst heq
      obtain ⟨hf1, hr1⟩ := mr_cpu_fresh rt _ .B p1 hf hS2 h1
      exact ⟨freshAt_mono
        (fun q hq => hq.elim (fun hh => Or.inl (Or.inl hh)) Or.inr) hf1,
        hr1⟩
    · simp only [Option.bind_eq_bind, Option.bind_eq_some, Option.pure_def,
        Option.some.injEq] at h
      obtain ⟨rd, hrd, heq⟩ := h
      subst heq
      exact ⟨freshAt_mono (fun q hq => Or.inl (Or.inl hq)) hf, rfl⟩

/-- A successful `load_rr` preserves the in-cycle freshness state, using the
offsets `2` (position `B`) and `0` (position `Memory`). -/
theorem load_rr_fresh (rt : Runtime) (i : Instruction)
    (out : Nat × Nat × Nat × Nat × Nat × Runtime) {S : Nat → Prop}
    (hf : FreshAt S rt) (hS2 : ¬ S 2) (hS0 : ¬ S 0)
    (h : rt.load_rr i = some out) :
    FreshAt (fun q => (S q ∨ q = 2) ∨ q = 0) out.2.2.2.2.2 ∧
      out.2.2.2.2.2.record = rt.record := by
  simp only [Runtime.load_rr, Option.bind_eq_bind, Option.bind_eq_some,
    Option.pure_def, Option.some.injEq] at h
  obtain ⟨t, ht, p1, h1, p2, h2, heq⟩ := h
  subst heq
  obtain ⟨hf1, hr1⟩ := mr_cpu_fresh rt _ .B p1 hf hS2 h1
  obtain ⟨hf2, hr2⟩ := mr_cpu_fresh p1.2 _ .Memory p2 hf1
    (notOr hS0 (by decide)) h2
  exact ⟨hf2, hr2.trans hr1⟩

/-- A successful `store_rr` preserves the in-cycle freshness state, using
the offsets `2` (position `B`) and `3` (position `A`). -/
theorem store_rr_fresh (rt : Runtime) (i : Instruction)
    (out : Nat × Nat × Nat × Nat × Nat × Runtime) {S : Nat → Prop}
    (hf : FreshAt S rt) (hS2 : ¬ S 2) (hS3 : ¬ S 3)
    (h : rt.store_rr i = some out) :
    FreshAt (fun q => (S q ∨ q = 2) ∨ q = 3) out.2.2.2.2.2 ∧
      out.2.2.2.2.2.record = rt.record := by
  simp only [Runtime.store_rr, Option.bind_eq_bind, Option.bind_eq_some,
    Option.pure_def, Option.some.injEq] at h
  obtain ⟨t, ht, p1, h1, p2, h2, heq⟩ := h
  subst heq
  obtain ⟨hf1, hr1⟩ := mr_cpu_fresh rt _ .B p1 hf hS2 h1
  obtain ⟨hf2, hr2⟩ := mr_cpu_fresh p1.2 _ .A p2 hf1
    (notOr hS3 (by decide)) h2
  exact ⟨hf2, hr2.trans hr1⟩

/-- A successful `branch_rr` preserves the in-cycle freshness state, using
the offsets `2` (position `B`) and `3` (position `A`). -/
theorem branch_rr_fresh (rt : Runtime) (i : Instruction)
    (out : Nat × Nat × Nat × Runtime) {S : Nat → Prop}
    (hf : FreshAt S rt) (hS2 : ¬ S 2) (hS3 : ¬ S 3)
    (h : rt.branch_rr i = some out) :
    FreshAt (fun q => (S q ∨ q = 2) ∨ q = 3) out.2.2.2 ∧
      out.2.2.2.record = rt.record := by
  simp only [Runtime.branch_rr, Option.bind_eq_bind, Option.bind_eq_some,
    Option.pure_def, Option.some.injEq] at h
  obtain ⟨t, ht, p1, h1, p2, h2, heq⟩ := h
  subst heq
  obtain ⟨hf1, hr1⟩ := mr_cpu_fresh rt _ .B p1 hf hS2 h1
  obtain ⟨hf2, hr2⟩ := mr_cpu_fresh p1.2 _ .A p2 hf1
    (notOr hS3 (by decide)) h2
  exact ⟨hf2, hr2.trans hr1⟩

/-- A successful `alu_rw` preserves the in-cycle freshness state, using the
offset `3` (position `A`), and appends no CPU event. -/
theorem alu_rw_fresh (rt : Runtime) (i : Instruction) (rd a b c : Nat)
    (rt' : Runtime) {S : Nat → Prop} (hf : FreshAt S rt) (hS : ¬ S 3)
    (h : rt.alu_rw i rd a b c = some rt') :
    FreshAt (fun q => S q ∨ q = 3) rt' ∧
      rt'.record.cpu_events = rt.record.cpu_events := by
  simp only [Runtime.alu_rw, Option.bind_eq_bind, Option.bind_eq_some,
    Option.pure_def, Option.some.injEq] at h
  obtain ⟨rt1, h1, heq⟩ := h
  subst heq
  obtain ⟨hf1, hr1⟩ := rw_fresh rt rd a rt1 hf hS h1
  refine ⟨⟨hf1.shard, hf1.mem, hf1.cr⟩, ?_⟩
  rw [emit_alu_cpu_events, hr1]

/-- `finishCycle` turns an in-cycle freshness state whose used offsets are
bounded by `4` into the after-execute state: the freshly stashed records
make up the one appended CPU event. -/
theorem finishCycle_fresh (rt : Runtime) (pc npc : Nat) (i : Instruction)
    (a b c : Nat) (m : Option Nat) {S : Nat → Prop} (hf : FreshAt S rt)
    (hsub : ∀ q, S q → q < 4)
    (hev : ∀ e ∈ rt.record.cpu_events, eventFresh e) :
    FreshPost (rt.finishCycle pc npc i a b c m) := by
  refine ⟨hf.shard, memAlmost_mono hsub hf.mem, hf.cr, ?_⟩
  intro e he
  rw [finishCycle_cpu_events] at he
  rcases List.mem_append.mp he with he | he
  · exact hev e he
  · rw [List.mem_singleton] at he
    subst he
    exact ⟨hf.cr.1, hf.cr.2.1, hf.cr.2.2.1, hf.cr.2.2.2⟩

/-- Every successful `execute` turns the between-cycles freshness invariant
into the after-execute freshness state (for `ECALL`, granted that the
external handler preserves the invariant). -/
theorem execute_fresh (sys : SyscallEnv) (rt : Runtime) (i : Instruction)
    (rt' : Runtime) (hsys : SyscallEnvPreserves FreshInv sys)
    (hinv : FreshInv rt) (h : rt.execute sys i = some rt') :
    FreshPost rt' := by
  obtain ⟨hf0, hev0⟩ := hinv
  have hrt1 : FreshAt (fun _ => False)
      { rt with cpu_record := ({} : CpuRecord) } :=
    ⟨hf0.shard, hf0.mem, cpuRecordFresh_empty⟩
  cases hoc : i.opcode
  case ADD =>
    simp only [Runtime.execute, hoc, Option.bind_eq_bind, Option.bind_eq_some,
      Option.pure_def, Option.some.injEq, Option.ite_none_right_eq_some] at h
    obtain ⟨q, h1, rt2, h2, heq⟩ := h
    subst heq
    obtain ⟨hfa, hra⟩ := alu_rr_fresh _ i q hrt1 (fun hq => hq)
      (fun hq => hq) h1
    obtain ⟨hfb, hrb⟩ := alu_rw_fresh _ i _ _ _ _ rt2 hfa
      (by
        intro hq
        rcases hq with (hq | hq) | hq
        · exact hq
        · exact absurd hq (by decide)
        · exact absurd hq (by decide)) h2
    refine finishCycle_fresh _ _ _ _ _ _ _ _ hfb
      (subLt4 (subLt4 (subLt4 falseLt4 1 (by decide)) 2 (by decide)) 3
        (by decide)) ?_
    intro e he
    rw [hrb, hra] at he
    exact hev0 e he
  case SUB =>
    simp only [Runtime.execute, hoc, Option.bind_eq_bind, Option.bind_eq_some,
      Option.pure_def, Option.some.injEq, Option.ite_none_right_eq_some] at h
    obtain ⟨q, h1, rt2, h2, heq⟩ := h
    subst heq
    obtain ⟨hfa, hra⟩ := alu_rr_fresh _ i q hrt1 (fun hq => hq)
      (fun hq => hq) h1
    obtain ⟨hfb, hrb⟩ := alu_rw_fresh _ i _ _ _ _ rt2 hfa
      (by
        intro hq
        rcases hq with (hq | hq) | hq
        · exact hq
        · exact absurd hq (by decide)
        · exact absurd hq (by decide)) h2
    refine finishCycle_fresh _ _ _ _ _ _ _ _ hfb
      (subLt4 (subLt4 (subLt4 falseLt4 1 (by decide)) 2 (by decide)) 3
        (by decide)) ?_
    intro e he
    rw [hrb, hra] at he
    exact hev0 e he
  case XOR =>
    simp only [Runtime.execute, hoc, Option.bind_eq_bind, Option.bind_eq_some,
      Option.pure_def, Option.some.injEq, Option.ite_none_right_eq_some] at h
    obtain ⟨q, h1, rt2, h2, heq⟩ := h
    subst heq
    obtain ⟨hfa, hra⟩ := alu_rr_fresh _ i q hrt1 (fun hq => hq)
      (fun hq => hq) h1
    obtain ⟨hfb, hrb⟩ := alu_rw_fresh _ i _ _ _ _ rt2 hfa
      (by
        intro hq
        rcases hq with (hq | hq) | hq
        · exact hq
        · exact absurd hq (by decide)
        · exact absurd hq (by decide)) h2
    refine finishCycle_fresh _ _ _ _ _ _ _ _ hfb
      (subLt4 (subLt4 (subLt4 falseLt4 1 (by decide)) 2 (by decide)) 3
        (by decide)) ?_
    intro e he
    rw [hrb, hra] at he
    exact hev0 e he
  case OR =>
    simp only [Runtime.execute, hoc, Option.bind_eq_bind, Option.bind_eq_some,
      Option.pure_def, Option.some.injEq, Option.ite_none_right_eq_some] at h
    obtain ⟨q, h1, rt2, h2, heq⟩ := h
    subst heq
    obtain ⟨hfa, hra⟩ := alu_rr_fresh _ i q hrt1 (fun hq => hq)
      (fun hq => hq) h1
    obtain ⟨hfb, hrb⟩ := alu_rw_fresh _ i _ _ _ _ rt2 hfa
      (by
        intro hq
        rcases hq with (hq | hq) | hq
        · exact hq
        · exact absurd hq (by decide)
        · exact absurd hq (by decide)) h2
    refine finishCycle_fresh _ _ _ _ _ _ _ _ hfb
      (subLt4 (subLt4 (subLt4 falseLt4 1 (by decide)) 2 (by decide)) 3
        (by decide)) ?_
    intro e he
    rw [hrb, hra] at he
    exact hev0 e he
  case AND =>
    simp only [Runtime.execute, hoc, Option.bind_eq_bind, Option.bind_eq_some,
      Option.pure_def, Option.some.injEq, Option.ite_none_right_eq_some] at h
    obtain ⟨q, h1, rt2, h2, heq⟩ := h
    subst heq
    obtain ⟨hfa, hra⟩ := alu_rr_fresh _ i q hrt1 (fun hq => hq)
      (fun hq => hq) h1
    obtain ⟨hfb, hrb⟩ := alu_rw_fresh _ i _ _ _ _ rt2 hfa
      (by
        intro hq
        rcases hq with (hq | hq) | hq
        · exact hq
        · exact absurd hq (by decide)
        · exact absurd hq (by decide)) h2
    refine finishCycle_fresh _ _ _ _ _ _ _ _ hfb
      (subLt4 (subLt4 (subLt4 falseLt4 1 (by decide)) 2 (by decide)) 3
        (by decide)) ?_
    intro e he
    rw [hrb, hra] at he
    exact hev0 e he
  case SLL =>
    simp only [Runtime.execute, hoc, Option.bind_eq_bind, Option.bind_eq_some,
      Option.pure_def, Option.some.injEq, Option.ite_none_right_eq_some] at h
    obtain ⟨q, h1, rt2, h2, heq⟩ := h
    subst heq
    obtain ⟨hfa, hra⟩ := alu_rr_fresh _ i q hrt1 (fun hq => hq)
      (fun hq => hq) h1
    obtain ⟨hfb, hrb⟩ := alu_rw_fresh _ i _ _ _ _ rt2 hfa
      (by
        intro hq
        rcases hq with (hq | hq) | hq
        · exact hq
        · exact absurd hq (by decide)
        · exact absurd hq (by decide)) h2
    refine finishCycle_fresh _ _ _ _ _ _ _ _ hfb
      (subLt4 (subLt4 (subLt4 falseLt4 1 (by decide)) 2 (by decide)) 3
        (by decide)) ?_
    intro e he
    rw [hrb, hra] at he
    exact hev0 e he
  case SRL =>
    simp only [Runtime.execute, hoc, Option.bind_eq_bind, Option.bind_eq_some,
      Option.pure_def, Option.some.injEq, Option.ite_none_right_eq_some] at h
    obtain ⟨q, h1, rt2, h2, heq⟩ := h
    subst heq
    obtain ⟨hfa, hra⟩ := alu_rr_fresh _ i q hrt1 (fun hq => hq)
      (fun hq => hq) h1
    obtain ⟨hfb, hrb⟩ := alu_rw_fresh _ i _ _ _ _ rt2 hfa
      (by
        intro hq
        rcases hq with (hq | hq) | hq
        · exact hq
        · exact absurd hq (by decide)
        · exact absurd hq (by decide)) h2
    refine finishCycle_fresh _ _ _ _ _ _ _ _ hfb
      (subLt4 (subLt4 (subLt4 falseLt4 1 (by decide)) 2 (by decide)) 3
        (by decide)) ?_
    intro e he
    rw [hrb, hra] at he
    exact hev0 e he
  case SRA =>
    simp only [Runtime.execute, hoc, Option.bind_eq_bind, Option.bind_eq_some,
      Option.pure_def, Option.some.injEq, Option.ite_none_right_eq_some] at h
    obtain ⟨q, h1, rt2, h2, heq⟩ := h
    subst heq
    obtain ⟨hfa, hra⟩ := alu_rr_fresh _ i q hrt1 (fun hq => hq)
      (fun hq => hq) h1
    obtain ⟨hfb, hrb⟩ := alu_rw_fresh _ i _ _ _ _ rt2 hfa
      (by
        intro hq
        rcases hq with (hq | hq) | hq
        · exact hq
        · exact absurd hq (by decide)
        · exact absurd hq (by decide)) h2
    refine finishCycle_fresh _ _ _ _ _ _ _ _ hfb
      (subLt4 (subLt4 (subLt4 falseLt4 1 (by decide)) 2 (by decide)) 3
        (by decide)) ?_
    intro e he
    rw [hrb, hra] at he
    exact hev0 e he
  case SLT =>
    simp only [Runtime.execute, hoc, Option.bind_eq_bind, Option.bind_eq_some,
      Option.pure_def, Option.some.injEq, Option.ite_none_right_eq_some] at h
    obtain ⟨q, h1, rt2, h2, heq⟩ := h
    subst heq
    obtain ⟨hfa, hra⟩ := alu_rr_fresh _ i q hrt1 (fun hq => hq)
      (fun hq => hq) h1
    obtain ⟨hfb, hrb⟩ := alu_rw_fresh _ i _ _ _ _ rt2 hfa
      (by
        intro hq
        rcases hq with (hq | hq) | hq
        · exact hq
        · exact absurd hq (by decide)
        · exact absurd hq (by decide)) h2
    refine finishCycle_fresh _ _ _ _ _ _ _ _ hfb
      (subLt4 (subLt4 (subLt4 falseLt4 1 (by decide)) 2 (by decide)) 3
        (by decide)) ?_
    intro e he
    rw [hrb, hra] at he
    exact hev0 e he
  case SLTU =>
    simp only [Runtime.execute, hoc, Option.bind_eq_bind, Option.bind_eq_some,
      Option.pure_def, Option.some.injEq, Option.ite_none_right_eq_some] at h
    obtain ⟨q, h1, rt2, h2, heq⟩ := h
    subst heq
    obtain ⟨hfa, hra⟩ := alu_rr_fresh _ i q hrt1 (fun hq => hq)
      (fun hq => hq) h1
    obtain ⟨hfb, hrb⟩ := alu_rw_fresh _ i _ _ _ _ rt2 hfa
      (by
        intro hq
        rcases hq with (hq | hq) | hq
        · exact hq
        · exact absurd hq (by decide)
        · exact absurd hq (by decide)) h2
    refine finishCycle_fresh _ _ _ _ _ _ _ _ hfb
      (subLt4 (subLt4 (subLt4 falseLt4 1 (by decide)) 2 (by decide)) 3
        (by decide)) ?_
    intro e he
    rw [hrb, hra] at he
    exact hev0 e he
  case MUL =>
    simp only [Runtime.execute, hoc, Option.bind_eq_bind, Option.bind_eq_some,
      Option.pure_def, Option.some.injEq, Option.ite_none_right_eq_some] at h
    obtain ⟨q, h1, rt2, h2, heq⟩ := h
    subst heq
    obtain ⟨hfa, hra⟩ := alu_rr_fresh _ i q hrt1 (fun hq => hq)
      (fun hq => hq) h1
    obtain ⟨hfb, hrb⟩ := alu_rw_fresh _ i _ _ _ _ rt2 hfa
      (by
        intro hq
        rcases hq with (hq | hq) | hq
        · exact hq
        · exact absurd hq (by decide)
        · exact absurd hq (by decide)) h2
    refine finishCycle_fresh _ _ _ _ _ _ _ _ hfb
      (subLt4 (subLt4 (subLt4 falseLt4 1 (by decide)) 2 (by decide)) 3
        (by decide)) ?_
    intro e he
    rw [hrb, hra] at he
    exact hev0 e he
  case MULH =>
    simp only [Runtime.execute, hoc, Option.bind_eq_bind, Option.bind_eq_some,
      Option.pure_def, Option.some.injEq, Option.ite_none_right_eq_some] at h
    obtain ⟨q, h1, rt2, h2, heq⟩ := h
    subst heq
    obtain ⟨hfa, hra⟩ := alu_rr_fresh _ i q hrt1 (fun hq => hq)
      (fun hq => hq) h1
    obtain ⟨hfb, hrb⟩ := alu_rw_fresh _ i _ _ _ _ rt2 hfa
      (by
        intro hq
        rcases hq with (hq | hq) | hq
        · exact hq
        · exact absurd hq (by decide)
        · exact absurd hq (by decide)) h2
    refine finishCycle_fresh _ _ _ _ _ _ _ _ hfb
      (subLt4 (subLt4 (subLt4 falseLt4 1 (by decide)) 2 (by decide)) 3
        (by decide)) ?_
    intro e he
    rw [hrb, hra] at he
    exact hev0 e he
  case MULHU =>
    simp only [Runtime.execute, hoc, Option.bind_eq_bind, Option.bind_eq_some,
      Option.pure_def, Option.some.injEq, Option.ite_none_right_eq_some] at h
    obtain ⟨q, h1, rt2, h2, heq⟩ := h
    subst heq
    obtain ⟨hfa, hra⟩ := alu_rr_fresh _ i q hrt1 (fun hq => hq)
      (fun hq => hq) h1
    obtain ⟨hfb, hrb⟩ := alu_rw_fresh _ i _ _ _ _ rt2 hfa
      (by
        intro hq
        rcases hq with (hq | hq) | hq
        · exact hq
        · exact absurd hq (by decide)
        · exact absurd hq (by decide)) h2
    refine finishCycle_fresh _ _ _ _ _ _ _ _ hfb
      (subLt4 (subLt4 (subLt4 falseLt4 1 (by decide)) 2 (by decide)) 3
        (by decide)) ?_
    intro e he
    rw [hrb, hra] at he
    exact hev0 e he
  case MULHSU =>
    simp only [Runtime.execute, hoc, Option.bind_eq_bind, Option.bind_eq_some,
      Option.pure_def, Option.some.injEq, Option.ite_none_right_eq_some] at h
    obtain ⟨q, h1, rt2, h2, heq⟩ := h
    subst heq
    obtain ⟨hfa, hra⟩ := alu_rr_fresh _ i q hrt1 (fun hq => hq)
      (fun hq => hq) h1
    obtain ⟨hfb, hrb⟩ := alu_rw_fresh _ i _ _ _ _ rt2 hfa
      (by
        intro hq
        rcases hq with (hq | hq) | hq
        · exact hq
        · exact absurd hq (by decide)
        · exact absurd hq (by decide)) h2
    refine finishCycle_fresh _ _ _ _ _ _ _ _ hfb
      (subLt4 (subLt4 (subLt4 falseLt4 1 (by decide)) 2 (by decide)) 3
        (by decide)) ?_
    intro e he
    rw [hrb, hra] at he
    exact hev0 e he
  case DIV =>
    simp only [Runtime.execute, hoc, Option.bind_eq_bind, Option.bind_eq_some,
      Option.pure_def, Option.some.injEq, Option.ite_none_right_eq_some] at h
    obtain ⟨q, h1, rt2, h2, heq⟩ := h
    subst heq
    obtain ⟨hfa, hra⟩ := alu_rr_fresh _ i q hrt1 (fun hq => hq)
      (fun hq => hq) h1
    obtain ⟨hfb, hrb⟩ := alu_rw_fresh _ i _ _ _ _ rt2 hfa
      (by
        intro hq
        rcases hq with (hq | hq) | hq
        · exact hq
        · exact absurd hq (by decide)
        · exact absurd hq (by decide)) h2
    refine finishCycle_fresh _ _ _ _ _ _ _ _ hfb
      (subLt4 (subLt4 (subLt4 falseLt4 1 (by decide)) 2 (by decide)) 3
        (by decide)) ?_
    intro e he
    rw [hrb, hra] at he
    exact hev0 e he
  case DIVU =>
    simp only [Runtime.execute, hoc, Option.bind_eq_bind, Option.bind_eq_some,
      Option.pure_def, Option.some.injEq, Option.ite_none_right_eq_some] at h
    obtain ⟨q, h1, rt2, h2, heq⟩ := h
    subst heq
    obtain ⟨hfa, hra⟩ := alu_rr_fresh _ i q hrt1 (fun hq => hq)
      (fun hq => hq) h1
    obtain ⟨hfb, hrb⟩ := alu_rw_fresh _ i _ _ _ _ rt2 hfa
      (by
        intro hq
        rcases hq with (hq | hq) | hq
        · exact hq
        · exact absurd hq (by decide)
        · exact absurd hq (by decide)) h2
    refine finishCycle_fresh _ _ _ _ _ _ _ _ hfb
      (subLt4 (subLt4 (subLt4 falseLt4 1 (by decide)) 2 (by decide)) 3
        (by decide)) ?_
    intro e he
    rw [hrb, hra] at he
    exact hev0 e he
  case REM =>
    simp only [Runtime.execute, hoc, Option.bind_eq_bind, Option.bind_eq_some,
      Option.pure_def, Option.some.injEq, Option.ite_none_right_eq_some] at h
    obtain ⟨q, h1, rt2, h2, heq⟩ := h
    subst heq
    obtain ⟨hfa, hra⟩ := alu_rr_fresh _ i q hrt1 (fun hq => hq)
      (fun hq => hq) h1
    obtain ⟨hfb, hrb⟩ := alu_rw_fresh _ i _ _ _ _ rt2 hfa
      (by
        intro hq
        rcases hq with (hq | hq) | hq
        · exact hq
        · exact absurd hq (by decide)
        · exact absurd hq (by decide)) h2
    refine finishCycle_fresh _ _ _ _ _ _ _ _ hfb
      (subLt4 (subLt4 (subLt4 falseLt4 1 (by decide)) 2 (by decide)) 3
        (by decide)) ?_
    intro e he
    rw [hrb, hra] at he
    exact hev0 e he
  case REMU =>
    simp only [Runtime.execute, hoc, Option.bind_eq_bind, Option.bind_eq_some,
      Option.pure_def, Option.some.injEq, Option.ite_none_right_eq_some] at h
    obtain ⟨q, h1, rt2, h2, heq⟩ := h
    subst heq
    obtain ⟨hfa, hra⟩ := alu_rr_fresh _ i q hrt1 (fun hq => hq)
      (fun hq => hq) h1
    obtain ⟨hfb, hrb⟩ := alu_rw_fresh _ i _ _ _ _ rt2 hfa
      (by
        intro hq
        rcases hq with (hq | hq) | hq
        · exact hq
        · exact absurd hq (by decide)
        · exact absurd hq (by decide)) h2
    refine finishCycle_fresh _ _ _ _ _ _ _ _ hfb
      (subLt4 (subLt4 (subLt4 falseLt4 1 (by decide)) 2 (by decide)) 3
        (by decide)) ?_
    intro e he
    rw [hrb, hra] at he
    exact hev0 e he
  case LB =>
    simp only [Runtime.execute, hoc, Option.bind_eq_bind, Option.bind_eq_some,
      Option.pure_def, Option.some.injEq, Option.ite_none_right_eq_some] at h
    obtain ⟨q, h1, rt2, h2, heq⟩ := h
    subst heq
    obtain ⟨hfa, hra⟩ := load_rr_fresh _ i q hrt1 (fun hq => hq)
      (fun hq => hq) h1
    obtain ⟨hfb, hrb⟩ := rw_fresh _ _ _ rt2 hfa
      (by
        intro hq
        rcases hq with (hq | hq) | hq
        · exact hq
        · exact absurd hq (by decide)
        · exact absurd hq (by decide)) h2
    refine finishCycle_fresh _ _ _ _ _ _ _ _ hfb
      (subLt4 (subLt4 (subLt4 falseLt4 2 (by decide)) 0 (by decide)) 3
        (by decide)) ?_
    intro e he
    rw [hrb, hra] at he
    exact hev0 e he
  case LBU =>
    simp only [Runtime.execute, hoc, Option.bind_eq_bind, Option.bind_eq_some,
      Option.pure_def, Option.some.injEq, Option.ite_none_right_eq_some] at h
    obtain ⟨q, h1, rt2, h2, heq⟩ := h
    subst heq
    obtain ⟨hfa, hra⟩ := load_rr_fresh _ i q hrt1 (fun hq => hq)
      (fun hq => hq) h1
    obtain ⟨hfb, hrb⟩ := rw_fresh _ _ _ rt2 hfa
      (by
        intro hq
        rcases hq with (hq | hq) | hq
        · exact hq
        · exact absurd hq (by decide)
        · exact absurd hq (by decide)) h2
    refine finishCycle_fresh _ _ _ _ _ _ _ _ hfb
      (subLt4 (subLt4 (subLt4 falseLt4 2 (by decide)) 0 (by decide)) 3
        (by decide)) ?_
    intro e he
    rw [hrb, hra] at he
    exact hev0 e he
  case LH =>
    simp only [Runtime.execute, hoc, Option.bind_eq_bind, Option.bind_eq_some,
      Option.pure_def, Option.some.injEq, Option.ite_none_right_eq_some] at h
    obtain ⟨q, h1, hg, rt2, h2, heq⟩ := h
    subst heq
    obtain ⟨hfa, hra⟩ := load_rr_fresh _ i q hrt1 (fun hq => hq)
      (fun hq => hq) h1
    obtain ⟨hfb, hrb⟩ := rw_fresh _ _ _ rt2 hfa
      (by
        intro hq
        rcases hq with (hq | hq) | hq
        · exact hq
        · exact absurd hq (by decide)
        · exact absurd hq (by decide)) h2
    refine finishCycle_fresh _ _ _ _ _ _ _ _ hfb
      (subLt4 (subLt4 (subLt4 falseLt4 2 (by decide)) 0 (by decide)) 3
        (by decide)) ?_
    intro e he
    rw [hrb, hra] at he
    exact hev0 e he
  case LHU =>
    simp only [Runtime.execute, hoc, Option.bind_eq_bind, Option.bind_eq_some,
      Option.pure_def, Option.some.injEq, Option.ite_none_right_eq_some] at h
    obtain ⟨q, h1, hg, rt2, h2, heq⟩ := h
    subst heq
    obtain ⟨hfa, hra⟩ := load_rr_fresh _ i q hrt1 (fun hq => hq)
      (fun hq => hq) h1
    obtain ⟨hfb, hrb⟩ := rw_fresh _ _ _ rt2 hfa
      (by
        intro hq
        rcases hq with (hq | hq) | hq
        · exact hq
        · exact absurd hq (by decide)
        · exact absurd hq (by decide)) h2
    refine finishCycle_fresh _ _ _ _ _ _ _ _ hfb
      (subLt4 (subLt4 (subLt4 falseLt4 2 (by decide)) 0 (by decide)) 3
        (by decide)) ?_
    intro e he
    rw [hrb, hra] at he
    exact hev0 e he
  case LW =>
    simp only [Runtime.execute, hoc, Option.bind_eq_bind, Option.bind_eq_some,
      Option.pure_def, Option.some.injEq, Option.ite_none_right_eq_some] at h
    obtain ⟨q, h1, hg, rt2, h2, heq⟩ := h
    subst heq
    obtain ⟨hfa, hra⟩ := load_rr_fresh _ i q hrt1 (fun hq => hq)
      (fun hq => hq) h1
    obtain ⟨hfb, hrb⟩ := rw_fresh _ _ _ rt2 hfa
      (by
        intro hq
        rcases hq with (hq | hq) | hq
        · exact hq
        · exact absurd hq (by decide)
        · exact absurd hq (by decide)) h2
    refine finishCycle_fresh _ _ _ _ _ _ _ _ hfb
      (subLt4 (subLt4 (subLt4 falseLt4 2 (by decide)) 0 (by decide)) 3
        (by decide)) ?_
    intro e he
    rw [hrb, hra] at he
    exact hev0 e he
  case SB =>
    simp only [Runtime.execute, hoc, Option.bind_eq_bind, Option.bind_eq_some,
      Option.pure_def, Option.some.injEq, Option.ite_none_right_eq_some] at h
    obtain ⟨q, h1, rt2, h2, heq⟩ := h
    subst heq
    obtain ⟨hfa, hra⟩ := store_rr_fresh _ i q hrt1 (fun hq => hq)
      (fun hq => hq) h1
    obtain ⟨hfb, hrb⟩ := mw_cpu_fresh_mem _ _ _ rt2 hfa
      (by
        intro hq
        rcases hq with (hq | hq) | hq
        · exact hq
        · exact absurd hq (by decide)
        · exact absurd hq (by decide)) h2
    refine finishCycle_fresh _ _ _ _ _ _ _ _ hfb
      (subLt4 (subLt4 (subLt4 falseLt4 2 (by decide)) 3 (by decide)) 0
        (by decide)) ?_
    intro e he
    rw [hrb, hra] at he
    exact hev0 e he
  case SH =>
    simp only [Runtime.execute, hoc, Option.bind_eq_bind, Option.bind_eq_some,
      Option.pure_def, Option.some.injEq, Option.ite_none_right_eq_some] at h
    obtain ⟨q, h1, hg, rt2, h2, heq⟩ := h
    subst heq
    obtain ⟨hfa, hra⟩ := store_rr_fresh _ i q hrt1 (fun hq => hq)
      (fun hq => hq) h1
    obtain ⟨hfb, hrb⟩ := mw_cpu_fresh_mem _ _ _ rt2 hfa
      (by
        intro hq
        rcases hq with (hq | hq) | hq
        · exact hq
        · exact absurd hq (by decide)
        · exact absurd hq (by decide)) h2
    refine finishCycle_fresh _ _ _ _ _ _ _ _ hfb
      (subLt4 (subLt4 (subLt4 falseLt4 2 (by decide)) 3 (by decide)) 0
        (by decide)) ?_
    intro e he
    rw [hrb, hra] at he
    exact hev0 e he
  case SW =>
    simp only [Runtime.execute, hoc, Option.bind_eq_bind, Option.bind_eq_some,
      Option.pure_def, Option.some.injEq, Option.ite_none_right_eq_some] at h
    obtain ⟨q, h1, hg, rt2, h2, heq⟩ := h
    subst heq
    obtain ⟨hfa, hra⟩ := store_rr_fresh _ i q hrt1 (fun hq => hq)
      (fun hq => hq) h1
    obtain ⟨hfb, hrb⟩ := mw_cpu_fresh_mem _ _ _ rt2 hfa
      (by
        intro hq
        rcases hq with (hq | hq) | hq
        · exact hq
        · exact absurd hq (by decide)
        · exact absurd hq (by decide)) h2
    refine finishCycle_fresh _ _ _ _ _ _ _ _ hfb
      (subLt4 (subLt4 (subLt4 falseLt4 2 (by decide)) 3 (by decide)) 0
        (by decide)) ?_
    intro e he
    rw [hrb, hra] at he
    exact hev0 e he
  case BEQ =>
    simp only [Runtime.execute, hoc, Option.bind_eq_bind, Option.bind_eq_some,
      Option.pure_def, Option.some.injEq, Option.ite_none_right_eq_some] at h
    obtain ⟨q, h1, heq⟩ := h
    subst heq
    obtain ⟨hfa, hra⟩ := branch_rr_fresh _ i q hrt1 (fun hq => hq)
      (fun hq => hq) h1
    refine finishCycle_fresh _ _ _ _ _ _ _ _ hfa
      (subLt4 (subLt4 falseLt4 2 (by decide)) 3 (by decide)) ?_
    intro e he
    rw [hra] at he
    exact hev0 e he
  case BNE =>
    simp only [Runtime.execute, hoc, Option.bind_eq_bind, Option.bind_eq_some,
      Option.pure_def, Option.some.injEq, Option.ite_none_right_eq_some] at h
    obtain ⟨q, h1, heq⟩ := h
    subst heq
    obtain ⟨hfa, hra⟩ := branch_rr_fresh _ i q hrt1 (fun hq => hq)
      (fun hq => hq) h1
    refine finishCycle_fresh _ _ _ _ _ _ _ _ hfa
      (subLt4 (subLt4 falseLt4 2 (by decide)) 3 (by decide)) ?_
    intro e he
    rw [hra] at he
    exact hev0 e he
  case BLT =>
    simp only [Runtime.execute, hoc, Option.bind_eq_bind, Option.bind_eq_some,
      Option.pure_def, Option.some.injEq, Option.ite_none_right_eq_some] at h
    obtain ⟨q, h1, heq⟩ := h
    subst heq
    obtain ⟨hfa, hra⟩ := branch_rr_fresh _ i q hrt1 (fun hq => hq)
      (fun hq => hq) h1
    refine finishCycle_fresh _ _ _ _ _ _ _ _ hfa
      (subLt4 (subLt4 falseLt4 2 (by decide)) 3 (by decide)) ?_
    intro e he
    rw [hra] at he
    exact hev0 e he
  case BGE =>
    simp only [Runtime.execute, hoc, Option.bind_eq_bind, Option.bind_eq_some,
      Option.pure_def, Option.some.injEq, Option.ite_none_right_eq_some] at h
    obtain ⟨q, h1, heq⟩ := h
    subst heq
    obtain ⟨hfa, hra⟩ := branch_rr_fresh _ i q hrt1 (fun hq => hq)
      (fun hq => hq) h1
    refine finishCycle_fresh _ _ _ _ _ _ _ _ hfa
      (subLt4 (subLt4 falseLt4 2 (by decide)) 3 (by decide)) ?_
    intro e he
    rw [hra] at he
    exact hev0 e he
  case BLTU =>
    simp only [Runtime.execute, hoc, Option.bind_eq_bind, Option.bind_eq_some,
      Option.pure_def, Option.some.injEq, Option.ite_none_right_eq_some] at h
    obtain ⟨q, h1, heq⟩ := h
    subst heq
    obtain ⟨hfa, hra⟩ := branch_rr_fresh _ i q hrt1 (fun hq => hq)
      (fun hq => hq) h1
    refine finishCycle_fresh _ _ _ _ _ _ _ _ hfa
      (subLt4 (subLt4 falseLt4 2 (by decide)) 3 (by decide)) ?_
    intro e he
    rw [hra] at he
    exact hev0 e he
  case BGEU =>
    simp only [Runtime.execute, hoc, Option.bind_eq_bind, Option.bind_eq_some,
      Option.pure_def, Option.some.injEq, Option.ite_none_right_eq_some] at h
    obtain ⟨q, h1, heq⟩ := h
    subst heq
    obtain ⟨hfa, hra⟩ := branch_rr_fresh _ i q hrt1 (fun hq => hq)
      (fun hq => hq) h1
    refine finishCycle_fresh _ _ _ _ _ _ _ _ hfa
      (subLt4 (subLt4 falseLt4 2 (by decide)) 3 (by decide)) ?_
    intro e he
    rw [hra] at he
    exact hev0 e he
  case JAL =>
    simp only [Runtime.execute, hoc, Option.bind_eq_bind, Option.bind_eq_some,
      Option.pure_def, Option.some.injEq, Option.ite_none_right_eq_some] at h
    obtain ⟨t, ht, rt2, h2, heq⟩ := h
    subst heq
    obtain ⟨hfb, hrb⟩ := rw_fresh _ _ _ rt2 hrt1 (fun hq => hq) h2
    refine finishCycle_fresh _ _ _ _ _ _ _ _ hfb
      (subLt4 falseLt4 3 (by decide)) ?_
    intro e he
    rw [hrb] at he
    exact hev0 e he
  case JALR =>
    simp only [Runtime.execute, hoc, Option.bind_eq_bind, Option.bind_eq_some,
      Option.pure_def, Option.some.injEq, Option.ite_none_right_eq_some] at h
    obtain ⟨t, ht, p1, h1, rt2, h2, heq⟩ := h
    subst heq
    obtain ⟨hfa, hra⟩ := rr_fresh_B _ _ p1 hrt1 (fun hq => hq) h1
    obtain ⟨hfb, hrb⟩ := rw_fresh _ _ _ rt2 hfa
      (by
        intro hq
        rcases hq with hq | hq
        · exact hq
        · exact absurd hq (by decide)) h2
    refine finishCycle_fresh _ _ _ _ _ _ _ _ hfb
      (subLt4 (subLt4 falseLt4 2 (by decide)) 3 (by decide)) ?_
    intro e he
    rw [hrb, hra] at he
    exact hev0 e he
  case AUIPC =>
    simp only [Runtime.execute, hoc, Option.bind_eq_bind, Option.bind_eq_some,
      Option.pure_def, Option.some.injEq, Option.ite_none_right_eq_some] at h
    obtain ⟨t, ht, rt2, h2, heq⟩ := h
    subst heq
    obtain ⟨hfb, hrb⟩ := rw_fresh _ _ _ rt2 hrt1 (fun hq => hq) h2
    refine finishCycle_fresh _ _ _ _ _ _ _ _ hfb
      (subLt4 falseLt4 3 (by decide)) ?_
    intro e he
    rw [hrb] at he
    exact hev0 e he
  case ECALL =>
    simp only [Runtime.execute, hoc, replaceRec_register, replaceRec_state]
      at h
    cases hl : sys.lookup (rt.register 5) with
    | none => rw [hl] at h; exact Option.noConfusion h
    | some s =>
      rw [hl] at h
      simp only [Option.bind_eq_bind, Option.bind_eq_some, Option.pure_def,
        Option.some.injEq, Option.ite_none_right_eq_some] at h
      obtain ⟨out, hrun, hclk, rt2, hrw, p, hrr, heq⟩ := h
      subst heq
      obtain ⟨hfo, hevo⟩ := hsys _ _ hl _ _ hrun ⟨hrt1, hev0⟩
      obtain ⟨hfw, hrw2⟩ := rw_fresh _ _ _ rt2 hfo (fun hq => hq) hrw
      obtain ⟨hfr, hrr2⟩ := rr_fresh_B _ _ p hfw
        (by
          intro hq
          rcases hq with hq | hq
          · exact hq
          · exact absurd hq (by decide)) hrr
      refine finishCycle_fresh _ _ _ _ _ _ _ _ hfr
        (subLt4 (subLt4 falseLt4 3 (by decide)) 2 (by decide)) ?_
      intro e he
      rw [hrr2, hrw2] at he
      exact hevo e he
  case EBREAK =>
    simp only [Runtime.execute, hoc] at h
    exact Option.noConfusion h
  case UNIMP =>
    simp only [Runtime.execute, hoc] at h
    exact Option.noConfusion h

/-- The end-of-cycle bookkeeping restores the between-cycles freshness
invariant: `clk += 4` pushes every in-cycle stamp strictly into the past,
and a shard rollover pushes the whole shard into the past. -/
theorem advanceClock_fresh (rt : Runtime) (M : Nat) (h : FreshPost rt) :
    FreshInv (rt.advanceClock M) := by
  obtain ⟨h1, hmem, hcr, hev⟩ := h
  unfold Runtime.advanceClock
  by_cases hc : (!rt.unconstrained &&
      decide (rt.shard_size * 4 ≤ M + (rt.state.clk + 4))) = true
  · rw [if_pos hc]
    refine ⟨⟨?_, ?_, hcr⟩, hev⟩
    · show 1 ≤ rt.state.current_shard + 1
      omega
    · show MemAlmost (rt.state.current_shard + 1) 0 (fun _ => False)
        rt.state.memory
      intro a v s t ha
      rcases hmem a v s t ha with hh | ⟨hs, -⟩
      · exact Or.inl (by omega)
      · exact Or.inl (by omega)
  · rw [if_neg hc]
    refine ⟨⟨h1, ?_, hcr⟩, hev⟩
    show MemAlmost rt.state.current_shard (rt.state.clk + 4)
      (fun _ => False) rt.state.memory
    intro a v s t ha
    rcases hmem a v s t ha with hh | ⟨hs, hr⟩
    · exact Or.inl hh
    · refine Or.inr ⟨hs, Or.inl ?_⟩
      rcases hr with hh | ⟨q, hq, ht⟩
      · omega
      · have hq4 : q < 4 := hq
        omega

/-- The between-cycles freshness invariant is preserved by any number of
main-loop iterations (for `ECALL`, by the handler hypothesis). -/
theorem stepN_fresh (sys : SyscallEnv)
    (hsys : SyscallEnvPreserves FreshInv sys) :
    ∀ fuel (rt rt' : Runtime), FreshInv rt →
      Runtime.stepN sys fuel rt = some rt' → FreshInv rt' := by
  intro fuel
  induction fuel with
  | zero =>
    intro rt rt' h0 h
    obtain rfl := (Option.some.injEq _ _).mp h
    exact h0
  | succ n ih =>
    intro rt rt' h0 h
    rw [Runtime.stepN] at h
    by_cases hin : rt.inRange
    · rw [if_pos hin] at h
      simp only [Option.bind_eq_bind, Option.bind_eq_some] at h
      obtain ⟨i, hfetch, rt1, hexec, hrest⟩ := h
      exact ih _ _
        (advanceClock_fresh rt1 _
          (execute_fresh sys rt i rt1 hsys h0 hexec)) hrest
    · rw [if_neg hin] at h
      obtain rfl := (Option.some.injEq _ _).mp h
      exact h0

/-- Every cell written by `loadImage` carries the reserved stamp `(0, 0)`;
every other cell is whatever the underlying map held. -/
theorem loadImage_stamp (image : List (Nat × Nat)) :
    ∀ (m : Mem) (x : Nat), loadImage image m x = m x ∨
      ∃ v, loadImage image m x = some (v, 0, 0) := by
  induction image with
  | nil => intro m x; exact Or.inl rfl
  | cons p ps ih =>
    intro m x
    have hstep : loadImage (p :: ps) m =
        loadImage ps (m.set p.1 (p.2, 0, 0)) := rfl
    rw [hstep]
    rcases ih (m.set p.1 (p.2, 0, 0)) x with hh | ⟨v, hv⟩
    · rw [hh]
      by_cases hx : x = p.1
      · subst hx
        exact Or.inr ⟨p.2, by simp [Mem.set]⟩
      · exact Or.inl (by simp [Mem.set, hx])
    · exact Or.inr ⟨v, hv⟩

/-- The state on entry to the main loop satisfies the freshness invariant:
the image stamps `(0, 0)` lie in shard `0`, strictly before the current
shard `1`. -/
theorem start_fresh (env : Nat) (prog : Program) :
    FreshInv (Runtime.start env prog) := by
  refine ⟨⟨?_, ?_, cpuRecordFresh_empty⟩, ?_⟩
  · show (1 : Nat) ≤ 1
    exact Nat.le_refl 1
  · show MemAlmost 1 1 (fun _ => False)
      (loadImage prog.memory_image (fun _ => none))
    intro a v s t ha
    rcases loadImage_stamp prog.memory_image (fun _ => none) a
      with hh | ⟨w, hw⟩
    · rw [hh] at ha
      exact Option.noConfusion ha
    · rw [hw] at ha
      simp only [Option.some.injEq, Prod.mk.injEq] at ha
      obtain ⟨-, h2, -⟩ := ha
      exact Or.inl (by omega)
  · intro e he
    exact absurd he (List.not_mem_nil e)

/-- C9 (confirmed): for every call to `mr` or `mw` made on behalf of an
executed instruction, the record returned never has its current
`(shard, clk)` pair equal to the `(prev_shard, prev_timestamp)` pair it
reports for the same address: in every state reachable by the main loop
from the start state, all records stashed in the per-cycle `CpuRecord`
(`recordFresh` via `CpuRecordFresh`) and all records carried by emitted CPU
events (`eventFresh`) satisfy the inequality.  Syscall handler bodies are
external to the given sources; the hypothesis asks them to preserve the
freshness invariant, which the empty registry does vacuously. -/
theorem mem_records_never_previous (shardSizeEnv fuel : Nat)
    (prog : Program) (sys : SyscallEnv) (rt' : Runtime)
    (hsys : SyscallEnvPreserves FreshInv sys)
    (hrun : Runtime.stepN sys fuel (Runtime.start shardSizeEnv prog)
      = some rt') :
    CpuRecordFresh rt'.cpu_record ∧
      ∀ e ∈ rt'.record.cpu_events, eventFresh e := by
  obtain ⟨hf, hev⟩ :=
    stepN_fresh sys hsys fuel _ rt' (start_fresh shardSizeEnv prog) hrun
  exact ⟨hf.cr, hev⟩

/-- Witness for C9 at a concrete program, fuel and the empty registry. -/
theorem mem_records_never_previous_witness :
    ∃ rt', Runtime.stepN [] 2 (Runtime.start 1 fourAddProgram) = some rt' ∧
      (CpuRecordFresh rt'.cpu_record ∧
        ∀ e ∈ rt'.record.cpu_events, eventFresh e) := by
  have hsome :
      (Runtime.stepN [] 2 (Runtime.start 1 fourAddProgram)).isSome =
        true := rfl
  exact ⟨_, (Option.some_get hsome).symm,
    mem_records_never_previous 1 2 fourAddProgram [] _
      (emptySyscallEnv_preserves FreshInv) (Option.some_get hsome).symm⟩

end SP1
